import Mathlib

/-!
# Ludumdare51 ray tracer: embedding and verified properties

The C++ sources (vec3.h, ray.h, common.h, hittable.h, material.h, camera.h,
main.cpp) are embedded as pure functions.

Conventions of the embedding:

* `float`/`double` scalars are elements of a linear ordered field `F` (exact
  arithmetic).  Rounding, NaN and infinities are outside the model; division
  by zero follows the field convention `x / 0 = 0`.
* `sqrt` is not a field operation, so the square-root routine is a parameter
  `sqrt : F → F` of every function that calls it.  Theorems state what they
  need of it at the points where it is applied.
* An out-parameter `hit& rec` is passed in and returned: a test returns
  `(result, rec after the call)`, so writes that happen before a `return false`
  are visible exactly as in the source.
* `drand48` is a stream of draws `Rng F`; every function that draws takes the
  stream and returns the remaining stream.  The rejection loop of
  `randomInUnitSphere` is bounded by a `fuel` argument and returns `none` when
  the fuel runs out.
* Globals (`g_world`, `g_camera`, `g_background`) are explicit arguments.
* The conversions `static_cast<unsigned char>` and `int(float)` are parameters
  `toUChar : F → Nat` and `toInt : F → Int`; `int` counters are unbounded
  integers.
* The buffers `data`, `rayCounter` and `byteBuffer` are maps from the element
  index.  `draw` yields `none` for a pixel index outside the buffers, and a
  run of `sendRay` ends as finished, unfinished (a budget ran out) or with an
  access outside the buffers.
-/

namespace Ludumdare51

/-! ## vec3.h -/

/-- Three scalar components; `r g b` of the source alias `x y z`. -/
@[ext]
structure vec3 (F : Type) where
  x : F
  y : F
  z : F
deriving DecidableEq

namespace vec3

variable {F : Type} [LinearOrderedField F]

/-- Default constructor `vec3()`. -/
def zero : vec3 F := ⟨0, 0, 0⟩

/-- Unary `operator-`. -/
def neg (v : vec3 F) : vec3 F := ⟨-v.x, -v.y, -v.z⟩

/-- Binary `operator+`. -/
def add (u v : vec3 F) : vec3 F := ⟨u.x + v.x, u.y + v.y, u.z + v.z⟩

/-- Binary `operator-`. -/
def sub (u v : vec3 F) : vec3 F := ⟨u.x - v.x, u.y - v.y, u.z - v.z⟩

/-- Component-wise `operator*`. -/
def mul (u v : vec3 F) : vec3 F := ⟨u.x * v.x, u.y * v.y, u.z * v.z⟩

/-- Scalar `operator*(float t, const vec3 &v)`. -/
def smul (t : F) (v : vec3 F) : vec3 F := ⟨t * v.x, t * v.y, t * v.z⟩

/-- Scalar `operator/(vec3 v, float t)`, which is `(1/t) * v`. -/
def sdiv (v : vec3 F) (t : F) : vec3 F := smul (1 / t) v

instance : Neg (vec3 F) := ⟨neg⟩
instance : Add (vec3 F) := ⟨add⟩
instance : Sub (vec3 F) := ⟨sub⟩
instance : Mul (vec3 F) := ⟨mul⟩
instance : HMul F (vec3 F) (vec3 F) := ⟨smul⟩
instance : HDiv (vec3 F) F (vec3 F) := ⟨sdiv⟩

/-- Member `length_squared`. -/
def length_squared (v : vec3 F) : F := v.x * v.x + v.y * v.y + v.z * v.z

/-- Member `length`. -/
def length (sqrt : F → F) (v : vec3 F) : F := sqrt v.length_squared

/-- Member `near_zero`, with `s = 1e-8`. -/
def near_zero (v : vec3 F) : Bool :=
  decide (|v.x| < 1 / 100000000) && decide (|v.y| < 1 / 100000000)
    && decide (|v.z| < 1 / 100000000)

end vec3

section Vec3Functions

variable {F : Type} [LinearOrderedField F]

/-- Function `dot`. -/
def dot (u v : vec3 F) : F := u.x * v.x + u.y * v.y + u.z * v.z

/-- Function `cross`. -/
def cross (u v : vec3 F) : vec3 F :=
  ⟨u.y * v.z - u.z * v.y, u.z * v.x - u.x * v.z, u.x * v.y - u.y * v.x⟩

/-- Function `reflect`. -/
def reflect (v n : vec3 F) : vec3 F := v - (2 * dot v n) * n

/-- Function `unitVector`. -/
def unitVector (sqrt : F → F) (v : vec3 F) : vec3 F := v / v.length sqrt

/-- Function `refract`. -/
def refract (sqrt : F → F) (uv n : vec3 F) (etai_over_etat : F) : vec3 F :=
  let cos_theta := min (dot (-uv) n) 1
  let r_out_perp := etai_over_etat * (uv + cos_theta * n)
  let r_out_parallel := (-(sqrt |1 - r_out_perp.length_squared|)) * n
  r_out_perp + r_out_parallel

end Vec3Functions

/-! ## ray.h -/

/-- Class `Ray`. -/
@[ext]
structure Ray (F : Type) where
  origin : vec3 F
  direction : vec3 F
deriving DecidableEq

namespace Ray

variable {F : Type} [LinearOrderedField F]

/-- Default constructor `Ray()`: both members are default `vec3`s. -/
def default : Ray F := ⟨vec3.zero, vec3.zero⟩

/-- Member `at`. -/
def «at» (r : Ray F) (t : F) : vec3 F := r.origin + t * r.direction

end Ray

/-! ## material.h: the data of the material classes -/

/-- The subclasses of `Material`, with their data members. -/
inductive Material (F : Type) where
  | Unlit (albedo : vec3 F)
  | Lambertian (albedo : vec3 F)
  | Metal (albedo : vec3 F) (fuzz : F)
  | Light (lightColor : vec3 F)
  | Dielectric (ir : F)
  | Special (lightColor : vec3 F)
deriving DecidableEq

/-! ## hittable.h -/

/-- Struct `hit`.  `mat_ptr` is a possibly-null shared pointer. -/
@[ext]
structure hit (F : Type) where
  point : vec3 F
  normal : vec3 F
  mat_ptr : Option (Material F)
  t : F
  specialObject : Bool
deriving DecidableEq

namespace hit

variable {F : Type} [LinearOrderedField F]

/-- A default-constructed record `hit rec;`.  The source leaves `t`
uninitialised; it is written by every successful test before it is read. -/
def default : hit F :=
  { point := vec3.zero, normal := vec3.zero, mat_ptr := none, t := 0, specialObject := false }

end hit

/-- Data members of class `Sphere`. -/
structure Sphere (F : Type) where
  center : vec3 F
  radius : F
  mat_ptr : Material F

/-- Data members of class `Triangle`. -/
structure Triangle (F : Type) where
  p0 : vec3 F
  p1 : vec3 F
  p2 : vec3 F
  mat_ptr : Material F

/-- Data members of class `Quad`: two triangles. -/
structure Quad (F : Type) where
  a : Triangle F
  b : Triangle F

/-- Data members of class `RectXY`. -/
structure RectXY (F : Type) where
  pos : vec3 F
  w : F
  h : F
  mat_ptr : Material F

/-- The subclasses of `Hittable`.  `HittableList` and `BadEend` carry the
inherited `objects` vector; `RotateZ` carries the sine and cosine stored by
its constructor. -/
inductive Hittable (F : Type) where
  | Sphere (s : Sphere F)
  | Triangle (t : Triangle F)
  | Quad (q : Quad F)
  | RectXY (q : RectXY F)
  | HittableList (objects : List (Hittable F))
  | BadEend (objects : List (Hittable F))
  | Translate (ptr : Hittable F) (displacement : vec3 F)
  | RotateZ (ptr : Hittable F) (sin_theta cos_theta : F)

section Primitives

variable {F : Type} [LinearOrderedField F]

/-- Macro `EPSILON`. -/
def EPSILON : F := 1 / 1000000

/-- Method `Sphere::trace`. -/
def Sphere.trace (sqrt : F → F) (s : Sphere F) (r : Ray F) (t_min t_max : F)
    (rec : hit F) : Bool × hit F :=
  let oc := r.origin - s.center
  let a := r.direction.length_squared
  let half_b := dot oc r.direction
  let c := oc.length_squared - s.radius * s.radius
  let discriminant := half_b * half_b - a * c
  if discriminant < 0 then (false, rec)
  else
    let sqrtd := sqrt discriminant
    let root := (-half_b - sqrtd) / a
    let root2 := (-half_b + sqrtd) / a
    if root < t_min ∨ t_max < root then
      if root2 < t_min ∨ t_max < root2 then (false, rec)
      else
        let point := r.at root2
        (true, { rec with t := root2, point := point,
                          normal := unitVector sqrt ((point - s.center) / s.radius),
                          mat_ptr := some s.mat_ptr })
    else
      let point := r.at root
      (true, { rec with t := root, point := point,
                        normal := unitVector sqrt ((point - s.center) / s.radius),
                        mat_ptr := some s.mat_ptr })

/-- Method `Triangle::trace`.  The record is written before the range check,
so a rejected hit still leaves its fields in `rec`. -/
def Triangle.trace (sqrt : F → F) (tr : Triangle F) (r : Ray F) (t_min t_max : F)
    (rec : hit F) : Bool × hit F :=
  let edge1 := tr.p1 - tr.p0
  let edge2 := tr.p2 - tr.p0
  let pvec := cross r.direction edge2
  let determinant := dot edge1 pvec
  if -EPSILON < determinant ∧ determinant < EPSILON then (false, rec)
  else
    let inverse_determinant := 1 / determinant
    let tvec := r.origin - tr.p0
    let u := dot tvec pvec * inverse_determinant
    if u < 0 ∨ u > 1 then (false, rec)
    else
      let qvec := cross tvec edge1
      let v := dot r.direction qvec * inverse_determinant
      if v < 0 ∨ u + v > 1 then (false, rec)
      else
        let t := dot edge2 qvec * inverse_determinant
        let rec1 : hit F :=
          { rec with t := t, point := r.at t,
                     normal := unitVector sqrt (cross edge1 edge2),
                     mat_ptr := some tr.mat_ptr }
        if t < t_min ∨ t > t_max then (false, rec1)
        else (true, rec1)

/-- Constructor `Quad(p0, p1, p2, p3, m)`. -/
def Quad.new (p0 p1 p2 p3 : vec3 F) (m : Material F) : Quad F :=
  { a := ⟨p0, p1, p2, m⟩, b := ⟨p2, p3, p0, m⟩ }

/-- Method `Quad::trace`. -/
def Quad.trace (sqrt : F → F) (q : Quad F) (r : Ray F) (t_min t_max : F)
    (rec : hit F) : Bool × hit F :=
  let ra := q.a.trace sqrt r t_min t_max rec
  if ra.1 then (true, ra.2)
  else
    let rb := q.b.trace sqrt r t_min t_max ra.2
    if rb.1 then (true, rb.2)
    else (false, rb.2)

/-- Method `RectXY::trace`. -/
def RectXY.trace (q : RectXY F) (r : Ray F) (_t_min _t_max : F)
    (rec : hit F) : Bool × hit F :=
  let t := (q.pos.z - r.origin.z) / r.direction.z
  let x := (r.at t).x
  let y := (r.at t).y
  if q.pos.x + q.w < x ∨ q.pos.x - q.w > x ∨ q.pos.y + q.h < y ∨ q.pos.y - q.h > y then
    (false, rec)
  else
    (true, { rec with t := t, point := r.at t, normal := ⟨0, 0, 1⟩,
                      mat_ptr := some q.mat_ptr })

/-- The initial value of `closest_so_far` in `HittableList::trace`.  The
source writes the literal `9999999999.0f`; floats of that size are 1024 apart
and the nearest one, which is the value of the literal, is 10000000000. -/
def CLOSEST_INIT : F := 10000000000

/-- The locals of the loop in `HittableList::trace` together with the
out-parameter `rec` (field `rec_`). -/
structure ListState (F : Type) where
  temp_hit : hit F
  hit_anything : Bool
  closest_so_far : F
  rec_ : hit F

/-- One iteration of the loop body of `HittableList::trace`, given the
outcome `res` of `object->trace(r, t_min, closest_so_far, temp_hit)`. -/
def ListState.step (st : ListState F) (res : Bool × hit F) : ListState F :=
  if res.1 then
    { temp_hit := res.2, hit_anything := true, closest_so_far := res.2.t, rec_ := res.2 }
  else
    { st with temp_hit := res.2 }

end Primitives

section Dispatch

variable {F : Type} [LinearOrderedField F]

mutual

/-- Virtual method `Hittable::trace`, dispatched on the dynamic class. -/
def Hittable.trace (sqrt : F → F) : Hittable F → Ray F → F → F → hit F → Bool × hit F
  | .Sphere s, r, t_min, t_max, rec => s.trace sqrt r t_min t_max rec
  | .Triangle t, r, t_min, t_max, rec => t.trace sqrt r t_min t_max rec
  | .Quad q, r, t_min, t_max, rec => q.trace sqrt r t_min t_max rec
  | .RectXY q, r, t_min, t_max, rec => q.trace r t_min t_max rec
  | .HittableList objects, r, t_min, _t_max, rec =>
      -- `HittableList::trace`: `t_max` is not used
      let st := HittableList.loop sqrt objects r t_min
        { temp_hit := hit.default, hit_anything := false,
          closest_so_far := CLOSEST_INIT, rec_ := rec }
      (st.hit_anything, st.rec_)
  | .BadEend objects, r, t_min, _t_max, rec =>
      -- `BadEend::trace` calls `HittableList::trace` and tags the record
      let st := HittableList.loop sqrt objects r t_min
        { temp_hit := hit.default, hit_anything := false,
          closest_so_far := CLOSEST_INIT, rec_ := rec }
      if st.hit_anything then (true, { st.rec_ with specialObject := true })
      else (false, st.rec_)
  | .Translate ptr displacement, r, t_min, t_max, rec =>
      let newR : Ray F := ⟨r.origin - displacement, r.direction⟩
      let res := Hittable.trace sqrt ptr newR t_min t_max rec
      if !res.1 then (false, res.2)
      else (true, { res.2 with point := res.2.point + displacement })
  | .RotateZ ptr sin_theta cos_theta, r, t_min, t_max, rec =>
      let origin : vec3 F :=
        ⟨cos_theta * r.origin.x - sin_theta * r.origin.y,
         sin_theta * r.origin.x + cos_theta * r.origin.y, r.origin.z⟩
      let direction : vec3 F :=
        ⟨cos_theta * r.direction.x - sin_theta * r.direction.y,
         sin_theta * r.direction.x + cos_theta * r.direction.y, r.direction.z⟩
      let rotated_r : Ray F := ⟨origin, direction⟩
      let res := Hittable.trace sqrt ptr rotated_r t_min t_max rec
      if !res.1 then (false, res.2)
      else
        let p : vec3 F :=
          ⟨cos_theta * res.2.point.x + sin_theta * res.2.point.y,
           -sin_theta * res.2.point.x + cos_theta * res.2.point.y, res.2.point.z⟩
        let newNormal : vec3 F :=
          ⟨cos_theta * res.2.normal.x + sin_theta * res.2.normal.y,
           -sin_theta * res.2.normal.x + cos_theta * res.2.normal.y, res.2.normal.z⟩
        (true, { res.2 with point := p, normal := newNormal })

/-- The `for (const auto& object : objects)` loop of `HittableList::trace`. -/
def HittableList.loop (sqrt : F → F) :
    List (Hittable F) → Ray F → F → ListState F → ListState F
  | [], _, _, st => st
  | object :: rest, r, t_min, st =>
      HittableList.loop sqrt rest r t_min
        (st.step (Hittable.trace sqrt object r t_min st.closest_so_far st.temp_hit))

end

/-- Constructor `BadEend(m, m2)`: the two generated triangle lists `body`
(material `m`) and `bekkie` (material `m2`) are arguments here; each is added
to the inherited `objects` as a `HittableList` of its own. -/
def BadEend.new (body bekkie : List (Hittable F)) : Hittable F :=
  .BadEend [.HittableList body, .HittableList bekkie]

end Dispatch

/-! ## common.h: random numbers -/

/-- The stream of values that successive `drand48()` calls return. -/
def Rng (F : Type) : Type := Nat → F

namespace MATH

variable {F : Type} [LinearOrderedField F]

/-- Function `remap`. -/
def remap (value from1 to1 from2 to2 : F) : F :=
  (value - from1) / (to1 - from1) * (to2 - from2) + from2

/-- Function `random()`: the next draw and the remaining stream. -/
def random (g : Rng F) : F × Rng F := (g 0, fun n => g (n + 1))

/-- Function `random(min, max)`. -/
def randomRange (min max : F) (g : Rng F) : F × Rng F :=
  (remap (random g).1 0 1 min max, (random g).2)

/-- Function `randomInUnitSphere`: the `while (true)` rejection loop, bounded
by `fuel` iterations.  The three coordinates are drawn in the order x, y, z. -/
def randomInUnitSphere : Nat → Rng F → Option (vec3 F × Rng F)
  | 0, _ => none
  | fuel + 1, g =>
      let dx := randomRange (-1) 1 g
      let dy := randomRange (-1) 1 dx.2
      let dz := randomRange (-1) 1 dy.2
      let p : vec3 F := ⟨dx.1, dy.1, dz.1⟩
      if p.length_squared ≥ 1 then randomInUnitSphere fuel dz.2
      else some (p, dz.2)

/-- Function `randomUnitVector`. -/
def randomUnitVector (sqrt : F → F) (fuel : Nat) (g : Rng F) : Option (vec3 F × Rng F) :=
  match randomInUnitSphere fuel g with
  | none => none
  | some pg => some (unitVector sqrt pg.1, pg.2)

end MATH

/-! ## material.h: methods -/

/-- What a `scatter` call leaves behind: its return value, the two
out-parameters and the random stream. -/
structure ScatterResult (F : Type) where
  ok : Bool
  outColor : vec3 F
  scattered : Ray F
  rng : Rng F

namespace Material

variable {F : Type} [LinearOrderedField F]

/-- Constructor `Metal(a, f)`, which stores `f < 1 ? f : 1`. -/
def newMetal (a : vec3 F) (f : F) : Material F := .Metal a (if f < 1 then f else 1)

/-- Virtual method `emitted`; the base class returns black. -/
def emitted : Material F → vec3 F
  | .Unlit albedo => albedo
  | .Light lightColor => lightColor
  | .Special lightColor => lightColor
  | _ => ⟨0, 0, 0⟩

/-- Static method `Dielectric::reflectance`. -/
def reflectance (cosine ref_idx : F) : F :=
  let r0 := (1 - ref_idx) / (1 + ref_idx)
  let r0 := r0 * r0
  r0 + (1 - r0) * (1 - cosine) ^ 5

/-- The scatter law shared by `Lambertian::scatter` and `Special::scatter`. -/
def scatterDiffuse (sqrt : F → F) (fuel : Nat) (color : vec3 F) (rec : hit F)
    (g : Rng F) : Option (ScatterResult F) :=
  match MATH.randomUnitVector sqrt fuel g with
  | none => none
  | some ug =>
      let scatter_direction := rec.normal + ug.1
      let scatter_direction :=
        if scatter_direction.near_zero then rec.normal else scatter_direction
      some { ok := true, outColor := color, scattered := ⟨rec.point, scatter_direction⟩,
             rng := ug.2 }

/-- Virtual method `scatter`.  `outColor` and `scattered` are the values the
out-parameters hold before the call. -/
def scatter (sqrt : F → F) (fuel : Nat) (m : Material F) (r_in : Ray F) (rec : hit F)
    (outColor : vec3 F) (scattered : Ray F) (g : Rng F) : Option (ScatterResult F) :=
  match m with
  | .Unlit albedo =>
      some { ok := true, outColor := albedo, scattered := scattered, rng := g }
  | .Lambertian albedo => scatterDiffuse sqrt fuel albedo rec g
  | .Metal albedo fuzz =>
      let reflected := reflect (unitVector sqrt r_in.direction) rec.normal
      match MATH.randomInUnitSphere fuel g with
      | none => none
      | some pg =>
          let scattered1 : Ray F := ⟨rec.point, reflected + fuzz * pg.1⟩
          some { ok := decide (dot scattered1.direction rec.normal > 0), outColor := albedo,
                 scattered := scattered1, rng := pg.2 }
  | .Light _ =>
      some { ok := false, outColor := outColor, scattered := scattered, rng := g }
  | .Dielectric ir =>
      let refraction_ratio := 1 / ir
      let unit_direction := unitVector sqrt r_in.direction
      let cos_theta := min (dot (-unit_direction) rec.normal) 1
      let sin_theta := sqrt (1 - cos_theta * cos_theta)
      if refraction_ratio * sin_theta > 1 then
        some { ok := true, outColor := ⟨1, 1, 1⟩,
               scattered := ⟨rec.point, reflect unit_direction rec.normal⟩, rng := g }
      else
        let d := MATH.random g
        let direction :=
          if reflectance cos_theta refraction_ratio > d.1 then
            reflect unit_direction rec.normal
          else refract sqrt unit_direction rec.normal refraction_ratio
        some { ok := true, outColor := ⟨1, 1, 1⟩, scattered := ⟨rec.point, direction⟩,
               rng := d.2 }
  | .Special lightColor => scatterDiffuse sqrt fuel lightColor rec g

end Material

/-! ## camera.h -/

/-- Data members of class `Camera`. -/
structure Camera (F : Type) where
  lookfrom : vec3 F
  lookat : vec3 F
  vup : vec3 F
  origin : vec3 F
  lower_left_corner : vec3 F
  horizontal : vec3 F
  vertical : vec3 F

namespace Camera

variable {F : Type} [LinearOrderedField F]

/-- Method `update`. -/
def update (sqrt : F → F) (c : Camera F) : Camera F :=
  let aspectRatio : F := 1
  let viewportHeight : F := 2
  let viewportWidth : F := aspectRatio * viewportHeight
  let w := unitVector sqrt (c.lookfrom - c.lookat)
  let u := unitVector sqrt (cross c.vup w)
  let v := cross w u
  let origin := c.lookfrom
  let horizontal := viewportWidth * u
  let vertical := viewportHeight * v
  { c with origin := origin, horizontal := horizontal, vertical := vertical,
           lower_left_corner := origin - horizontal / (2 : F) - vertical / (2 : F) - w }

/-- Constructor `Camera(lookfrom, lookat, vup)`. -/
def new (sqrt : F → F) (lookfrom lookat vup : vec3 F) : Camera F :=
  update sqrt { lookfrom := lookfrom, lookat := lookat, vup := vup, origin := vec3.zero,
                lower_left_corner := vec3.zero, horizontal := vec3.zero,
                vertical := vec3.zero }

/-- Method `setPosition`. -/
def setPosition (sqrt : F → F) (c : Camera F) (pos : vec3 F) : Camera F :=
  update sqrt { c with lookfrom := pos }

/-- Method `setLookat`. -/
def setLookat (sqrt : F → F) (c : Camera F) (pos : vec3 F) : Camera F :=
  update sqrt { c with lookat := pos }

/-- Method `getRay`. -/
def getRay (c : Camera F) (s t : F) : Ray F :=
  ⟨c.origin, c.lower_left_corner + s * c.horizontal + t * c.vertical - c.origin⟩

end Camera

/-! ## main.cpp -/

section Main

variable {F : Type} [LinearOrderedField F]

/-- Macro `INF`, which is 999999.9. -/
def INF : F := 9999999 / 10

/-- The lower bound 0.001 that `trace` and `raycast` pass as `t_min`. -/
def T_MIN : F := 1 / 1000

/-- Function `trace` of main.cpp (the integrator).  The result is the colour
and the random stream left over; `none` stands for a run that yields no value:
the rejection loop ran out of `fuel`, or a successful test left `mat_ptr`
null. -/
def trace (sqrt : F → F) (fuel : Nat) (g_background : vec3 F) (r : Ray F)
    (hittable : Hittable F) (depth : Int) (g : Rng F) : Option (vec3 F × Rng F) :=
  if depth ≤ 0 then some (⟨0, 0, 0⟩, g)
  else
    let res := hittable.trace sqrt r T_MIN INF hit.default
    if !res.1 then some (g_background, g)
    else
      match res.2.mat_ptr with
      | none => none
      | some m =>
          let emitted := m.emitted
          match m.scatter sqrt fuel r res.2 vec3.zero Ray.default g with
          | none => none
          | some s =>
              if !s.ok then some (emitted, s.rng)
              else
                match trace sqrt fuel g_background s.scattered hittable (depth - 1) s.rng with
                | none => none
                | some tr => some (emitted + s.outColor * tr.1, tr.2)
termination_by depth.toNat
decreasing_by omega

/-- Function `raycast`, with the globals `g_camera` and `g_world` as
arguments; `g_world` is a `HittableList`. -/
def raycast (sqrt : F → F) (g_camera : Camera F) (g_world : List (Hittable F))
    (x y : F) : Bool :=
  let r := g_camera.getRay x y
  let res := (Hittable.HittableList g_world).trace sqrt r T_MIN INF hit.default
  if res.1 then
    if res.2.specialObject then true else false
  else false

end Main

/-! ## Quantities named in the statements -/

section StatementQuantities

variable {F : Type} [LinearOrderedField F]

/-- The value of the local `discriminant` of `Sphere::trace`,
`half_b*half_b - a*c`. -/
def Sphere.discriminant (s : Sphere F) (r : Ray F) : F :=
  dot (r.origin - s.center) r.direction * dot (r.origin - s.center) r.direction
    - r.direction.length_squared
      * ((r.origin - s.center).length_squared - s.radius * s.radius)

/-- The determinant as the specification writes it:
`dot(p1-p0, cross(D, p2-p0))`. -/
def Triangle.specDet (tr : Triangle F) (r : Ray F) : F :=
  dot (tr.p1 - tr.p0) (cross r.direction (tr.p2 - tr.p0))

/-- The barycentric weight `u` as the specification writes it:
`dot(O-p0, cross(D, p2-p0)) / det`. -/
def Triangle.specU (tr : Triangle F) (r : Ray F) : F :=
  dot (r.origin - tr.p0) (cross r.direction (tr.p2 - tr.p0)) / tr.specDet r

/-- The barycentric weight `v` as the specification writes it:
`dot(D, cross(O-p0, p1-p0)) / det`. -/
def Triangle.specV (tr : Triangle F) (r : Ray F) : F :=
  dot r.direction (cross (r.origin - tr.p0) (tr.p1 - tr.p0)) / tr.specDet r

/-- The distance `t` as the specification writes it:
`dot(p2-p0, cross(O-p0, p1-p0)) / det`. -/
def Triangle.specT (tr : Triangle F) (r : Ray F) : F :=
  dot (tr.p2 - tr.p0) (cross (r.origin - tr.p0) (tr.p1 - tr.p0)) / tr.specDet r

/-- The specification's view `test(ray, tMin, tMax) -> Option<HitRecord>` of
the outcome of a `trace` call: the record when the return value is true,
nothing otherwise. -/
def testResult (p : Bool × hit F) : Option (hit F) := if p.1 then some p.2 else none

/-- The two assignments `x = cos_theta*x - sin_theta*y`,
`y = sin_theta*x + cos_theta*y` that `RotateZ::trace` applies to the origin
and to the direction of the incoming ray; `z` is kept. -/
def RotateZ.rotateIn (sin_theta cos_theta : F) (v : vec3 F) : vec3 F :=
  ⟨cos_theta * v.x - sin_theta * v.y, sin_theta * v.x + cos_theta * v.y, v.z⟩

/-- The two assignments `x = cos_theta*x + sin_theta*y`,
`y = -sin_theta*x + cos_theta*y` that `RotateZ::trace` applies to the point
and to the normal of the wrapped hit; `z` is kept. -/
def RotateZ.rotateOut (sin_theta cos_theta : F) (v : vec3 F) : vec3 F :=
  ⟨cos_theta * v.x + sin_theta * v.y, -sin_theta * v.x + cos_theta * v.y, v.z⟩

/-- Constant `MATH::PI`, which is 3.1415926535f. -/
def MATH.PI : F := 31415926535 / 10000000000

/-- Function `MATH::degreesToRadians`. -/
def MATH.degreesToRadians (deg : F) : F := deg * MATH.PI / 180

/-- Constructor `RotateZ(p, angle)`; the library functions `sin` and `cos`
are arguments. -/
def RotateZ.new (sin cos : F → F) (p : Hittable F) (angle : F) : Hittable F :=
  .RotateZ p (sin (MATH.degreesToRadians angle)) (cos (MATH.degreesToRadians angle))

/-- The point `p` that iteration `k` (counted from 0) of the loop in
`randomInUnitSphere` builds when it starts from the stream `g`: its
coordinates come from the draws `3k`, `3k+1`, `3k+2`. -/
def MATH.candidate (g : Rng F) (k : Nat) : vec3 F :=
  ⟨MATH.remap (g (3 * k)) 0 1 (-1) 1, MATH.remap (g (3 * k + 1)) 0 1 (-1) 1,
   MATH.remap (g (3 * k + 2)) 0 1 (-1) 1⟩

/-- The stream `g` after `n` draws. -/
def MATH.afterDraws (n : Nat) (g : Rng F) : Rng F := fun i => g (i + n)

end StatementQuantities

/-! ## main.cpp: accumulation buffers, rendering and scene loading -/

section Frame

variable {F : Type} [LinearOrderedField F]

/-- Macro `IMAGE_WIDTH`. -/
def IMAGE_WIDTH : Nat := 250

/-- Macro `IMAGE_HEIGHT`. -/
def IMAGE_HEIGHT : Nat := 250

/-- Macro `COLOR_CHANNELS`. -/
def COLOR_CHANNELS : Nat := 3

/-- Macro `BUFFER_CHANNELS`. -/
def BUFFER_CHANNELS : Nat := 4

/-- Macro `BUFFER_LENGTH`. -/
def BUFFER_LENGTH : Nat := IMAGE_WIDTH * IMAGE_HEIGHT * BUFFER_CHANNELS

/-- The globals `data` (running colour sums, three per pixel), `rayCounter`
(sample count per pixel) and `byteBuffer` (four bytes per pixel), each as a
map from the element index.  Only the indices below the declared sizes exist
in the source. -/
structure FrameBuffer (F : Type) where
  data : Nat → F
  rayCounter : Nat → F
  byteBuffer : Nat → Nat

/-- Function `draw`.  `toUChar` is the conversion
`static_cast<unsigned char>` of a float.  A pixel index outside the buffers
is an out-of-bounds access, for which the result is `none`. -/
def draw (toUChar : F → Nat) (fb : FrameBuffer F) (x y : Int) (color : vec3 F) :
    Option (FrameBuffer F) :=
  let index : Int := y * IMAGE_WIDTH + x
  if 0 ≤ index ∧ index < IMAGE_WIDTH * IMAGE_HEIGHT then
    let i := index.toNat
    let data1 := Function.update fb.data (i * COLOR_CHANNELS + 0)
      (fb.data (i * COLOR_CHANNELS + 0) + color.x)
    let data2 := Function.update data1 (i * COLOR_CHANNELS + 1)
      (data1 (i * COLOR_CHANNELS + 1) + color.y)
    let data3 := Function.update data2 (i * COLOR_CHANNELS + 2)
      (data2 (i * COLOR_CHANNELS + 2) + color.z)
    let rayCounter1 := Function.update fb.rayCounter i (fb.rayCounter i + 1)
    let bytes1 := Function.update fb.byteBuffer (i * BUFFER_CHANNELS + 0)
      (toUChar (data3 (i * COLOR_CHANNELS + 0) / rayCounter1 i * 255))
    let bytes2 := Function.update bytes1 (i * BUFFER_CHANNELS + 1)
      (toUChar (data3 (i * COLOR_CHANNELS + 1) / rayCounter1 i * 255))
    let bytes3 := Function.update bytes2 (i * BUFFER_CHANNELS + 2)
      (toUChar (data3 (i * COLOR_CHANNELS + 2) / rayCounter1 i * 255))
    let bytes4 := Function.update bytes3 (i * BUFFER_CHANNELS + 3) 255
    some { data := data3, rayCounter := rayCounter1, byteBuffer := bytes4 }
  else none

/-- Function `clear`: every existing element of the three buffers becomes
zero. -/
def clear (fb : FrameBuffer F) : FrameBuffer F :=
  { data := fun i => if i < IMAGE_WIDTH * IMAGE_HEIGHT * COLOR_CHANNELS then 0 else fb.data i,
    rayCounter := fun i => if i < IMAGE_WIDTH * IMAGE_HEIGHT then 0 else fb.rayCounter i,
    byteBuffer := fun i => if i < BUFFER_LENGTH then 0 else fb.byteBuffer i }

/-- A counting loop `for (int i = 0; i < n; i++) body`, whose body may fail
to yield a value. -/
def loopUpTo {σ : Type} (body : Nat → σ → Option σ) : Nat → σ → Option σ
  | 0, st => some st
  | n + 1, st =>
      match loopUpTo body n st with
      | none => none
      | some st1 => body n st1

/-- `n` successive calls `draw(x, y, color)` with the same arguments. -/
def drawTimes (toUChar : F → Nat) (n : Nat) (fb : FrameBuffer F) (x y : Int)
    (color : vec3 F) : Option (FrameBuffer F) :=
  loopUpTo (fun _ fb1 => draw toUChar fb1 x y color) n fb

/-- The state that rendering changes: the buffers and the random stream. -/
structure RenderState (F : Type) where
  fb : FrameBuffer F
  rng : Rng F

/-- The body of the inner loop of `render` for the pixel in column `x` of
row `y`. -/
def renderPixel (sqrt : F → F) (toUChar : F → Nat) (fuel : Nat) (g_camera : Camera F)
    (g_world : List (Hittable F)) (g_background : vec3 F) (y x : Nat)
    (st : RenderState F) : Option (RenderState F) :=
  let du := MATH.random st.rng
  let u := ((x : F) + du.1) / (((IMAGE_WIDTH : Nat) : F) - 1)
  let dv := MATH.random du.2
  let v := ((y : F) + dv.1) / (((IMAGE_HEIGHT : Nat) : F) - 1)
  let r := g_camera.getRay u v
  (trace sqrt fuel g_background r (.HittableList g_world) 4 dv.2).bind fun cg =>
    (draw toUChar st.fb x y cg.1).map fun fb1 => { fb := fb1, rng := cg.2 }

/-- Function `render`. -/
def render (sqrt : F → F) (toUChar : F → Nat) (fuel : Nat) (g_camera : Camera F)
    (g_world : List (Hittable F)) (g_background : vec3 F) (st : RenderState F) :
    Option (RenderState F) :=
  loopUpTo (fun y st1 =>
    loopUpTo (fun x st2 =>
      renderPixel sqrt toUChar fuel g_camera g_world g_background y x st2) IMAGE_WIDTH st1)
    IMAGE_HEIGHT st

/-- Function `renderAt`: the result is the repositioned camera and the state
after the frame. -/
def renderAt (sqrt : F → F) (toUChar : F → Nat) (fuel : Nat) (g_camera : Camera F)
    (g_world : List (Hittable F)) (g_background : vec3 F) (st : RenderState F)
    (x y z : Int) : Option (Camera F × RenderState F) :=
  let fb0 := clear st.fb
  let camera1 := g_camera.setPosition sqrt ⟨(x : F), (y : F), (z : F)⟩
  match render sqrt toUChar fuel camera1 g_world g_background { fb := fb0, rng := st.rng } with
  | none => none
  | some st1 => some (camera1, st1)

/-- The globals that `loadWorld` writes. -/
structure Globals (F : Type) where
  g_level : Int
  g_world : List (Hittable F)
  g_camera : Camera F
  g_background : vec3 F

/-- The scene construction functions `world1`, `world2`, `world3`; `world3`
draws random numbers. -/
structure Worlds (F : Type) where
  world1 : List (Hittable F)
  world2 : List (Hittable F)
  world3 : Rng F → List (Hittable F) × Rng F

/-- Function `loadWorld`, with the scene construction functions as an
argument. -/
def loadWorld (sqrt : F → F) (worlds : Worlds F) (gl : Globals F) (g : Rng F) (level : Int) :
    Globals F × Rng F :=
  let gl1 : Globals F := { gl with g_level := level }
  if level = 1 then
    ({ gl1 with
        g_camera := (gl1.g_camera.setPosition sqrt ⟨0, -2, -2⟩).setLookat sqrt ⟨0, 0, -1⟩,
        g_background := ⟨4 / 10, 4 / 10, 1⟩,
        g_world := worlds.world1 }, g)
  else if level = 2 then
    ({ gl1 with
        g_camera := (gl1.g_camera.setPosition sqrt ⟨-4, -10, 1⟩).setLookat sqrt ⟨-2, 0, 5⟩,
        g_background := ⟨1, 1, 1⟩,
        g_world := worlds.world2 }, g)
  else if level = 3 then
    let w3 := worlds.world3 g
    ({ gl1 with
        g_camera := (gl1.g_camera.setPosition sqrt ⟨0, 1 / 100, -17⟩).setLookat sqrt ⟨0, 0, 0⟩,
        g_background := ⟨1 / 10, 8 / 100, 15 / 100⟩,
        g_world := w3.1 }, w3.2)
  else (gl1, g)

/-- The number of nested recursive calls that `trace` makes on the given
arguments: the same decisions as `trace`, counting one for each call
`trace(scattered, hittable, depth-1)`. -/
def traceCalls (sqrt : F → F) (fuel : Nat) (r : Ray F) (hittable : Hittable F)
    (depth : Int) (g : Rng F) : Nat :=
  if depth ≤ 0 then 0
  else
    let res := hittable.trace sqrt r T_MIN INF hit.default
    if !res.1 then 0
    else
      match res.2.mat_ptr with
      | none => 0
      | some m =>
          match m.scatter sqrt fuel r res.2 vec3.zero Ray.default g with
          | none => 0
          | some s =>
              if !s.ok then 0
              else 1 + traceCalls sqrt fuel s.scattered hittable (depth - 1) s.rng
termination_by depth.toNat
decreasing_by omega

/-- A property of a random stream: from every position on, one of the next
`B` candidate points of `randomInUnitSphere` lies inside the unit sphere, so
the rejection loop never runs more than `B` iterations. -/
def MATH.acceptsWithin (B : Nat) (g : Rng F) : Prop :=
  ∀ n, ∃ k, k < B ∧ (MATH.candidate (MATH.afterDraws n g) k).length_squared < 1

/-- The calls `setPosition` and `setLookat` on a camera. -/
inductive CameraCall (F : Type) where
  | setPosition (pos : vec3 F)
  | setLookat (pos : vec3 F)

/-- A camera after one call. -/
def Camera.call (sqrt : F → F) (c : Camera F) : CameraCall F → Camera F
  | .setPosition pos => c.setPosition sqrt pos
  | .setLookat pos => c.setLookat sqrt pos

/-- A camera after a sequence of calls, first call first. -/
def Camera.calls (sqrt : F → F) (c : Camera F) (cs : List (CameraCall F)) : Camera F :=
  cs.foldl (Camera.call sqrt) c

end Frame

/-! ## main.cpp: `sendRay` -/

section SendRay

variable {F : Type} [LinearOrderedField F]

/-- How a run of `sendRay` ends: with a state; without a value, because a loop
budget ran out or `trace` yielded none; or with an access outside the
buffers. -/
inductive Outcome (σ : Type) where
  | done (st : σ)
  | unfinished
  | outOfBounds

/-- An access that may fall outside the buffers, followed by the rest of the
run. -/
def Outcome.ofAccess {α σ : Type} (a : Option α) (k : α → Outcome σ) : Outcome σ :=
  match a with
  | none => .outOfBounds
  | some v => k v

/-- A computation that may yield no value, followed by the rest of the run. -/
def Outcome.ofValue {α σ : Type} (a : Option α) (k : α → Outcome σ) : Outcome σ :=
  match a with
  | none => .unfinished
  | some v => k v

/-- The read `rayCounter[y*IMAGE_WIDTH + x]`; an index outside the vector
gives `none`. -/
def readCounter (fb : FrameBuffer F) (x y : Int) : Option F :=
  let index : Int := y * IMAGE_WIDTH + x
  if 0 ≤ index ∧ index < IMAGE_WIDTH * IMAGE_HEIGHT then some (fb.rayCounter index.toNat)
  else none

/-- A loop `for (int i = lo; i <= bound; i++) body` with a float bound,
limited to `steps` evaluations of the loop test.  The counter is an unbounded
integer. -/
def forIntUpTo {σ : Type} (bound : F) (body : Int → σ → Outcome σ) :
    Nat → Int → σ → Outcome σ
  | 0, _, _ => .unfinished
  | steps + 1, i, st =>
      if (i : F) ≤ bound then
        match body i st with
        | .done st1 => forIntUpTo bound body steps (i + 1) st1
        | .unfinished => .unfinished
        | .outOfBounds => .outOfBounds
      else .done st

/-- The statement `draw(x, y, trace(r, g_world, 3 + int(rayCounter[y*IMAGE_WIDTH + x] / 5.0f)))`
of `sendRay`.  `toInt` is the conversion `int(float)`. -/
def sendRayDraw (sqrt : F → F) (toUChar : F → Nat) (toInt : F → Int) (fuel : Nat)
    (g_world : List (Hittable F)) (g_background : vec3 F) (r : Ray F) (x y : Int)
    (st : RenderState F) : Outcome (RenderState F) :=
  Outcome.ofAccess (readCounter st.fb x y) fun count =>
    Outcome.ofValue
      (trace sqrt fuel g_background r (.HittableList g_world) (3 + toInt (count / 5)) st.rng)
      fun cg =>
        Outcome.ofAccess (draw toUChar st.fb x y cg.1) fun fb1 =>
          .done { fb := fb1, rng := cg.2 }

/-- The body of the inner loop of `sendRay` for the offsets `rx`, `ry`. -/
def sendRayBody (sqrt : F → F) (toUChar : F → Nat) (toInt : F → Int) (fuel : Nat)
    (g_camera : Camera F) (g_world : List (Hittable F)) (g_background : vec3 F)
    (u v radius : F) (rx ry : Int) (st : RenderState F) : Outcome (RenderState F) :=
  if sqrt (((rx * rx + ry * ry : Int)) : F) > radius then .done st
  else
    let du := MATH.random st.rng
    let u2 := u + ((rx : F) + du.1) / ((IMAGE_WIDTH : Nat) : F)
    let dv := MATH.random du.2
    let v2 := v + ((ry : F) + dv.1) / ((IMAGE_HEIGHT : Nat) : F)
    let r := g_camera.getRay u2 v2
    let x := toInt (u2 * ((IMAGE_WIDTH : Nat) : F))
    let y := toInt (v2 * ((IMAGE_HEIGHT : Nat) : F))
    if 0 ≤ x ∧ x < IMAGE_WIDTH ∧ 0 ≤ y ∧ y < IMAGE_HEIGHT then
      sendRayDraw sqrt toUChar toInt fuel g_world g_background r x y { st with rng := dv.2 }
    else .done { st with rng := dv.2 }

/-- Function `sendRay`.  Both loops start at `int(-radius)` and run while the
counter is at most `radius`. -/
def sendRay (sqrt : F → F) (toUChar : F → Nat) (toInt : F → Int) (steps fuel : Nat)
    (g_camera : Camera F) (g_world : List (Hittable F)) (g_background : vec3 F)
    (st : RenderState F) (u v radius : F) : Outcome (RenderState F) :=
  forIntUpTo radius (fun rx st1 =>
    forIntUpTo radius (fun ry st2 =>
      sendRayBody sqrt toUChar toInt fuel g_camera g_world g_background u v radius rx ry st2)
      steps (toInt (-radius)) st1)
    steps (toInt (-radius)) st

end SendRay

/-! ## Further quantities named in the statements -/

section HitQuantities

variable {F : Type} [LinearOrderedField F]

/-- The first value of the local `root` of `Sphere::trace`,
`(-half_b - sqrtd) / a`. -/
def Sphere.rootNear (sqrt : F → F) (s : Sphere F) (r : Ray F) : F :=
  (-(dot (r.origin - s.center) r.direction) - sqrt (s.discriminant r))
    / r.direction.length_squared

/-- The second value of the local `root` of `Sphere::trace`,
`(-half_b + sqrtd) / a`. -/
def Sphere.rootFar (sqrt : F → F) (s : Sphere F) (r : Ray F) : F :=
  (-(dot (r.origin - s.center) r.direction) + sqrt (s.discriminant r))
    / r.direction.length_squared

/-- The record after the four assignments at the end of `Sphere::trace`, for
the value `root` of the local of that name. -/
def Sphere.hitAt (sqrt : F → F) (s : Sphere F) (r : Ray F) (rec : hit F) (root : F) : hit F :=
  { rec with t := root, point := r.at root,
             normal := unitVector sqrt ((r.at root - s.center) / s.radius),
             mat_ptr := some s.mat_ptr }

/-- The members that the statement about lists of primitives admits. -/
def Hittable.isSphereOrTriangle : Hittable F → Bool
  | .Sphere _ => true
  | .Triangle _ => true
  | _ => false

end HitQuantities

/-! ## Concrete inputs over the rationals -/

section Examples

/-- A square root on the rationals: exact on squares of rationals, rounded
down on numerator and denominator otherwise. -/
def sqrtQ (q : ℚ) : ℚ := (Nat.sqrt q.num.toNat : ℚ) / (Nat.sqrt q.den : ℚ)

/-- The triangle with corners (-1,-1,z), (3,-1,z), (-1,3,z) in the plane at
height `z`; the z axis crosses it at barycentric weights (1/4, 1/4). -/
def planeTriangle (z : ℚ) (m : Material ℚ) : Triangle ℚ :=
  ⟨⟨-1, -1, z⟩, ⟨3, -1, z⟩, ⟨-1, 3, z⟩, m⟩

/-- The ray from the origin along the positive z axis. -/
def zRay : Ray ℚ := ⟨⟨0, 0, 0⟩, ⟨0, 0, 1⟩⟩

/-- The ray from (0,0,5) along the negative z axis. -/
def downRay : Ray ℚ := ⟨⟨0, 0, 5⟩, ⟨0, 0, -1⟩⟩

/-- The unit sphere centred at the origin. -/
def unitSphere (m : Material ℚ) : Sphere ℚ := ⟨⟨0, 0, 0⟩, 1, m⟩

/-- A constant stream of draws. -/
def constRng (c : ℚ) : Rng ℚ := fun _ => c

/-- A camera at the origin that looks along the positive z axis, y up; its
central ray `getRay (1/2) (1/2)` is `zRay`. -/
def zCamera : Camera ℚ := Camera.new sqrtQ ⟨0, 0, 0⟩ ⟨0, 0, 1⟩ ⟨0, 1, 0⟩

/-- A grey metal. -/
def greyMetal : Material ℚ := Material.newMetal ⟨2 / 5, 2 / 5, 2 / 5⟩ (1 / 10)

/-- A white light. -/
def whiteLight : Material ℚ := .Light ⟨4, 4, 4⟩

/-- A scene list with a plain triangle at distance 2 followed by a nested
list holding a triangle at distance 5. -/
def nearThenNested : List (Hittable ℚ) :=
  [.Triangle (planeTriangle 2 greyMetal), .HittableList [.Triangle (planeTriangle 5 whiteLight)]]

/-- The members of `nearThenNested` in the opposite order. -/
def nestedThenNear : List (Hittable ℚ) :=
  [.HittableList [.Triangle (planeTriangle 5 whiteLight)], .Triangle (planeTriangle 2 greyMetal)]

/-- A world whose first member is a `BadEend` with one body triangle at
distance 5 and whose second member is a plain triangle at distance 2. -/
def duckBehindTriangle : List (Hittable ℚ) :=
  [BadEend.new [.Triangle (planeTriangle 5 whiteLight)] [], .Triangle (planeTriangle 2 greyMetal)]

/-- A 2 by 2 rectangle in the plane z = -4, behind the origin of `zRay`. -/
def backRect : RectXY ℚ := ⟨⟨0, 0, -4⟩, 1, 1, whiteLight⟩

/-- The ray from (0, 3/2, 0) along the positive z axis. -/
def offsetRay : Ray ℚ := ⟨⟨0, 3 / 2, 0⟩, ⟨0, 0, 1⟩⟩

/-- `planeTriangle 4` wrapped in a `RotateZ` whose stored sine is 3/5 and
whose stored cosine is 4/5. -/
def turnedTriangle : Hittable ℚ := .RotateZ (.Triangle (planeTriangle 4 whiteLight)) (3 / 5) (4 / 5)

/-- A stream whose first three draws are 1 (candidate point (1,1,1), which
the rejection loop discards), followed by 1/2, 1/2, 3/4 (candidate point
(0,0,1/2)) and then 1/2 for ever. -/
def retryRng : Rng ℚ := fun n => if n < 3 then 1 else if n = 5 then 3 / 4 else 1 / 2

/-- A conversion to `unsigned char` on the rationals: the integer part of a
non-negative value, reduced to its low 8 bits. -/
def toUCharQ (v : ℚ) : Nat := ⌊v⌋.toNat % 256

/-- Scene construction functions that build empty scenes. -/
def emptyWorlds : Worlds ℚ := { world1 := [], world2 := [], world3 := fun g => ([], g) }

/-- Globals with level 2, the scene `duckBehindTriangle`, the camera `zCamera`
and a white background. -/
def sampleGlobals : Globals ℚ :=
  { g_level := 2, g_world := duckBehindTriangle, g_camera := zCamera, g_background := ⟨1, 1, 1⟩ }

/-- A conversion `int(float)` on the rationals: the integer part, rounded
toward zero. -/
def toIntQ (v : ℚ) : Int := if 0 ≤ v then ⌊v⌋ else ⌈v⌉

/-- Buffers that hold zero everywhere. -/
def emptyFrame : FrameBuffer ℚ :=
  { data := fun _ => 0, rayCounter := fun _ => 0, byteBuffer := fun _ => 0 }

end Examples

/-! ## Component lemmas for the vector operations -/

section VecLemmas

variable {F : Type} [LinearOrderedField F]

@[simp] theorem vec3.neg_def (v : vec3 F) : -v = ⟨-v.x, -v.y, -v.z⟩ := rfl

@[simp] theorem vec3.add_def (u v : vec3 F) :
    u + v = ⟨u.x + v.x, u.y + v.y, u.z + v.z⟩ := rfl

@[simp] theorem vec3.sub_def (u v : vec3 F) :
    u - v = ⟨u.x - v.x, u.y - v.y, u.z - v.z⟩ := rfl

@[simp] theorem vec3.mul_def (u v : vec3 F) :
    u * v = ⟨u.x * v.x, u.y * v.y, u.z * v.z⟩ := rfl

@[simp] theorem vec3.smul_def (t : F) (v : vec3 F) :
    t * v = (⟨t * v.x, t * v.y, t * v.z⟩ : vec3 F) := rfl

@[simp] theorem vec3.sdiv_def (v : vec3 F) (t : F) :
    v / t = (⟨1 / t * v.x, 1 / t * v.y, 1 / t * v.z⟩ : vec3 F) := rfl

end VecLemmas

/-! ## Every reported hit carries a material -/

section MatPtr

variable {F : Type} [LinearOrderedField F]

/-- A hit reported by `Sphere::trace` carries the sphere's material. -/
theorem Sphere.sphere_mat_ptr (sqrt : F → F) (s : Sphere F) (r : Ray F) (t_min t_max : F)
    (rec : hit F) (h : (s.trace sqrt r t_min t_max rec).1 = true) :
    (s.trace sqrt r t_min t_max rec).2.mat_ptr = some s.mat_ptr := by
  unfold Sphere.trace at h ⊢
  simp only at h ⊢
  split_ifs at h ⊢
  all_goals simp_all

/-- A hit reported by `Triangle::trace` carries the triangle's material. -/
theorem Triangle.triangle_mat_ptr (sqrt : F → F) (tr : Triangle F) (r : Ray F) (t_min t_max : F)
    (rec : hit F) (h : (tr.trace sqrt r t_min t_max rec).1 = true) :
    (tr.trace sqrt r t_min t_max rec).2.mat_ptr = some tr.mat_ptr := by
  unfold Triangle.trace at h ⊢
  simp only at h ⊢
  split_ifs at h ⊢
  all_goals simp_all

/-- A hit reported by `Quad::trace` carries a material. -/
theorem Quad.quad_mat_ptr (sqrt : F → F) (q : Quad F) (r : Ray F) (t_min t_max : F)
    (rec : hit F) (h : (q.trace sqrt r t_min t_max rec).1 = true) :
    ((q.trace sqrt r t_min t_max rec).2.mat_ptr).isSome = true := by
  unfold Quad.trace at h ⊢
  simp only at h ⊢
  cases ha : (q.a.trace sqrt r t_min t_max rec).1
  · cases hb : (q.b.trace sqrt r t_min t_max (q.a.trace sqrt r t_min t_max rec).2).1
    · simp [ha, hb] at h
    · simp [ha, hb, Triangle.triangle_mat_ptr sqrt q.b r t_min t_max _ hb]
  · simp [ha, Triangle.triangle_mat_ptr sqrt q.a r t_min t_max rec ha]

/-- A hit reported by `RectXY::trace` carries the rectangle's material. -/
theorem RectXY.rect_mat_ptr (q : RectXY F) (r : Ray F) (t_min t_max : F)
    (rec : hit F) (h : (q.trace r t_min t_max rec).1 = true) :
    (q.trace r t_min t_max rec).2.mat_ptr = some q.mat_ptr := by
  unfold RectXY.trace at h ⊢
  simp only at h ⊢
  split_ifs at h ⊢
  all_goals simp_all

mutual

/-- Every hit reported by any `Hittable` has a non-null `mat_ptr`, so the
dereference `rec.mat_ptr->emitted()` in `trace` is defined after a hit. -/
theorem Hittable.trace_mat_ptr (sqrt : F → F) :
    ∀ (h : Hittable F) (r : Ray F) (t_min t_max : F) (rec : hit F),
      (h.trace sqrt r t_min t_max rec).1 = true →
      ((h.trace sqrt r t_min t_max rec).2.mat_ptr).isSome = true
  | .Sphere s, r, t_min, t_max, rec, hh => by
      simp only [Hittable.trace] at hh ⊢
      simp [Sphere.sphere_mat_ptr sqrt s r t_min t_max rec hh]
  | .Triangle t, r, t_min, t_max, rec, hh => by
      simp only [Hittable.trace] at hh ⊢
      simp [Triangle.triangle_mat_ptr sqrt t r t_min t_max rec hh]
  | .Quad q, r, t_min, t_max, rec, hh => by
      simp only [Hittable.trace] at hh ⊢
      exact Quad.quad_mat_ptr sqrt q r t_min t_max rec hh
  | .RectXY q, r, t_min, t_max, rec, hh => by
      simp only [Hittable.trace] at hh ⊢
      simp [RectXY.rect_mat_ptr q r t_min t_max rec hh]
  | .HittableList objects, r, t_min, t_max, rec, hh => by
      simp only [Hittable.trace] at hh ⊢
      exact HittableList.loop_mat_ptr sqrt objects r t_min _ (by simp) hh
  | .BadEend objects, r, t_min, t_max, rec, hh => by
      have ih := HittableList.loop_mat_ptr sqrt objects r t_min
        { temp_hit := hit.default, hit_anything := false,
          closest_so_far := CLOSEST_INIT, rec_ := rec } (by simp)
      simp only [Hittable.trace] at hh ⊢
      generalize HittableList.loop sqrt objects r t_min
        { temp_hit := hit.default, hit_anything := false,
          closest_so_far := CLOSEST_INIT, rec_ := rec } = st at ih hh ⊢
      cases hb : st.hit_anything
      · simp [hb] at hh
      · simpa [hb] using ih hb
  | .Translate ptr d, r, t_min, t_max, rec, hh => by
      have ih := Hittable.trace_mat_ptr sqrt ptr ⟨r.origin - d, r.direction⟩ t_min t_max rec
      simp only [Hittable.trace] at hh ⊢
      generalize Hittable.trace sqrt ptr ⟨r.origin - d, r.direction⟩ t_min t_max rec = res
        at ih hh ⊢
      cases hb : res.1
      · simp [hb] at hh
      · simpa [hb] using ih hb
  | .RotateZ ptr sn cs, r, t_min, t_max, rec, hh => by
      have ih := Hittable.trace_mat_ptr sqrt ptr
        ⟨⟨cs * r.origin.x - sn * r.origin.y, sn * r.origin.x + cs * r.origin.y, r.origin.z⟩,
         ⟨cs * r.direction.x - sn * r.direction.y, sn * r.direction.x + cs * r.direction.y,
          r.direction.z⟩⟩ t_min t_max rec
      simp only [Hittable.trace] at hh ⊢
      generalize Hittable.trace sqrt ptr
        ⟨⟨cs * r.origin.x - sn * r.origin.y, sn * r.origin.x + cs * r.origin.y, r.origin.z⟩,
         ⟨cs * r.direction.x - sn * r.direction.y, sn * r.direction.x + cs * r.direction.y,
          r.direction.z⟩⟩ t_min t_max rec = res at ih hh ⊢
      cases hb : res.1
      · simp [hb] at hh
      · simpa [hb] using ih hb

/-- The loop of `HittableList::trace` keeps `rec.mat_ptr` non-null once
`hit_anything` is set. -/
theorem HittableList.loop_mat_ptr (sqrt : F → F) :
    ∀ (objects : List (Hittable F)) (r : Ray F) (t_min : F) (st : ListState F),
      (st.hit_anything = true → (st.rec_.mat_ptr).isSome = true) →
      (HittableList.loop sqrt objects r t_min st).hit_anything = true →
      ((HittableList.loop sqrt objects r t_min st).rec_.mat_ptr).isSome = true
  | [], r, t_min, st, hst, hh => by
      simp only [HittableList.loop] at hh ⊢
      exact hst hh
  | object :: rest, r, t_min, st, hst, hh => by
      simp only [HittableList.loop] at hh ⊢
      refine HittableList.loop_mat_ptr sqrt rest r t_min _ ?_ hh
      intro hstep
      unfold ListState.step at hstep ⊢
      split_ifs at hstep ⊢ with hb
      · exact Hittable.trace_mat_ptr sqrt object r t_min _ _ hb
      · exact hst hstep

end

end MatPtr

/-! ## The integrator `trace` (main.cpp) -/

section Integrator

variable {F : Type} [LinearOrderedField F]

/-- Claim C1.  With a depth of zero or less, `trace` returns black for every
ray, scene, background colour, fuel and random stream, and draws nothing. -/
theorem trace_depth_exhausted (sqrt : F → F) (fuel : Nat) (g_background : vec3 F)
    (r : Ray F) (hittable : Hittable F) (depth : Int) (g : Rng F) (hd : depth ≤ 0) :
    trace sqrt fuel g_background r hittable depth g = some (⟨0, 0, 0⟩, g) := by
  rw [trace]
  simp [hd]

/-- Witness for C1: depth 0 on a scene whose light the ray would hit. -/
theorem trace_depth_exhausted_witness :
    ((0 : Int) ≤ 0) ∧
      trace sqrtQ 0 ⟨2 / 5, 2 / 5, 1⟩ zRay
        (.HittableList [.Triangle (planeTriangle 4 whiteLight)]) 0 (constRng 0)
        = some (⟨0, 0, 0⟩, constRng 0) :=
  ⟨le_refl 0, trace_depth_exhausted sqrtQ 0 ⟨2 / 5, 2 / 5, 1⟩ zRay _ 0 (constRng 0) (le_refl 0)⟩

/-- Claim C2.  With depth at least 1, when the scene test over the range
`T_MIN = 0.001` to `INF` reports no hit, `trace` returns exactly the
background colour. -/
theorem trace_miss_background (sqrt : F → F) (fuel : Nat) (g_background : vec3 F)
    (r : Ray F) (hittable : Hittable F) (depth : Int) (g : Rng F) (hd : 1 ≤ depth)
    (hmiss : (hittable.trace sqrt r T_MIN INF hit.default).1 = false) :
    trace sqrt fuel g_background r hittable depth g = some (g_background, g) := by
  rw [trace]
  have hd2 : ¬ depth ≤ 0 := by omega
  simp [hd2, hmiss]

/-- Witness for C2: the only triangle lies behind the ray, so depth 4 gives
the background. -/
theorem trace_miss_background_witness :
    trace sqrtQ 0 ⟨2 / 5, 2 / 5, 1⟩ zRay
        (.HittableList [.Triangle (planeTriangle (-4) whiteLight)]) 4 (constRng 0)
      = some (⟨2 / 5, 2 / 5, 1⟩, constRng 0) :=
  trace_miss_background sqrtQ 0 ⟨2 / 5, 2 / 5, 1⟩ zRay _ 4 (constRng 0) (by norm_num)
    (by norm_num [Hittable.trace, HittableList.loop, ListState.step, Triangle.trace,
          planeTriangle, zRay, T_MIN, INF, EPSILON, CLOSEST_INIT, cross, dot, Ray.at])

/-- Claim C4.  With depth at least 1, when the scene test hits a surface with
material `m` and `m.scatter` fails, `trace` returns `m.emitted` and nothing
else: for a `Light`, whose `scatter` fails on every input, that is the light
colour, and for a `Metal` that absorbs the ray it is black. -/
theorem trace_scatter_failure (sqrt : F → F) (fuel : Nat) (g_background : vec3 F)
    (r : Ray F) (hittable : Hittable F) (depth : Int) (g : Rng F)
    (m : Material F) (hd : 1 ≤ depth)
    (hhit : (hittable.trace sqrt r T_MIN INF hit.default).1 = true)
    (hmat : (hittable.trace sqrt r T_MIN INF hit.default).2.mat_ptr = some m) :
    (∀ s : ScatterResult F,
        m.scatter sqrt fuel r (hittable.trace sqrt r T_MIN INF hit.default).2
          vec3.zero Ray.default g = some s →
        s.ok = false →
        trace sqrt fuel g_background r hittable depth g = some (m.emitted, s.rng)) ∧
    (∀ c : vec3 F, m = .Light c →
        trace sqrt fuel g_background r hittable depth g = some (c, g)) ∧
    (∀ (a : vec3 F) (f : F) (s : ScatterResult F), m = .Metal a f →
        m.scatter sqrt fuel r (hittable.trace sqrt r T_MIN INF hit.default).2
          vec3.zero Ray.default g = some s →
        s.ok = false →
        trace sqrt fuel g_background r hittable depth g = some (⟨0, 0, 0⟩, s.rng)) ∧
    (∀ (c : vec3 F) (n : Nat) (r_in : Ray F) (rec : hit F) (outColor : vec3 F)
        (scattered : Ray F) (g1 : Rng F),
        (Material.Light c).scatter sqrt n r_in rec outColor scattered g1 =
          some { ok := false, outColor := outColor, scattered := scattered, rng := g1 }) := by
  have hd2 : ¬ depth ≤ 0 := by omega
  have key : ∀ s : ScatterResult F,
      m.scatter sqrt fuel r (hittable.trace sqrt r T_MIN INF hit.default).2
        vec3.zero Ray.default g = some s →
      s.ok = false →
      trace sqrt fuel g_background r hittable depth g = some (m.emitted, s.rng) := by
    intro s hsc hok
    rw [trace]
    simp only [hd2, hhit, hmat, hsc, hok]
    simp
  refine ⟨key, ?_, ?_, ?_⟩
  · intro c hm
    subst hm
    exact key { ok := false, outColor := vec3.zero, scattered := Ray.default, rng := g } rfl rfl
  · intro a f s hm hsc hok
    subst hm
    exact key s hsc hok
  · intro c n r_in rec outColor scattered g1
    rfl

/-- Witness for C4: a light triangle in front of the ray; depth 4 returns the
light colour. -/
theorem trace_scatter_failure_witness :
    trace sqrtQ 0 ⟨2 / 5, 2 / 5, 1⟩ zRay (.Triangle (planeTriangle 4 whiteLight)) 4
        (constRng 0) = some (⟨4, 4, 4⟩, constRng 0) :=
  (trace_scatter_failure sqrtQ 0 ⟨2 / 5, 2 / 5, 1⟩ zRay
    (.Triangle (planeTriangle 4 whiteLight)) 4 (constRng 0) whiteLight (by norm_num)
    (by norm_num [Hittable.trace, Triangle.trace, planeTriangle, zRay, T_MIN, INF, EPSILON,
          cross, dot, Ray.at])
    (by norm_num [Hittable.trace, Triangle.trace, planeTriangle, zRay, T_MIN, INF, EPSILON,
          cross, dot, Ray.at])).2.1 ⟨4, 4, 4⟩ rfl

end Integrator

/-! ## `HittableList::trace` and `raycast` on concrete scenes -/

section ListEvaluation

/-- Claim C5 (evaluation at the failing input).  In `nearThenNested` the first
member is hit at distance 2, yet the list returns the hit at distance 5 of its
nested list, because the nested `HittableList::trace` does not use the
`t_max` it is given; the permuted list `nestedThenNear` returns distance 2.
A `BadEend` with a body triangle at 2 and a beak triangle at 5 likewise
returns distance 5. -/
theorem HittableList_trace_nested_not_nearest :
    (Triangle.trace sqrtQ (planeTriangle 2 greyMetal) zRay T_MIN INF hit.default).1 = true ∧
    (Triangle.trace sqrtQ (planeTriangle 2 greyMetal) zRay T_MIN INF hit.default).2.t = 2 ∧
    (Hittable.trace sqrtQ (.HittableList nearThenNested) zRay T_MIN INF hit.default).1 = true ∧
    (Hittable.trace sqrtQ (.HittableList nearThenNested) zRay T_MIN INF hit.default).2.t = 5 ∧
    List.Perm nearThenNested nestedThenNear ∧
    (Hittable.trace sqrtQ (.HittableList nestedThenNear) zRay T_MIN INF hit.default).1 = true ∧
    (Hittable.trace sqrtQ (.HittableList nestedThenNear) zRay T_MIN INF hit.default).2.t = 2 ∧
    (Hittable.trace sqrtQ
      (BadEend.new [.Triangle (planeTriangle 2 greyMetal)]
        [.Triangle (planeTriangle 5 whiteLight)]) zRay T_MIN INF hit.default).2.t = 5 := by
  refine ⟨?_, ?_, ?_, ?_, List.Perm.swap _ _ [], ?_, ?_, ?_⟩ <;>
    norm_num [nearThenNested, nestedThenNear, BadEend.new, Hittable.trace, HittableList.loop,
      ListState.step, Triangle.trace, planeTriangle, zRay, T_MIN, INF, EPSILON, CLOSEST_INIT,
      cross, dot, Ray.at]

/-- Claim C6 (evaluation at the failing input).  Asked for hits in the range
from `T_MIN` to 1, a list holding one triangle at distance 4 reports a hit
with `t = 4`, which is above the upper bound 1.  Asked for the range from
`T_MIN` to `INF` that `trace` and `raycast` use, a list holding one triangle
at distance 5000000 reports a hit with `t = 5000000`, which is above `INF`. -/
theorem HittableList_trace_ignores_t_max :
    (Hittable.trace sqrtQ (.HittableList [.Triangle (planeTriangle 4 whiteLight)])
      zRay T_MIN 1 hit.default).1 = true ∧
    (Hittable.trace sqrtQ (.HittableList [.Triangle (planeTriangle 4 whiteLight)])
      zRay T_MIN 1 hit.default).2.t = 4 ∧
    ¬ ((4 : ℚ) ≤ 1) ∧
    (Hittable.trace sqrtQ (.HittableList [.Triangle (planeTriangle 5000000 whiteLight)])
      zRay T_MIN INF hit.default).1 = true ∧
    (Hittable.trace sqrtQ (.HittableList [.Triangle (planeTriangle 5000000 whiteLight)])
      zRay T_MIN INF hit.default).2.t = 5000000 ∧
    ¬ ((5000000 : ℚ) ≤ INF) := by
  refine ⟨?_, ?_, ?_, ?_, ?_, ?_⟩ <;>
    norm_num [Hittable.trace, HittableList.loop, ListState.step, Triangle.trace,
      planeTriangle, zRay, T_MIN, INF, EPSILON, CLOSEST_INIT, cross, dot, Ray.at]

/-- Claim C7 (evaluation at the failing input).  In `duckBehindTriangle` the
central camera ray meets the plain triangle at distance 2 and the `BadEend` at
distance 5.  The world test returns the plain triangle (distance 2, its
material) but with the special flag still set from the earlier `BadEend` hit
in the shared `temp_hit`, so `raycast` answers `true`. -/
theorem raycast_stale_special_flag :
    zCamera.getRay (1 / 2) (1 / 2) = zRay ∧
    (Hittable.trace sqrtQ (.HittableList duckBehindTriangle) zRay T_MIN INF hit.default).1
      = true ∧
    (Hittable.trace sqrtQ (.HittableList duckBehindTriangle) zRay T_MIN INF hit.default).2.t
      = 2 ∧
    (Hittable.trace sqrtQ (.HittableList duckBehindTriangle) zRay T_MIN INF
      hit.default).2.mat_ptr = some greyMetal ∧
    (Hittable.trace sqrtQ (BadEend.new [.Triangle (planeTriangle 5 whiteLight)] [])
      zRay T_MIN INF hit.default).2.t = 5 ∧
    raycast sqrtQ zCamera duckBehindTriangle (1 / 2) (1 / 2) = true := by
  have hray : zCamera.getRay (1 / 2) (1 / 2) = zRay := by
    norm_num [zCamera, Camera.new, Camera.update, Camera.getRay, zRay, unitVector,
      vec3.length, vec3.length_squared, cross, vec3.zero, sqrtQ]
  refine ⟨hray, ?_, ?_, ?_, ?_, ?_⟩
  · norm_num [duckBehindTriangle, BadEend.new, Hittable.trace, HittableList.loop,
      ListState.step, Triangle.trace, planeTriangle, zRay, T_MIN, INF, EPSILON, CLOSEST_INIT,
      cross, dot, Ray.at]
  · norm_num [duckBehindTriangle, BadEend.new, Hittable.trace, HittableList.loop,
      ListState.step, Triangle.trace, planeTriangle, zRay, T_MIN, INF, EPSILON, CLOSEST_INIT,
      cross, dot, Ray.at]
  · norm_num [duckBehindTriangle, BadEend.new, Hittable.trace, HittableList.loop,
      ListState.step, Triangle.trace, planeTriangle, zRay, T_MIN, INF, EPSILON, CLOSEST_INIT,
      cross, dot, Ray.at]
  · norm_num [BadEend.new, Hittable.trace, HittableList.loop,
      ListState.step, Triangle.trace, planeTriangle, zRay, T_MIN, INF, EPSILON, CLOSEST_INIT,
      cross, dot, Ray.at]
  · rw [raycast, hray]
    norm_num [duckBehindTriangle, BadEend.new, Hittable.trace, HittableList.loop,
      ListState.step, Triangle.trace, planeTriangle, zRay, T_MIN, INF, EPSILON, CLOSEST_INIT,
      cross, dot, Ray.at]

end ListEvaluation

/-! ## `Sphere::trace` -/

section SphereProofs

variable {F : Type} [LinearOrderedField F]

/-- A non-zero vector has positive squared length. -/
theorem vec3.length_squared_pos (v : vec3 F) (hv : v ≠ vec3.zero) : 0 < v.length_squared := by
  rcases v with ⟨x, y, z⟩
  simp only [vec3.length_squared]
  by_contra hcon
  have hx := mul_self_nonneg x
  have hy := mul_self_nonneg y
  have hz := mul_self_nonneg z
  have h0 : x * x + y * y + z * z = 0 := le_antisymm (not_lt.mp hcon) (by linarith)
  have hx0 : x * x = 0 := by linarith
  have hy0 : y * y = 0 := by linarith
  have hz0 : z * z = 0 := by linarith
  apply hv
  simp only [vec3.zero]
  rw [mul_self_eq_zero] at hx0 hy0 hz0
  rw [hx0, hy0, hz0]

/-- Completing the square: with `a = |D|^2` and `half_b = dot(O - C, D)`,
`a * (|O + tD - C|^2 - r^2) = (a*t + half_b)^2 - discriminant`. -/
theorem Sphere.quadratic_identity (s : Sphere F) (r : Ray F) (t : F) :
    r.direction.length_squared
        * ((r.at t - s.center).length_squared - s.radius * s.radius)
      = (r.direction.length_squared * t + dot (r.origin - s.center) r.direction) ^ 2
        - s.discriminant r := by
  simp only [Sphere.discriminant, vec3.length_squared, dot, Ray.at, vec3.add_def,
    vec3.sub_def, vec3.smul_def]
  ring

/-- When `sd` squares to the discriminant, the roots of the quadratic are
exactly `(-half_b - sd)/a` and `(-half_b + sd)/a`. -/
theorem Sphere.root_iff (s : Sphere F) (r : Ray F) (sd : F)
    (ha : 0 < r.direction.length_squared)
    (hsd : sd * sd = s.discriminant r) (t : F) :
    (r.at t - s.center).length_squared = s.radius * s.radius ↔
      t = (-(dot (r.origin - s.center) r.direction) - sd) / r.direction.length_squared ∨
      t = (-(dot (r.origin - s.center) r.direction) + sd) / r.direction.length_squared := by
  have hid := Sphere.quadratic_identity s r t
  have ha0 : r.direction.length_squared ≠ 0 := ne_of_gt ha
  rw [eq_div_iff ha0, eq_div_iff ha0]
  constructor
  · intro h
    rw [h, sub_self, mul_zero, ← hsd] at hid
    have hfac : (r.direction.length_squared * t + dot (r.origin - s.center) r.direction - sd)
        * (r.direction.length_squared * t + dot (r.origin - s.center) r.direction + sd) = 0 := by
      linear_combination -hid
    rcases mul_eq_zero.mp hfac with h1 | h1
    · right; linear_combination h1
    · left; linear_combination h1
  · intro h
    have hz : r.direction.length_squared
        * ((r.at t - s.center).length_squared - s.radius * s.radius) = 0 := by
      rw [hid, ← hsd]
      rcases h with h | h
      · linear_combination (r.direction.length_squared * t
          + dot (r.origin - s.center) r.direction - sd) * h
      · linear_combination (r.direction.length_squared * t
          + dot (r.origin - s.center) r.direction + sd) * h
    rcases mul_eq_zero.mp hz with h1 | h1
    · exact absurd h1 ha0
    · exact sub_eq_zero.mp h1

/-- Claim C9.  The ray from (0,0,5) with direction (0,0,-1) against the unit
sphere centred at the origin, over any range that contains 4 and with a
square-root routine that maps 1 to 1, hits with `t = 4`, point (0,0,1) and
normal (0,0,1); the record also carries the sphere's material. -/
theorem Sphere_trace_unit_example (sqrt : F → F) (m : Material F) (t_min t_max : F)
    (rec : hit F) (hsqrt : sqrt 1 = 1) (hmin : t_min ≤ 4) (hmax : 4 ≤ t_max) :
    Sphere.trace sqrt ⟨⟨0, 0, 0⟩, 1, m⟩ ⟨⟨0, 0, 5⟩, ⟨0, 0, -1⟩⟩ t_min t_max rec =
      (true, { rec with t := 4, point := ⟨0, 0, 1⟩, normal := ⟨0, 0, 1⟩,
                        mat_ptr := some m }) := by
  have h1 : ¬ ((4 : F) < t_min ∨ t_max < 4) := by
    rintro (h | h)
    · exact absurd hmin (not_le.mpr h)
    · exact absurd hmax (not_le.mpr h)
  simp [Sphere.trace, dot, vec3.length_squared, Ray.at, unitVector, vec3.length]
  simp only [hsqrt]
  norm_num [hsqrt, h1]

/-- Witness for C9: the range from `T_MIN = 0.001` to `INF` that `trace`
uses. -/
theorem Sphere_trace_unit_example_witness :
    Sphere.trace sqrtQ ⟨⟨0, 0, 0⟩, 1, whiteLight⟩ ⟨⟨0, 0, 5⟩, ⟨0, 0, -1⟩⟩ T_MIN INF hit.default =
      (true, { (hit.default : hit ℚ) with t := 4, point := ⟨0, 0, 1⟩, normal := ⟨0, 0, 1⟩,
                                          mat_ptr := some whiteLight }) :=
  Sphere_trace_unit_example sqrtQ whiteLight T_MIN INF hit.default (by simp [sqrtQ])
    (by norm_num [T_MIN]) (by norm_num [INF])

end SphereProofs

/-! ## `Triangle::trace` -/

section TriangleProofs

variable {F : Type} [LinearOrderedField F]

end TriangleProofs

/-! ## `Triangle::trace`: the reported record -/

section TriangleRecord

variable {F : Type} [LinearOrderedField F]

/-- The body of `Triangle::trace` written with the quantities `det`, `u`, `v`,
`t` of the specification. -/
theorem Triangle.trace_spec_form (sqrt : F → F) (tr : Triangle F) (r : Ray F)
    (t_min t_max : F) (rec : hit F) :
    tr.trace sqrt r t_min t_max rec =
      if -EPSILON < tr.specDet r ∧ tr.specDet r < EPSILON then (false, rec)
      else if tr.specU r < 0 ∨ tr.specU r > 1 then (false, rec)
      else if tr.specV r < 0 ∨ tr.specU r + tr.specV r > 1 then (false, rec)
      else if tr.specT r < t_min ∨ tr.specT r > t_max then
        (false, { rec with t := tr.specT r, point := r.at (tr.specT r),
                           normal := unitVector sqrt (cross (tr.p1 - tr.p0) (tr.p2 - tr.p0)),
                           mat_ptr := some tr.mat_ptr })
      else
        (true, { rec with t := tr.specT r, point := r.at (tr.specT r),
                          normal := unitVector sqrt (cross (tr.p1 - tr.p0) (tr.p2 - tr.p0)),
                          mat_ptr := some tr.mat_ptr }) := by
  simp only [Triangle.trace, Triangle.specU, Triangle.specV, Triangle.specT,
    Triangle.specDet, mul_one_div]

/-- What a reported triangle hit implies: a non-zero determinant, weights in
range, and the record that was written. -/
theorem Triangle.hit_facts (sqrt : F → F) (tr : Triangle F) (r : Ray F)
    (t_min t_max : F) (rec : hit F) (hhit : (tr.trace sqrt r t_min t_max rec).1 = true) :
    tr.specDet r ≠ 0 ∧ 0 ≤ tr.specU r ∧ 0 ≤ tr.specV r ∧ tr.specU r + tr.specV r ≤ 1 ∧
    (tr.trace sqrt r t_min t_max rec).2 =
      { rec with t := tr.specT r, point := r.at (tr.specT r),
                 normal := unitVector sqrt (cross (tr.p1 - tr.p0) (tr.p2 - tr.p0)),
                 mat_ptr := some tr.mat_ptr } := by
  rw [Triangle.trace_spec_form] at hhit ⊢
  by_cases h0 : -EPSILON < tr.specDet r ∧ tr.specDet r < EPSILON
  · simp [h0] at hhit
  by_cases hu : tr.specU r < 0 ∨ tr.specU r > 1
  · simp [h0, hu] at hhit
  by_cases hv : tr.specV r < 0 ∨ tr.specU r + tr.specV r > 1
  · simp [h0, hu, hv] at hhit
  by_cases ht : tr.specT r < t_min ∨ tr.specT r > t_max
  · simp [h0, hu, hv, ht] at hhit
  simp only [h0, hu, hv, ht, if_false]
  have hu2 := not_or.mp hu
  have hv2 := not_or.mp hv
  refine ⟨?_, not_lt.mp hu2.1, not_lt.mp hv2.1, not_lt.mp hv2.2, trivial⟩
  intro hz
  apply h0
  rw [hz]
  constructor <;> norm_num [EPSILON]

/-- Claim C12 as stated fails: for `planeTriangle 4` the edge cross product is
(0,0,16) while the reported normal is (0,0,1), because `Triangle::trace`
stores `unitVector(cross(edge1, edge2))`. -/
theorem Triangle_normal_not_cross_product :
    (Triangle.trace sqrtQ (planeTriangle 4 whiteLight) zRay T_MIN INF hit.default).1 = true ∧
    (Triangle.trace sqrtQ (planeTriangle 4 whiteLight) zRay T_MIN INF hit.default).2.normal
      = ⟨0, 0, 1⟩ ∧
    cross ((planeTriangle 4 whiteLight).p1 - (planeTriangle 4 whiteLight).p0)
        ((planeTriangle 4 whiteLight).p2 - (planeTriangle 4 whiteLight).p0) = ⟨0, 0, 16⟩ ∧
    (Triangle.trace sqrtQ (planeTriangle 4 whiteLight) zRay T_MIN INF hit.default).2.normal
      ≠ cross ((planeTriangle 4 whiteLight).p1 - (planeTriangle 4 whiteLight).p0)
          ((planeTriangle 4 whiteLight).p2 - (planeTriangle 4 whiteLight).p0) := by
  have hs : Nat.sqrt 256 = 16 := by norm_num
  have ht : (256 : ℤ).toNat = 256 := rfl
  have hq : sqrtQ 256 = 16 := by simp [sqrtQ, ht, hs]
  refine ⟨?_, ?_, ?_, ?_⟩ <;>
    norm_num [Triangle.trace, planeTriangle, zRay, T_MIN, INF, EPSILON, cross, dot, Ray.at,
      unitVector, vec3.length, vec3.length_squared, hq]

/-- Claim C12, amended.  The normal in every hit reported by a triangle is
`unitVector` of the cross product `(p1-p0) x (p2-p0)`, that is the cross
product scaled by one over the square root of its squared length; it is the
same vector for every ray, range and incoming record, so it is never flipped
toward the incoming ray. -/
theorem Triangle_normal_unit_cross (sqrt : F → F) (tr : Triangle F) (r : Ray F)
    (t_min t_max : F) (rec : hit F)
    (hhit : (tr.trace sqrt r t_min t_max rec).1 = true) :
    (tr.trace sqrt r t_min t_max rec).2.normal
        = unitVector sqrt (cross (tr.p1 - tr.p0) (tr.p2 - tr.p0)) ∧
    (tr.trace sqrt r t_min t_max rec).2.normal
        = (1 / sqrt (cross (tr.p1 - tr.p0) (tr.p2 - tr.p0)).length_squared)
            * cross (tr.p1 - tr.p0) (tr.p2 - tr.p0) ∧
    (∀ (r2 : Ray F) (t_min2 t_max2 : F) (rec2 : hit F),
      (tr.trace sqrt r2 t_min2 t_max2 rec2).1 = true →
      (tr.trace sqrt r2 t_min2 t_max2 rec2).2.normal
        = (tr.trace sqrt r t_min t_max rec).2.normal) := by
  have h1 := (Triangle.hit_facts sqrt tr r t_min t_max rec hhit).2.2.2.2
  refine ⟨by rw [h1], by rw [h1]; rfl, ?_⟩
  intro r2 t_min2 t_max2 rec2 hhit2
  have h2 := (Triangle.hit_facts sqrt tr r2 t_min2 t_max2 rec2 hhit2).2.2.2.2
  rw [h1, h2]

/-- Witness for C12: `planeTriangle 4` hit from below by `zRay` and from above
by `downRay` reports the same normal. -/
theorem Triangle_normal_unit_cross_witness :
    (Triangle.trace sqrtQ (planeTriangle 4 whiteLight) zRay T_MIN INF hit.default).2.normal
        = unitVector sqrtQ (cross ((planeTriangle 4 whiteLight).p1 - (planeTriangle 4 whiteLight).p0)
            ((planeTriangle 4 whiteLight).p2 - (planeTriangle 4 whiteLight).p0)) ∧
    (Triangle.trace sqrtQ (planeTriangle 4 whiteLight) downRay T_MIN INF hit.default).2.normal
        = (Triangle.trace sqrtQ (planeTriangle 4 whiteLight) zRay T_MIN INF hit.default).2.normal :=
  ⟨(Triangle_normal_unit_cross sqrtQ (planeTriangle 4 whiteLight) zRay T_MIN INF hit.default
      (by norm_num [Triangle.trace, planeTriangle, zRay, T_MIN, INF, EPSILON, cross, dot,
            Ray.at])).1,
   (Triangle_normal_unit_cross sqrtQ (planeTriangle 4 whiteLight) zRay T_MIN INF hit.default
      (by norm_num [Triangle.trace, planeTriangle, zRay, T_MIN, INF, EPSILON, cross, dot,
            Ray.at])).2.2 downRay T_MIN INF hit.default
      (by norm_num [Triangle.trace, planeTriangle, downRay, T_MIN, INF, EPSILON, cross, dot,
            Ray.at])⟩

end TriangleRecord

/-! ## `Quad::trace` -/

section QuadProofs

variable {F : Type} [LinearOrderedField F]

/-- `Triangle::trace` never writes `specialObject`. -/
theorem Triangle.trace_keeps_special (sqrt : F → F) (tr : Triangle F) (r : Ray F)
    (t_min t_max : F) (rec : hit F) :
    (tr.trace sqrt r t_min t_max rec).2.specialObject = rec.specialObject := by
  rw [Triangle.trace_spec_form]
  split_ifs <;> rfl

/-- The reported result of `Triangle::trace` depends on the incoming record
only through its `specialObject` flag. -/
theorem Triangle.testResult_congr (sqrt : F → F) (tr : Triangle F) (r : Ray F)
    (t_min t_max : F) (rec rec2 : hit F) (h : rec2.specialObject = rec.specialObject) :
    testResult (tr.trace sqrt r t_min t_max rec2) = testResult (tr.trace sqrt r t_min t_max rec) := by
  rw [Triangle.trace_spec_form, Triangle.trace_spec_form]
  split_ifs <;> simp [testResult, h]

/-- Claim C13.  `Quad(p0,p1,p2,p3)` holds the triangles `(p0,p1,p2)` and
`(p2,p3,p0)`, which share the diagonal `p0`-`p2`.  Its reported result is that
of the first triangle when the first triangle reports a hit and that of the
second triangle otherwise; when the first triangle hits, the whole outcome is
the first triangle's outcome whatever the second triangle is. -/
theorem Quad_trace_first_then_second (sqrt : F → F) (p0 p1 p2 p3 : vec3 F) (m : Material F)
    (r : Ray F) (t_min t_max : F) (rec : hit F) :
    ((Quad.new p0 p1 p2 p3 m).a = ⟨p0, p1, p2, m⟩ ∧ (Quad.new p0 p1 p2 p3 m).b = ⟨p2, p3, p0, m⟩) ∧
    testResult ((Quad.new p0 p1 p2 p3 m).trace sqrt r t_min t_max rec) =
      (if (Triangle.trace sqrt ⟨p0, p1, p2, m⟩ r t_min t_max rec).1 then
        testResult (Triangle.trace sqrt ⟨p0, p1, p2, m⟩ r t_min t_max rec)
      else testResult (Triangle.trace sqrt ⟨p2, p3, p0, m⟩ r t_min t_max rec)) ∧
    ((Triangle.trace sqrt ⟨p0, p1, p2, m⟩ r t_min t_max rec).1 = true →
      ∀ b : Triangle F,
        Quad.trace sqrt ⟨⟨p0, p1, p2, m⟩, b⟩ r t_min t_max rec
          = Triangle.trace sqrt ⟨p0, p1, p2, m⟩ r t_min t_max rec) := by
  refine ⟨⟨rfl, rfl⟩, ?_, ?_⟩
  · simp only [Quad.trace, Quad.new]
    cases ha : (Triangle.trace sqrt ⟨p0, p1, p2, m⟩ r t_min t_max rec).1
    · have hb := Triangle.testResult_congr sqrt ⟨p2, p3, p0, m⟩ r t_min t_max rec
        (Triangle.trace sqrt ⟨p0, p1, p2, m⟩ r t_min t_max rec).2
        (Triangle.trace_keeps_special sqrt ⟨p0, p1, p2, m⟩ r t_min t_max rec)
      rw [← hb]
      cases hb2 : (Triangle.trace sqrt ⟨p2, p3, p0, m⟩ r t_min t_max
        (Triangle.trace sqrt ⟨p0, p1, p2, m⟩ r t_min t_max rec).2).1 <;>
        simp [testResult, hb2]
    · simp [testResult, ha]
  · intro ha b
    simp only [Quad.trace, ha, if_true]
    rw [← ha]

end QuadProofs

/-! ## `RectXY::trace` -/

section RectProofs

/-- Claim C14 (evaluation at the failing input).  For the rectangle `backRect`
in the plane z = -4 and the ray from the origin along +z, `RectXY::trace`
with the range from `T_MIN` to `INF` reports a hit with `t = -4`, below
`T_MIN`; a scene list holding only this rectangle therefore reports a hit
behind the ray. -/
theorem RectXY_trace_ignores_range :
    (RectXY.trace backRect zRay T_MIN INF hit.default).1 = true ∧
    (RectXY.trace backRect zRay T_MIN INF hit.default).2.t = -4 ∧
    ¬ ((T_MIN : ℚ) ≤ -4) ∧
    (Hittable.trace sqrtQ (.HittableList [.RectXY backRect]) zRay T_MIN INF hit.default).1
      = true := by
  refine ⟨?_, ?_, ?_, ?_⟩ <;>
    norm_num [RectXY.trace, backRect, zRay, T_MIN, INF, Ray.at, Hittable.trace,
      HittableList.loop, ListState.step, CLOSEST_INIT]

end RectProofs

/-! ## `Translate::trace` and `RotateZ::trace` -/

section WrapperProofs

variable {F : Type} [LinearOrderedField F]

/-- The body of `Translate::trace`. -/
theorem Hittable.trace_Translate (sqrt : F → F) (ptr : Hittable F) (d : vec3 F) (r : Ray F)
    (t_min t_max : F) (rec : hit F) :
    Hittable.trace sqrt (.Translate ptr d) r t_min t_max rec =
      if (Hittable.trace sqrt ptr ⟨r.origin - d, r.direction⟩ t_min t_max rec).1 then
        (true, { (Hittable.trace sqrt ptr ⟨r.origin - d, r.direction⟩ t_min t_max rec).2 with
          point := (Hittable.trace sqrt ptr ⟨r.origin - d, r.direction⟩ t_min t_max rec).2.point
            + d })
      else (false, (Hittable.trace sqrt ptr ⟨r.origin - d, r.direction⟩ t_min t_max rec).2) := by
  rw [Hittable.trace]
  cases (Hittable.trace sqrt ptr ⟨r.origin - d, r.direction⟩ t_min t_max rec).1 <;> rfl

/-- Claim C15.  `Translate(obj, d)` reports a hit exactly when `obj` reports one
for the ray with origin `r.origin - d` and the same direction; on a hit the
point is the wrapped hit's point plus `d`, and `t`, normal, material and
special flag are those of the wrapped hit. -/
theorem Translate_trace_wrapped (sqrt : F → F) (ptr : Hittable F) (d : vec3 F) (r : Ray F)
    (t_min t_max : F) (rec : hit F) :
    ((Hittable.trace sqrt (.Translate ptr d) r t_min t_max rec).1 = true ↔
      (Hittable.trace sqrt ptr ⟨r.origin - d, r.direction⟩ t_min t_max rec).1 = true) ∧
    ((Hittable.trace sqrt (.Translate ptr d) r t_min t_max rec).1 = true →
      (Hittable.trace sqrt (.Translate ptr d) r t_min t_max rec).2.point =
        (Hittable.trace sqrt ptr ⟨r.origin - d, r.direction⟩ t_min t_max rec).2.point + d ∧
      (Hittable.trace sqrt (.Translate ptr d) r t_min t_max rec).2.t =
        (Hittable.trace sqrt ptr ⟨r.origin - d, r.direction⟩ t_min t_max rec).2.t ∧
      (Hittable.trace sqrt (.Translate ptr d) r t_min t_max rec).2.normal =
        (Hittable.trace sqrt ptr ⟨r.origin - d, r.direction⟩ t_min t_max rec).2.normal ∧
      (Hittable.trace sqrt (.Translate ptr d) r t_min t_max rec).2.mat_ptr =
        (Hittable.trace sqrt ptr ⟨r.origin - d, r.direction⟩ t_min t_max rec).2.mat_ptr ∧
      (Hittable.trace sqrt (.Translate ptr d) r t_min t_max rec).2.specialObject =
        (Hittable.trace sqrt ptr ⟨r.origin - d, r.direction⟩ t_min t_max rec).2.specialObject) := by
  rw [Hittable.trace_Translate]
  cases h : (Hittable.trace sqrt ptr ⟨r.origin - d, r.direction⟩ t_min t_max rec).1 <;> simp

/-- Witness for C15: `planeTriangle 4` displaced by (0, 3/2, 0) and hit by
`offsetRay`. -/
theorem Translate_trace_wrapped_witness :
    (Hittable.trace sqrtQ (.Translate (.Triangle (planeTriangle 4 whiteLight)) ⟨0, 3 / 2, 0⟩)
        offsetRay T_MIN INF hit.default).2.point =
      (Hittable.trace sqrtQ (.Triangle (planeTriangle 4 whiteLight))
        ⟨offsetRay.origin - ⟨0, 3 / 2, 0⟩, offsetRay.direction⟩ T_MIN INF hit.default).2.point
        + ⟨0, 3 / 2, 0⟩ :=
  ((Translate_trace_wrapped sqrtQ (.Triangle (planeTriangle 4 whiteLight)) ⟨0, 3 / 2, 0⟩
    offsetRay T_MIN INF hit.default).2
    (by norm_num [Hittable.trace, Triangle.trace, planeTriangle, offsetRay, T_MIN, INF,
          EPSILON, cross, dot, Ray.at])).1

/-- The body of `RotateZ::trace`, written with `rotateIn` and `rotateOut`. -/
theorem Hittable.trace_RotateZ (sqrt : F → F) (ptr : Hittable F) (s c : F) (r : Ray F)
    (t_min t_max : F) (rec : hit F) :
    Hittable.trace sqrt (.RotateZ ptr s c) r t_min t_max rec =
      if (Hittable.trace sqrt ptr
          ⟨RotateZ.rotateIn s c r.origin, RotateZ.rotateIn s c r.direction⟩ t_min t_max rec).1 then
        (true, { (Hittable.trace sqrt ptr
          ⟨RotateZ.rotateIn s c r.origin, RotateZ.rotateIn s c r.direction⟩ t_min t_max rec).2 with
          point := RotateZ.rotateOut s c (Hittable.trace sqrt ptr
            ⟨RotateZ.rotateIn s c r.origin, RotateZ.rotateIn s c r.direction⟩
              t_min t_max rec).2.point,
          normal := RotateZ.rotateOut s c (Hittable.trace sqrt ptr
            ⟨RotateZ.rotateIn s c r.origin, RotateZ.rotateIn s c r.direction⟩
              t_min t_max rec).2.normal })
      else (false, (Hittable.trace sqrt ptr
          ⟨RotateZ.rotateIn s c r.origin, RotateZ.rotateIn s c r.direction⟩ t_min t_max rec).2) := by
  rw [Hittable.trace]
  simp only [RotateZ.rotateIn, RotateZ.rotateOut]
  cases (Hittable.trace sqrt ptr
    ⟨⟨c * r.origin.x - s * r.origin.y, s * r.origin.x + c * r.origin.y, r.origin.z⟩,
     ⟨c * r.direction.x - s * r.direction.y, s * r.direction.x + c * r.direction.y,
      r.direction.z⟩⟩ t_min t_max rec).1 <;> rfl

/-- Claim C16.  When the stored sine and cosine satisfy `s*s + c*c = 1`, the
transform `rotateOut` that `RotateZ::trace` applies to returned points and
normals undoes the transform `rotateIn` that it applies to the incoming ray's
origin and direction, in either order and with `z` kept; `rotateOut` is
`rotateIn` with the sine negated; and `RotateZ::trace` applies exactly these
two transforms. -/
theorem RotateZ_transforms_inverse (sqrt : F → F) (s c : F) (hsc : s * s + c * c = 1) :
    (∀ v : vec3 F, RotateZ.rotateOut s c (RotateZ.rotateIn s c v) = v) ∧
    (∀ v : vec3 F, RotateZ.rotateIn s c (RotateZ.rotateOut s c v) = v) ∧
    (∀ v : vec3 F, RotateZ.rotateOut s c v = RotateZ.rotateIn (-s) c v) ∧
    (∀ (ptr : Hittable F) (r : Ray F) (t_min t_max : F) (rec : hit F),
      Hittable.trace sqrt (.RotateZ ptr s c) r t_min t_max rec =
        if (Hittable.trace sqrt ptr
            ⟨RotateZ.rotateIn s c r.origin, RotateZ.rotateIn s c r.direction⟩
              t_min t_max rec).1 then
          (true, { (Hittable.trace sqrt ptr
            ⟨RotateZ.rotateIn s c r.origin, RotateZ.rotateIn s c r.direction⟩
              t_min t_max rec).2 with
            point := RotateZ.rotateOut s c (Hittable.trace sqrt ptr
              ⟨RotateZ.rotateIn s c r.origin, RotateZ.rotateIn s c r.direction⟩
                t_min t_max rec).2.point,
            normal := RotateZ.rotateOut s c (Hittable.trace sqrt ptr
              ⟨RotateZ.rotateIn s c r.origin, RotateZ.rotateIn s c r.direction⟩
                t_min t_max rec).2.normal })
        else (false, (Hittable.trace sqrt ptr
            ⟨RotateZ.rotateIn s c r.origin, RotateZ.rotateIn s c r.direction⟩
              t_min t_max rec).2)) := by
  refine ⟨?_, ?_, ?_, fun ptr r t_min t_max rec =>
    Hittable.trace_RotateZ sqrt ptr s c r t_min t_max rec⟩
  · intro v
    simp only [RotateZ.rotateOut, RotateZ.rotateIn]
    ext
    · linear_combination v.x * hsc
    · linear_combination v.y * hsc
    · rfl
  · intro v
    simp only [RotateZ.rotateOut, RotateZ.rotateIn]
    ext
    · linear_combination v.x * hsc
    · linear_combination v.y * hsc
    · rfl
  · intro v
    simp only [RotateZ.rotateOut, RotateZ.rotateIn]
    ext
    · simp only; ring
    · simp only
    · rfl

/-- Witness for C16: sine 3/5, cosine 4/5 and the vector (1,2,3). -/
theorem RotateZ_transforms_inverse_witness :
    RotateZ.rotateOut (3 / 5 : ℚ) (4 / 5) (RotateZ.rotateIn (3 / 5) (4 / 5) ⟨1, 2, 3⟩)
      = ⟨1, 2, 3⟩ :=
  (RotateZ_transforms_inverse sqrtQ (3 / 5 : ℚ) (4 / 5) (by norm_num)).1 ⟨1, 2, 3⟩

/-- Claim C17 as stated fails.  With stored sine 3/5 and cosine 4/5,
`turnedTriangle` reports a hit for `offsetRay` at the point (0, 3/2, 4).  The
wrapped triangle tested with the ray the claim describes,
`(x, y) -> (c*x + s*y, -s*x + c*y)`, reports no hit; tested with
`(x, y) -> (c*x - s*y, s*x + c*y)` it is hit at (-9/10, 6/5, 4), and the
claim's transform of that point, `(c*x - s*y, s*x + c*y)`, is not the
returned point. -/
theorem RotateZ_ray_not_inverse_rotated :
    (Hittable.trace sqrtQ turnedTriangle offsetRay T_MIN INF hit.default).1 = true ∧
    (Hittable.trace sqrtQ turnedTriangle offsetRay T_MIN INF hit.default).2.point
      = ⟨0, 3 / 2, 4⟩ ∧
    (Hittable.trace sqrtQ (.Triangle (planeTriangle 4 whiteLight))
      ⟨⟨4 / 5 * offsetRay.origin.x + 3 / 5 * offsetRay.origin.y,
        -(3 / 5) * offsetRay.origin.x + 4 / 5 * offsetRay.origin.y, offsetRay.origin.z⟩,
       ⟨4 / 5 * offsetRay.direction.x + 3 / 5 * offsetRay.direction.y,
        -(3 / 5) * offsetRay.direction.x + 4 / 5 * offsetRay.direction.y,
        offsetRay.direction.z⟩⟩ T_MIN INF hit.default).1 = false ∧
    (Hittable.trace sqrtQ (.Triangle (planeTriangle 4 whiteLight))
      ⟨⟨4 / 5 * offsetRay.origin.x - 3 / 5 * offsetRay.origin.y,
        3 / 5 * offsetRay.origin.x + 4 / 5 * offsetRay.origin.y, offsetRay.origin.z⟩,
       ⟨4 / 5 * offsetRay.direction.x - 3 / 5 * offsetRay.direction.y,
        3 / 5 * offsetRay.direction.x + 4 / 5 * offsetRay.direction.y,
        offsetRay.direction.z⟩⟩ T_MIN INF hit.default).2.point = ⟨-(9 / 10), 6 / 5, 4⟩ ∧
    (⟨4 / 5 * (-(9 / 10)) - 3 / 5 * (6 / 5), 3 / 5 * (-(9 / 10)) + 4 / 5 * (6 / 5), 4⟩ : vec3 ℚ)
      ≠ ⟨0, 3 / 2, 4⟩ := by
  refine ⟨?_, ?_, ?_, ?_, ?_⟩ <;>
    norm_num [turnedTriangle, offsetRay, Hittable.trace, Triangle.trace, planeTriangle, T_MIN,
      INF, EPSILON, cross, dot, Ray.at]

/-- Claim C17, amended.  The constructor stores the sine and cosine of
`angle * PI / 180`.  With `s` and `c` the stored values, the ray handed to
the wrapped object has origin and direction transformed by
`(x, y) -> (c*x - s*y, s*x + c*y)`, and on a hit the returned point and
normal are the wrapped hit's point and normal transformed by
`(x, y) -> (c*x + s*y, -s*x + c*y)`; `z` is kept in both. -/
theorem RotateZ_trace_transforms (sqrt sin cos : F → F) (ptr : Hittable F) (angle : F)
    (r : Ray F) (t_min t_max : F) (rec : hit F) :
    RotateZ.new sin cos ptr angle =
      .RotateZ ptr (sin (angle * MATH.PI / 180)) (cos (angle * MATH.PI / 180)) ∧
    (∀ s c : F,
      Hittable.trace sqrt (.RotateZ ptr s c) r t_min t_max rec =
        if (Hittable.trace sqrt ptr
            ⟨⟨c * r.origin.x - s * r.origin.y, s * r.origin.x + c * r.origin.y, r.origin.z⟩,
             ⟨c * r.direction.x - s * r.direction.y, s * r.direction.x + c * r.direction.y,
              r.direction.z⟩⟩ t_min t_max rec).1 then
          (true, { (Hittable.trace sqrt ptr
            ⟨⟨c * r.origin.x - s * r.origin.y, s * r.origin.x + c * r.origin.y, r.origin.z⟩,
             ⟨c * r.direction.x - s * r.direction.y, s * r.direction.x + c * r.direction.y,
              r.direction.z⟩⟩ t_min t_max rec).2 with
            point := RotateZ.rotateOut s c (Hittable.trace sqrt ptr
              ⟨⟨c * r.origin.x - s * r.origin.y, s * r.origin.x + c * r.origin.y, r.origin.z⟩,
               ⟨c * r.direction.x - s * r.direction.y, s * r.direction.x + c * r.direction.y,
                r.direction.z⟩⟩ t_min t_max rec).2.point,
            normal := RotateZ.rotateOut s c (Hittable.trace sqrt ptr
              ⟨⟨c * r.origin.x - s * r.origin.y, s * r.origin.x + c * r.origin.y, r.origin.z⟩,
               ⟨c * r.direction.x - s * r.direction.y, s * r.direction.x + c * r.direction.y,
                r.direction.z⟩⟩ t_min t_max rec).2.normal })
        else (false, (Hittable.trace sqrt ptr
            ⟨⟨c * r.origin.x - s * r.origin.y, s * r.origin.x + c * r.origin.y, r.origin.z⟩,
             ⟨c * r.direction.x - s * r.direction.y, s * r.direction.x + c * r.direction.y,
              r.direction.z⟩⟩ t_min t_max rec).2)) ∧
    (∀ (s c : F) (v : vec3 F),
      RotateZ.rotateOut s c v = ⟨c * v.x + s * v.y, -s * v.x + c * v.y, v.z⟩) := by
  refine ⟨rfl, fun s c => ?_, fun s c v => rfl⟩
  exact Hittable.trace_RotateZ sqrt ptr s c r t_min t_max rec

end WrapperProofs

/-! ## `BadEend::trace` -/

section BadEendProofs

variable {F : Type} [LinearOrderedField F]

/-- Claim C18.  `BadEend::trace` reports a hit exactly when `HittableList::trace`
on the same objects does; on a hit the record is the list's record with the
special flag set to true, and otherwise the record is the list's record. -/
theorem BadEend_trace_tags_list (sqrt : F → F) (objects : List (Hittable F)) (r : Ray F)
    (t_min t_max : F) (rec : hit F) :
    ((Hittable.trace sqrt (.BadEend objects) r t_min t_max rec).1 =
      (Hittable.trace sqrt (.HittableList objects) r t_min t_max rec).1) ∧
    Hittable.trace sqrt (.BadEend objects) r t_min t_max rec =
      (if (Hittable.trace sqrt (.HittableList objects) r t_min t_max rec).1 then
        (true, { (Hittable.trace sqrt (.HittableList objects) r t_min t_max rec).2 with
          specialObject := true })
      else (false, (Hittable.trace sqrt (.HittableList objects) r t_min t_max rec).2)) := by
  simp only [Hittable.trace]
  cases (HittableList.loop sqrt objects r t_min
    { temp_hit := hit.default, hit_anything := false, closest_so_far := CLOSEST_INIT,
      rec_ := rec }).hit_anything <;> simp

end BadEendProofs

/-! ## Materials: `Unlit` and `Lambertian` -/

section MaterialProofs

variable {F : Type} [LinearOrderedField F]

/-- Claim C19 (evaluation at the failing input).  `Unlit::emitted` returns the
albedo and `Unlit::scatter` succeeds with the albedo as attenuation, but it
does not write `scattered`: called as in `trace`, with a default `Ray`, the
scattered ray keeps the zero direction although the incoming direction is
(0,0,1).  In `trace` at depth 2 the recursion therefore follows the zero ray,
which misses the triangle, and the result is albedo + albedo * background. -/
theorem Unlit_scatter_leaves_scattered :
    (Material.Unlit (⟨1 / 2, 1 / 2, 1 / 2⟩ : vec3 ℚ)).emitted = ⟨1 / 2, 1 / 2, 1 / 2⟩ ∧
    (Material.Unlit (⟨1 / 2, 1 / 2, 1 / 2⟩ : vec3 ℚ)).scatter sqrtQ 0 zRay hit.default
        vec3.zero Ray.default (constRng 0) =
      some { ok := true, outColor := ⟨1 / 2, 1 / 2, 1 / 2⟩, scattered := Ray.default,
             rng := constRng 0 } ∧
    (Ray.default : Ray ℚ).direction = ⟨0, 0, 0⟩ ∧
    zRay.direction = ⟨0, 0, 1⟩ ∧
    (Ray.default : Ray ℚ).direction ≠ zRay.direction ∧
    trace sqrtQ 0 ⟨2 / 5, 2 / 5, 1⟩ zRay
        (.Triangle (planeTriangle 4 (.Unlit ⟨1 / 2, 1 / 2, 1 / 2⟩))) 2 (constRng 0)
      = some (⟨7 / 10, 7 / 10, 1⟩, constRng 0) := by
  refine ⟨rfl, rfl, rfl, rfl, ?_, ?_⟩
  · simp [Ray.default, vec3.zero, zRay]
  have hhit : (Hittable.trace sqrtQ (.Triangle (planeTriangle 4 (.Unlit ⟨1 / 2, 1 / 2, 1 / 2⟩)))
      zRay T_MIN INF hit.default).1 = true := by
    norm_num [Hittable.trace, Triangle.trace, planeTriangle, zRay, T_MIN, INF, EPSILON, cross,
      dot, Ray.at]
  have hmat : (Hittable.trace sqrtQ (.Triangle (planeTriangle 4 (.Unlit ⟨1 / 2, 1 / 2, 1 / 2⟩)))
      zRay T_MIN INF hit.default).2.mat_ptr = some (.Unlit ⟨1 / 2, 1 / 2, 1 / 2⟩) := by
    norm_num [Hittable.trace, Triangle.trace, planeTriangle, zRay, T_MIN, INF, EPSILON, cross,
      dot, Ray.at]
  have hmiss : (Hittable.trace sqrtQ (.Triangle (planeTriangle 4 (.Unlit ⟨1 / 2, 1 / 2, 1 / 2⟩)))
      Ray.default T_MIN INF hit.default).1 = false := by
    norm_num [Hittable.trace, Triangle.trace, planeTriangle, Ray.default, vec3.zero, T_MIN, INF,
      EPSILON, cross, dot, Ray.at]
  rw [trace]
  simp only [hhit, hmat, Material.scatter, Material.emitted]
  rw [trace]
  simp only [hmiss]
  norm_num

/-- After three draws the candidates of the loop are shifted by one. -/
theorem MATH.candidate_afterDraws (g : Rng F) (j : Nat) :
    MATH.candidate (MATH.afterDraws 3 g) j = MATH.candidate g (j + 1) := by
  simp only [MATH.candidate, MATH.afterDraws]
  have e1 : 3 * j + 3 = 3 * (j + 1) := by ring
  have e2 : 3 * j + 1 + 3 = 3 * (j + 1) + 1 := by ring
  have e3 : 3 * j + 2 + 3 = 3 * (j + 1) + 2 := by ring
  rw [e1, e2, e3]

/-- One iteration of the loop of `randomInUnitSphere`. -/
theorem MATH.randomInUnitSphere_succ (fuel : Nat) (g : Rng F) :
    MATH.randomInUnitSphere (fuel + 1) g =
      if (MATH.candidate g 0).length_squared ≥ 1 then
        MATH.randomInUnitSphere fuel (MATH.afterDraws 3 g)
      else some (MATH.candidate g 0, MATH.afterDraws 3 g) := by
  rfl

/-- When candidate `k` is the first one with squared length below 1, every
fuel above `k` makes `randomInUnitSphere` return it after `3*(k+1)` draws. -/
theorem MATH.randomInUnitSphere_first_accept (k : Nat) :
    ∀ (g : Rng F), (∀ j, j < k → 1 ≤ (MATH.candidate g j).length_squared) →
      (MATH.candidate g k).length_squared < 1 →
      ∀ fuel, k < fuel →
        MATH.randomInUnitSphere fuel g
          = some (MATH.candidate g k, MATH.afterDraws (3 * (k + 1)) g) := by
  induction k with
  | zero =>
    intro g _ hacc fuel hfuel
    obtain ⟨f, rfl⟩ : ∃ f, fuel = f + 1 := ⟨fuel - 1, by omega⟩
    rw [MATH.randomInUnitSphere_succ, if_neg (not_le.mpr hacc)]
  | succ k ih =>
    intro g hrej hacc fuel hfuel
    obtain ⟨f, rfl⟩ : ∃ f, fuel = f + 1 := ⟨fuel - 1, by omega⟩
    rw [MATH.randomInUnitSphere_succ, if_pos (hrej 0 (Nat.succ_pos k))]
    have h := ih (MATH.afterDraws 3 g)
      (fun j hj => by rw [MATH.candidate_afterDraws]; exact hrej (j + 1) (by omega))
      (by rw [MATH.candidate_afterDraws]; exact hacc) f (by omega)
    rw [h, MATH.candidate_afterDraws]
    rfl

/-- Claim C20.  `Lambertian::emitted` is black.  When `randomUnitVector` returns
the sample `ξ`, `Lambertian::scatter` succeeds with the albedo as attenuation
and a scattered ray from the hit point with direction `normal + ξ`, or
`normal` when every component of `normal + ξ` is below 1e-8 in absolute
value.  The sample is returned whenever fuel allows: if candidate `k` of the
stream is the first inside the unit sphere, any fuel above `k` returns
`unitVector` of it, and if some candidate is inside the unit sphere there is
a fuel bound from which a sample is always returned. -/
theorem Lambertian_scatter_law (sqrt : F → F) (albedo : vec3 F) (r_in : Ray F) (rec : hit F)
    (outColor : vec3 F) (scattered : Ray F) (g : Rng F) :
    (Material.Lambertian albedo).emitted = ⟨0, 0, 0⟩ ∧
    (∀ (fuel : Nat) (ξ : vec3 F) (g1 : Rng F),
      MATH.randomUnitVector sqrt fuel g = some (ξ, g1) →
      (Material.Lambertian albedo).scatter sqrt fuel r_in rec outColor scattered g =
        some { ok := true, outColor := albedo,
               scattered := ⟨rec.point,
                 if |(rec.normal + ξ).x| < 1 / 100000000 ∧ |(rec.normal + ξ).y| < 1 / 100000000
                     ∧ |(rec.normal + ξ).z| < 1 / 100000000 then rec.normal
                 else rec.normal + ξ⟩,
               rng := g1 }) ∧
    (∀ k : Nat, (∀ j, j < k → 1 ≤ (MATH.candidate g j).length_squared) →
      (MATH.candidate g k).length_squared < 1 →
      ∀ fuel, k < fuel →
        MATH.randomUnitVector sqrt fuel g =
          some (unitVector sqrt (MATH.candidate g k), MATH.afterDraws (3 * (k + 1)) g)) ∧
    ((∃ k : Nat, (MATH.candidate g k).length_squared < 1) →
      ∃ fuel0 : Nat, ∀ fuel, fuel0 ≤ fuel →
        ∃ (ξ : vec3 F) (g1 : Rng F), MATH.randomUnitVector sqrt fuel g = some (ξ, g1)) := by
  have hthird : ∀ k : Nat, (∀ j, j < k → 1 ≤ (MATH.candidate g j).length_squared) →
      (MATH.candidate g k).length_squared < 1 →
      ∀ fuel, k < fuel →
        MATH.randomUnitVector sqrt fuel g =
          some (unitVector sqrt (MATH.candidate g k), MATH.afterDraws (3 * (k + 1)) g) := by
    intro k hrej hacc fuel hfuel
    simp only [MATH.randomUnitVector,
      MATH.randomInUnitSphere_first_accept k g hrej hacc fuel hfuel]
  refine ⟨rfl, ?_, hthird, ?_⟩
  · intro fuel ξ g1 hξ
    have hb : (rec.normal + ξ).near_zero = true ↔
        (|(rec.normal + ξ).x| < 1 / 100000000 ∧ |(rec.normal + ξ).y| < 1 / 100000000
          ∧ |(rec.normal + ξ).z| < 1 / 100000000) := by
      simp [vec3.near_zero, and_assoc]
    simp only [Material.scatter, Material.scatterDiffuse, hξ]
    by_cases hz : |(rec.normal + ξ).x| < 1 / 100000000 ∧ |(rec.normal + ξ).y| < 1 / 100000000
        ∧ |(rec.normal + ξ).z| < 1 / 100000000
    · rw [if_pos hz, if_pos (hb.mpr hz)]
    · rw [if_neg hz, if_neg (fun h => hz (hb.mp h))]
  · intro hex
    classical
    refine ⟨Nat.find hex + 1, fun fuel hfuel => ⟨_, _, hthird (Nat.find hex) ?_ (Nat.find_spec hex)
      fuel (by omega)⟩⟩
    intro j hj
    exact not_lt.mp (Nat.find_min hex hj)

/-- Witness for C20: the first candidate (1,1,1) is discarded, the second
(0,0,1/2) gives the sample (0,0,1), and the scattered direction is (0,0,2). -/
theorem Lambertian_scatter_law_witness :
    (Material.Lambertian (⟨1 / 2, 1 / 2, 1 / 2⟩ : vec3 ℚ)).scatter sqrtQ 2 zRay
        { (hit.default : hit ℚ) with point := ⟨0, 0, 4⟩, normal := ⟨0, 0, 1⟩ }
        vec3.zero Ray.default retryRng =
      some { ok := true, outColor := ⟨1 / 2, 1 / 2, 1 / 2⟩,
             scattered := ⟨⟨0, 0, 4⟩, ⟨0, 0, 2⟩⟩, rng := MATH.afterDraws 6 retryRng } := by
  have hrej : ∀ j, j < 1 → 1 ≤ (MATH.candidate retryRng j).length_squared := by
    intro j hj
    obtain rfl : j = 0 := by omega
    norm_num [MATH.candidate, retryRng, MATH.remap, vec3.length_squared]
  have hacc : (MATH.candidate retryRng 1).length_squared < 1 := by
    norm_num [MATH.candidate, retryRng, MATH.remap, vec3.length_squared]
  have hξ : MATH.randomUnitVector sqrtQ 2 retryRng
      = some (⟨0, 0, 1⟩, MATH.afterDraws 6 retryRng) := by
    rw [(Lambertian_scatter_law sqrtQ ⟨1 / 2, 1 / 2, 1 / 2⟩ zRay hit.default vec3.zero
      Ray.default retryRng).2.2.1 1 hrej hacc 2 (by norm_num)]
    norm_num [MATH.candidate, retryRng, MATH.remap, unitVector, vec3.length,
      vec3.length_squared, sqrtQ]
  have h := (Lambertian_scatter_law sqrtQ ⟨1 / 2, 1 / 2, 1 / 2⟩ zRay
    { (hit.default : hit ℚ) with point := ⟨0, 0, 4⟩, normal := ⟨0, 0, 1⟩ }
    vec3.zero Ray.default retryRng).2.1 2 ⟨0, 0, 1⟩ (MATH.afterDraws 6 retryRng) hξ
  rw [h]
  norm_num

end MaterialProofs

/-! ## Materials: `Metal` and `Dielectric` -/

section MetalProofs

variable {F : Type} [LinearOrderedField F]

/-- The body of `Metal::scatter` once `randomInUnitSphere` has returned the
sample `p`. -/
theorem Material.scatter_Metal (sqrt : F → F) (fuel : Nat) (albedo : vec3 F) (fuzz : F)
    (r_in : Ray F) (rec : hit F) (outColor : vec3 F) (scattered : Ray F) (g g1 : Rng F)
    (p : vec3 F) (hp : MATH.randomInUnitSphere fuel g = some (p, g1)) :
    (Material.Metal albedo fuzz).scatter sqrt fuel r_in rec outColor scattered g =
      some { ok := decide (dot (reflect (unitVector sqrt r_in.direction) rec.normal + fuzz * p)
                    rec.normal > 0),
             outColor := albedo,
             scattered := ⟨rec.point,
               reflect (unitVector sqrt r_in.direction) rec.normal + fuzz * p⟩,
             rng := g1 } := by
  simp only [Material.scatter, hp]

/-- Claim C21 as stated fails: for the incoming direction (0,0,-2) and the
normal (0,0,1) a metal with fuzz 0 scatters along (0,0,1), the reflection of
the normalised direction, while `reflect` of the incoming direction itself is
(0,0,2). -/
theorem Metal_mirror_not_reflect_of_direction :
    ((Material.newMetal (⟨2 / 5, 2 / 5, 2 / 5⟩ : vec3 ℚ) 0).scatter sqrtQ 1
        ⟨⟨0, 0, 5⟩, ⟨0, 0, -2⟩⟩
        { (hit.default : hit ℚ) with point := ⟨0, 0, 0⟩, normal := ⟨0, 0, 1⟩ }
        vec3.zero Ray.default (constRng (1 / 2))).map (fun s => s.scattered.direction)
      = some ⟨0, 0, 1⟩ ∧
    reflect (⟨0, 0, -2⟩ : vec3 ℚ) ⟨0, 0, 1⟩ = ⟨0, 0, 2⟩ ∧
    (⟨0, 0, 1⟩ : vec3 ℚ) ≠ reflect (⟨0, 0, -2⟩ : vec3 ℚ) ⟨0, 0, 1⟩ := by
  have hs : Nat.sqrt 4 = 2 := by norm_num
  have ht : (4 : ℤ).toNat = 4 := rfl
  have hq : sqrtQ 4 = 2 := by simp [sqrtQ, ht, hs]
  refine ⟨?_, ?_, ?_⟩
  · norm_num [Material.newMetal, Material.scatter, MATH.randomInUnitSphere, MATH.randomRange,
      MATH.random, MATH.remap, constRng, vec3.length_squared, reflect, unitVector, vec3.length,
      dot, hq]
  · norm_num [reflect, dot]
  · norm_num [reflect, dot]

/-- Claim C21, amended.  For a metal constructed with fuzz 0, whenever
`randomInUnitSphere` returns a sample, the scattered direction is exactly
`reflect(unitVector(D), n) = U - 2*dot(U,n)*n` with `U = unitVector(D)` the
normalised incoming direction; it is `reflect(D, n)` when `D` has length 1. -/
theorem Metal_mirror_reflects_unit (sqrt : F → F) (fuel : Nat) (albedo : vec3 F)
    (r_in : Ray F) (rec : hit F) (outColor : vec3 F) (scattered : Ray F) (g g1 : Rng F)
    (p : vec3 F) (hp : MATH.randomInUnitSphere fuel g = some (p, g1)) :
    ∃ s : ScatterResult F,
      (Material.newMetal albedo 0).scatter sqrt fuel r_in rec outColor scattered g = some s ∧
      s.scattered.direction = reflect (unitVector sqrt r_in.direction) rec.normal ∧
      s.scattered.direction =
        unitVector sqrt r_in.direction
          - (2 * dot (unitVector sqrt r_in.direction) rec.normal) * rec.normal ∧
      (sqrt r_in.direction.length_squared = 1 →
        s.scattered.direction = reflect r_in.direction rec.normal) := by
  have h0 : Material.newMetal albedo (0 : F) = .Metal albedo 0 := by
    simp [Material.newMetal]
  rw [h0, Material.scatter_Metal sqrt fuel albedo 0 r_in rec outColor scattered g g1 p hp]
  have hdir : reflect (unitVector sqrt r_in.direction) rec.normal + (0 : F) * p
      = reflect (unitVector sqrt r_in.direction) rec.normal := by
    simp
  refine ⟨_, rfl, hdir, by rw [hdir]; rfl, ?_⟩
  intro hlen
  show reflect (unitVector sqrt r_in.direction) rec.normal + (0 : F) * p = _
  rw [hdir]
  have hu : unitVector sqrt r_in.direction = r_in.direction := by
    simp [unitVector, vec3.length, hlen]
  rw [hu]

/-- Witness for C21: incoming direction (0,0,-2), normal (0,0,1), and a stream
whose first candidate is accepted. -/
theorem Metal_mirror_reflects_unit_witness :
    ∃ s : ScatterResult ℚ,
      (Material.newMetal (⟨2 / 5, 2 / 5, 2 / 5⟩ : vec3 ℚ) 0).scatter sqrtQ 1
        ⟨⟨0, 0, 5⟩, ⟨0, 0, -2⟩⟩
        { (hit.default : hit ℚ) with point := ⟨0, 0, 0⟩, normal := ⟨0, 0, 1⟩ }
        vec3.zero Ray.default (constRng (1 / 2)) = some s ∧
      s.scattered.direction = reflect (unitVector sqrtQ ⟨0, 0, -2⟩) ⟨0, 0, 1⟩ ∧
      s.scattered.direction =
        unitVector sqrtQ (⟨0, 0, -2⟩ : vec3 ℚ)
          - (2 * dot (unitVector sqrtQ (⟨0, 0, -2⟩ : vec3 ℚ)) ⟨0, 0, 1⟩) * (⟨0, 0, 1⟩ : vec3 ℚ) ∧
      (sqrtQ (vec3.length_squared (⟨0, 0, -2⟩ : vec3 ℚ)) = 1 →
        s.scattered.direction = reflect ⟨0, 0, -2⟩ ⟨0, 0, 1⟩) :=
  Metal_mirror_reflects_unit sqrtQ 1 ⟨2 / 5, 2 / 5, 2 / 5⟩ ⟨⟨0, 0, 5⟩, ⟨0, 0, -2⟩⟩
    { (hit.default : hit ℚ) with point := ⟨0, 0, 0⟩, normal := ⟨0, 0, 1⟩ }
    vec3.zero Ray.default (constRng (1 / 2)) (MATH.afterDraws 3 (constRng (1 / 2))) ⟨0, 0, 0⟩
    (by
      rw [MATH.randomInUnitSphere_succ]
      norm_num [MATH.candidate, MATH.remap, constRng, vec3.length_squared])

/-- Claim C22.  The constructor stores `min(f, 1)` as fuzz.  Whenever
`randomInUnitSphere` returns the sample `p`, `Metal::scatter` returns with
the scattered ray from the hit point along
`reflect(unitVector(D), n) + fuzz * p` and the albedo as attenuation, and it
reports failure exactly when the dot product of that direction with the
normal is at most 0.  The sample is returned for every fuel above the index
of the first candidate inside the unit sphere. -/
theorem Metal_scatter_absorbs (sqrt : F → F) (albedo : vec3 F) (f : F)
    (r_in : Ray F) (rec : hit F) (outColor : vec3 F) (scattered : Ray F) (g : Rng F) :
    Material.newMetal albedo f = .Metal albedo (min f 1) ∧
    (∀ (fuel : Nat) (p : vec3 F) (g1 : Rng F),
      MATH.randomInUnitSphere fuel g = some (p, g1) →
      ∃ s : ScatterResult F,
        (Material.newMetal albedo f).scatter sqrt fuel r_in rec outColor scattered g = some s ∧
        s.scattered =
          ⟨rec.point, reflect (unitVector sqrt r_in.direction) rec.normal + min f 1 * p⟩ ∧
        s.outColor = albedo ∧ s.rng = g1 ∧
        (s.ok = false ↔ dot s.scattered.direction rec.normal ≤ 0)) ∧
    (∀ k : Nat, (∀ j, j < k → 1 ≤ (MATH.candidate g j).length_squared) →
      (MATH.candidate g k).length_squared < 1 →
      ∀ fuel, k < fuel →
        MATH.randomInUnitSphere fuel g
          = some (MATH.candidate g k, MATH.afterDraws (3 * (k + 1)) g)) := by
  have h0 : Material.newMetal albedo f = .Metal albedo (min f 1) := by
    simp only [Material.newMetal]
    congr 1
    by_cases hf : f < 1
    · rw [if_pos hf, min_eq_left (le_of_lt hf)]
    · rw [if_neg hf, min_eq_right (not_lt.mp hf)]
  refine ⟨h0, ?_, fun k hrej hacc fuel hfuel =>
    MATH.randomInUnitSphere_first_accept k g hrej hacc fuel hfuel⟩
  intro fuel p g1 hp
  rw [h0, Material.scatter_Metal sqrt fuel albedo (min f 1) r_in rec outColor scattered g g1 p hp]
  refine ⟨_, rfl, rfl, rfl, rfl, ?_⟩
  simp

/-- Claim C23.  For every index of refraction, incoming ray, hit record, random
stream and fuel, `Dielectric::scatter` returns success with attenuation
(1,1,1) and a scattered ray that starts at the hit point; it consumes at most
one draw. -/
theorem Dielectric_scatter_succeeds (sqrt : F → F) (fuel : Nat) (ir : F)
    (r_in : Ray F) (rec : hit F) (outColor : vec3 F) (scattered : Ray F) (g : Rng F) :
    ∃ s : ScatterResult F,
      (Material.Dielectric ir).scatter sqrt fuel r_in rec outColor scattered g = some s ∧
      s.ok = true ∧ s.outColor = ⟨1, 1, 1⟩ ∧ s.scattered.origin = rec.point ∧
      (s.rng = g ∨ s.rng = (MATH.random g).2) := by
  simp only [Material.scatter]
  split_ifs
  all_goals first
    | exact ⟨_, rfl, rfl, rfl, rfl, Or.inl rfl⟩
    | exact ⟨_, rfl, rfl, rfl, rfl, Or.inr rfl⟩

end MetalProofs

/-! ## `draw` -/

section DrawProofs

variable {F : Type} [LinearOrderedField F]

/-- The effect of `draw` on the three buffers when the pixel index
`y*250 + x` is the natural number `i` below 62500. -/
theorem draw_at_index (toUChar : F → Nat) (fb : FrameBuffer F) (x y : Int) (color : vec3 F)
    (i : Nat) (hi : y * 250 + x = (i : Int)) (hlt : i < 62500) :
    ∃ fb1 : FrameBuffer F, draw toUChar fb x y color = some fb1 ∧
      (∀ j, fb1.rayCounter j = if j = i then fb.rayCounter j + 1 else fb.rayCounter j) ∧
      (∀ j, fb1.data j =
        if j = i * 3 then fb.data j + color.x
        else if j = i * 3 + 1 then fb.data j + color.y
        else if j = i * 3 + 2 then fb.data j + color.z
        else fb.data j) ∧
      (∀ j, fb1.byteBuffer j =
        if j = i * 4 then toUChar (fb1.data (i * 3) / fb1.rayCounter i * 255)
        else if j = i * 4 + 1 then toUChar (fb1.data (i * 3 + 1) / fb1.rayCounter i * 255)
        else if j = i * 4 + 2 then toUChar (fb1.data (i * 3 + 2) / fb1.rayCounter i * 255)
        else if j = i * 4 + 3 then 255
        else fb.byteBuffer j) := by
  have hidx : 0 ≤ y * ((IMAGE_WIDTH : Nat) : Int) + x
      ∧ y * ((IMAGE_WIDTH : Nat) : Int) + x
        < ((IMAGE_WIDTH : Nat) : Int) * ((IMAGE_HEIGHT : Nat) : Int) := by
    simp only [IMAGE_WIDTH, IMAGE_HEIGHT]
    push_cast
    rw [hi]
    constructor
    · exact Int.natCast_nonneg i
    · have : (i : Int) < 62500 := by exact_mod_cast hlt
      linarith
  have hw : (y * ((IMAGE_WIDTH : Nat) : Int) + x).toNat = i := by
    simp only [IMAGE_WIDTH]
    push_cast
    rw [hi]
    exact Int.toNat_natCast i
  simp only [draw, if_pos hidx, COLOR_CHANNELS, BUFFER_CHANNELS, Nat.add_zero]
  generalize (y * ((IMAGE_WIDTH : Nat) : Int) + x).toNat = k at hw
  have hw2 := hw.symm
  clear hw
  subst hw2
  have a1 : i * 3 + 1 ≠ i * 3 := by omega
  have a2 : i * 3 + 2 ≠ i * 3 := by omega
  have a3 : i * 3 + 2 ≠ i * 3 + 1 := by omega
  have b1 : i * 4 + 1 ≠ i * 4 := by omega
  have b2 : i * 4 + 2 ≠ i * 4 := by omega
  have b3 : i * 4 + 2 ≠ i * 4 + 1 := by omega
  have b4 : i * 4 + 3 ≠ i * 4 := by omega
  have b5 : i * 4 + 3 ≠ i * 4 + 1 := by omega
  have b6 : i * 4 + 3 ≠ i * 4 + 2 := by omega
  refine ⟨_, rfl, ?_, ?_, ?_⟩
  · intro j
    simp only [Function.update_apply]
    split_ifs with h
    · rw [h]
    · rfl
  · intro j
    simp only [Function.update_apply, a1, a2, a3, a1.symm, a2.symm, a3.symm, if_false, if_true]
    by_cases h0 : j = i * 3
    · subst h0
      simp only [a1.symm, a2.symm, if_false, if_true]
    · by_cases h1 : j = i * 3 + 1
      · subst h1
        simp only [a1, a3.symm, if_false, if_true]
      · by_cases h2 : j = i * 3 + 2
        · subst h2
          simp only [a2, a3, if_false, if_true]
        · simp only [h0, h1, h2, if_false]
  · intro j
    simp only [Function.update_apply, a1, a2, a3, a1.symm, a2.symm, a3.symm, b1, b2, b3, b4, b5,
      b6, b1.symm, b2.symm, b3.symm, b4.symm, b5.symm, b6.symm, if_false, if_true]
    by_cases h0 : j = i * 4
    · subst h0
      simp only [b1.symm, b2.symm, b4.symm, if_false, if_true]
    · by_cases h1 : j = i * 4 + 1
      · subst h1
        simp only [b1, b3.symm, b5.symm, if_false, if_true]
      · by_cases h2 : j = i * 4 + 2
        · subst h2
          simp only [b2, b3, b6.symm, if_false, if_true]
        · by_cases h3 : j = i * 4 + 3
          · subst h3
            simp only [b4, b5, b6, if_false, if_true]
          · simp only [h0, h1, h2, h3, if_false]

/-- An in-range pixel has an index between 0 and 62499. -/
theorem pixel_index (x y : Int) (hx0 : 0 ≤ x) (hx1 : x < 250) (hy0 : 0 ≤ y) (hy1 : y < 250) :
    y * 250 + x = (((y * 250 + x).toNat : Nat) : Int) ∧ (y * 250 + x).toNat < 62500 := by
  have h0 : 0 ≤ y * 250 + x := by nlinarith
  refine ⟨(Int.toNat_of_nonneg h0).symm, ?_⟩
  have : y * 250 + x < 62500 := by nlinarith
  omega

/-- Distinct in-range pixels have distinct indices. -/
theorem pixel_index_injective (x y x2 y2 : Int) (hx0 : 0 ≤ x) (hx1 : x < 250) (hy0 : 0 ≤ y)
    (hx20 : 0 ≤ x2) (hx21 : x2 < 250) (hy20 : 0 ≤ y2)
    (h : (y2 * 250 + x2).toNat = (y * 250 + x).toNat) : x2 = x ∧ y2 = y := by
  have h0 : 0 ≤ y * 250 + x := by nlinarith
  have h1 : 0 ≤ y2 * 250 + x2 := by nlinarith
  have e : y2 * 250 + x2 = y * 250 + x := by
    rw [← Int.toNat_of_nonneg h0, ← Int.toNat_of_nonneg h1, h]
  constructor <;> omega

/-- Claim C25.  For an in-range pixel `draw` adds the colour to the pixel's
three running sums and 1 to its sample counter; every other in-range pixel
has a different index and keeps its sums, its counter and its four bytes. -/
theorem draw_accumulates_pixel (toUChar : F → Nat) (fb : FrameBuffer F) (x y : Int)
    (color : vec3 F) (hx0 : 0 ≤ x) (hx1 : x < 250) (hy0 : 0 ≤ y) (hy1 : y < 250) :
    ∃ fb1 : FrameBuffer F, draw toUChar fb x y color = some fb1 ∧
      fb1.data ((y * 250 + x).toNat * 3) = fb.data ((y * 250 + x).toNat * 3) + color.x ∧
      fb1.data ((y * 250 + x).toNat * 3 + 1)
        = fb.data ((y * 250 + x).toNat * 3 + 1) + color.y ∧
      fb1.data ((y * 250 + x).toNat * 3 + 2)
        = fb.data ((y * 250 + x).toNat * 3 + 2) + color.z ∧
      fb1.rayCounter (y * 250 + x).toNat = fb.rayCounter (y * 250 + x).toNat + 1 ∧
      (∀ x2 y2 : Int, 0 ≤ x2 → x2 < 250 → 0 ≤ y2 → y2 < 250 → ¬ (x2 = x ∧ y2 = y) →
        (y2 * 250 + x2).toNat ≠ (y * 250 + x).toNat ∧
        fb1.rayCounter (y2 * 250 + x2).toNat = fb.rayCounter (y2 * 250 + x2).toNat ∧
        (∀ k, k < 3 → fb1.data ((y2 * 250 + x2).toNat * 3 + k)
          = fb.data ((y2 * 250 + x2).toNat * 3 + k)) ∧
        (∀ k, k < 4 → fb1.byteBuffer ((y2 * 250 + x2).toNat * 4 + k)
          = fb.byteBuffer ((y2 * 250 + x2).toNat * 4 + k))) := by
  obtain ⟨hi, hlt⟩ := pixel_index x y hx0 hx1 hy0 hy1
  obtain ⟨fb1, hd, hc, hdata, hb⟩ := draw_at_index toUChar fb x y color _ hi hlt
  refine ⟨fb1, hd, ?_, ?_, ?_, ?_, ?_⟩
  · rw [hdata, if_pos rfl]
  · rw [hdata, if_neg (by omega), if_pos rfl]
  · rw [hdata, if_neg (by omega), if_neg (by omega), if_pos rfl]
  · rw [hc, if_pos rfl]
  · intro x2 y2 hx20 hx21 hy20 _ hne
    have hidx : (y2 * 250 + x2).toNat ≠ (y * 250 + x).toNat := fun h =>
      hne (pixel_index_injective x y x2 y2 hx0 hx1 hy0 hx20 hx21 hy20 h)
    refine ⟨hidx, ?_, ?_, ?_⟩
    · rw [hc, if_neg hidx]
    · intro k hk
      rw [hdata, if_neg (by omega), if_neg (by omega), if_neg (by omega)]
    · intro k hk
      rw [hb, if_neg (by omega), if_neg (by omega), if_neg (by omega), if_neg (by omega)]

/-- Witness for C25: pixel (3, 2) of the empty buffers. -/
theorem draw_accumulates_pixel_witness :
    ∃ fb1 : FrameBuffer ℚ, draw toUCharQ emptyFrame 3 2 ⟨3 / 8, 1 / 2, 1⟩ = some fb1 ∧
      fb1.data (((2 : Int) * 250 + 3).toNat * 3)
        = emptyFrame.data (((2 : Int) * 250 + 3).toNat * 3) + 3 / 8 ∧
      fb1.rayCounter ((2 : Int) * 250 + 3).toNat
        = emptyFrame.rayCounter ((2 : Int) * 250 + 3).toNat + 1 := by
  obtain ⟨fb1, h, h1, _, _, h4, _⟩ := draw_accumulates_pixel toUCharQ emptyFrame 3 2
    ⟨3 / 8, 1 / 2, 1⟩ (by norm_num) (by norm_num) (by norm_num) (by norm_num)
  exact ⟨fb1, h, h1, h4⟩

/-- One more iteration of a counting loop. -/
theorem loopUpTo_succ {σ : Type} (body : Nat → σ → Option σ) (n : Nat) (st : σ) :
    loopUpTo body (n + 1) st = (loopUpTo body n st).bind (body n) := by
  simp only [loopUpTo]
  cases loopUpTo body n st <;> rfl

/-- One more `draw` after `n` of them. -/
theorem drawTimes_succ (toUChar : F → Nat) (n : Nat) (fb : FrameBuffer F) (x y : Int)
    (color : vec3 F) :
    drawTimes toUChar (n + 1) fb x y color =
      (drawTimes toUChar n fb x y color).bind (fun fb1 => draw toUChar fb1 x y color) := by
  simp only [drawTimes, loopUpTo_succ]

/-- The pixel's sums, counter and bytes after `n` identical calls of `draw`. -/
theorem drawTimes_state (toUChar : F → Nat) (fb : FrameBuffer F) (x y : Int)
    (color : vec3 F) (hx0 : 0 ≤ x) (hx1 : x < 250) (hy0 : 0 ≤ y) (hy1 : y < 250) (n : Nat) :
    ∃ fbn : FrameBuffer F, drawTimes toUChar n fb x y color = some fbn ∧
      fbn.rayCounter (y * 250 + x).toNat = fb.rayCounter (y * 250 + x).toNat + n ∧
      fbn.data ((y * 250 + x).toNat * 3) = fb.data ((y * 250 + x).toNat * 3) + n * color.x ∧
      fbn.data ((y * 250 + x).toNat * 3 + 1)
        = fb.data ((y * 250 + x).toNat * 3 + 1) + n * color.y ∧
      fbn.data ((y * 250 + x).toNat * 3 + 2)
        = fb.data ((y * 250 + x).toNat * 3 + 2) + n * color.z ∧
      (1 ≤ n →
        fbn.byteBuffer ((y * 250 + x).toNat * 4)
          = toUChar (fbn.data ((y * 250 + x).toNat * 3)
              / fbn.rayCounter (y * 250 + x).toNat * 255) ∧
        fbn.byteBuffer ((y * 250 + x).toNat * 4 + 1)
          = toUChar (fbn.data ((y * 250 + x).toNat * 3 + 1)
              / fbn.rayCounter (y * 250 + x).toNat * 255) ∧
        fbn.byteBuffer ((y * 250 + x).toNat * 4 + 2)
          = toUChar (fbn.data ((y * 250 + x).toNat * 3 + 2)
              / fbn.rayCounter (y * 250 + x).toNat * 255) ∧
        fbn.byteBuffer ((y * 250 + x).toNat * 4 + 3) = 255) := by
  obtain ⟨hi, hlt⟩ := pixel_index x y hx0 hx1 hy0 hy1
  induction n with
  | zero =>
    refine ⟨fb, rfl, by simp, by simp, by simp, by simp, fun h => absurd h (by norm_num)⟩
  | succ n ih =>
    obtain ⟨fbn, hn, hc, h0, h1, h2, _⟩ := ih
    obtain ⟨fb1, hd, hc1, hdata, hb⟩ := draw_at_index toUChar fbn x y color _ hi hlt
    rw [drawTimes_succ, hn, Option.some_bind]
    refine ⟨fb1, hd, ?_, ?_, ?_, ?_, fun _ => ⟨?_, ?_, ?_, ?_⟩⟩
    · rw [hc1, if_pos rfl, hc]; push_cast; ring
    · rw [hdata, if_pos rfl, h0]; push_cast; ring
    · rw [hdata, if_neg (by omega), if_pos rfl, h1]; push_cast; ring
    · rw [hdata, if_neg (by omega), if_neg (by omega), if_pos rfl, h2]; push_cast; ring
    · rw [hb, if_pos rfl]
    · rw [hb, if_neg (by omega), if_pos rfl]
    · rw [hb, if_neg (by omega), if_neg (by omega), if_pos rfl]
    · rw [hb, if_neg (by omega), if_neg (by omega), if_neg (by omega), if_pos rfl]

/-- On the range 0 to 256 `toUCharQ` is the integer part. -/
theorem toUCharQ_truncates (v : ℚ) (h0 : 0 ≤ v) (h1 : v < 256) :
    toUCharQ v = ⌊v⌋.toNat := by
  have hf0 : 0 ≤ ⌊v⌋ := Int.floor_nonneg.mpr h0
  have hf1 : ⌊v⌋ < 256 := Int.floor_lt.mpr (by exact_mod_cast h1)
  simp only [toUCharQ]
  apply Nat.mod_eq_of_lt
  omega

/-- Claim C24 as stated fails: one sample of the colour (3/8, 3/8, 3/8) in an
empty pixel gives sum 3/8, count 1 and the byte 95, the integer part of
95.625, while `round(255 * sum/count)` is 96. -/
theorem draw_display_not_rounded :
    (draw toUCharQ emptyFrame 0 0 ⟨3 / 8, 3 / 8, 3 / 8⟩).map
        (fun fb => (fb.data 0, fb.rayCounter 0, fb.byteBuffer 0)) = some (3 / 8, 1, 95) ∧
    round ((255 : ℚ) * ((3 / 8) / 1)) = 96 := by
  constructor
  · have h : Int.toNat 95 % 256 = 95 := rfl
    norm_num [draw, emptyFrame, IMAGE_WIDTH, IMAGE_HEIGHT, COLOR_CHANNELS, BUFFER_CHANNELS,
      toUCharQ, Function.update_apply, h]
  · rw [round_eq, Int.floor_eq_iff]
    norm_num

/-- Claim C24, amended.  With a conversion to `unsigned char` that takes the
integer part on the range 0 to 256: after `draw` at an in-range pixel each
colour byte of the pixel is the conversion of the computed value
`sum/count * 255` for the updated sum and count, which is the integer part of
`255 * sum/count` when that lies in the range, and the alpha byte is 255.  In
exact arithmetic, which is what the field `F` stands for, `N ≥ 1` identical
samples of a colour with channels between 0 and 1 in an empty pixel give the
integer part of `255 * C` per channel, for every `N`; rounding of the sum and
of the quotient in `float` is outside this statement. -/
theorem draw_display_truncates [FloorRing F] (toUChar : F → Nat)
    (htrunc : ∀ v : F, 0 ≤ v → v < 256 → toUChar v = ⌊v⌋.toNat)
    (fb : FrameBuffer F) (x y : Int) (color : vec3 F)
    (hx0 : 0 ≤ x) (hx1 : x < 250) (hy0 : 0 ≤ y) (hy1 : y < 250) :
    (∃ fb1 : FrameBuffer F, draw toUChar fb x y color = some fb1 ∧
      fb1.byteBuffer ((y * 250 + x).toNat * 4 + 3) = 255 ∧
      (∀ k, k < 3 →
        fb1.byteBuffer ((y * 250 + x).toNat * 4 + k)
          = toUChar (fb1.data ((y * 250 + x).toNat * 3 + k)
              / fb1.rayCounter (y * 250 + x).toNat * 255) ∧
        (0 ≤ 255 * (fb1.data ((y * 250 + x).toNat * 3 + k) / fb1.rayCounter (y * 250 + x).toNat) →
          255 * (fb1.data ((y * 250 + x).toNat * 3 + k) / fb1.rayCounter (y * 250 + x).toNat)
            < 256 →
          fb1.byteBuffer ((y * 250 + x).toNat * 4 + k)
            = ⌊255 * (fb1.data ((y * 250 + x).toNat * 3 + k)
                / fb1.rayCounter (y * 250 + x).toNat)⌋.toNat))) ∧
    (∀ N : Nat, 1 ≤ N →
      fb.rayCounter (y * 250 + x).toNat = 0 →
      (∀ k, k < 3 → fb.data ((y * 250 + x).toNat * 3 + k) = 0) →
      0 ≤ color.x → color.x ≤ 1 → 0 ≤ color.y → color.y ≤ 1 → 0 ≤ color.z → color.z ≤ 1 →
      ∃ fbN : FrameBuffer F, drawTimes toUChar N fb x y color = some fbN ∧
        fbN.byteBuffer ((y * 250 + x).toNat * 4) = ⌊255 * color.x⌋.toNat ∧
        fbN.byteBuffer ((y * 250 + x).toNat * 4 + 1) = ⌊255 * color.y⌋.toNat ∧
        fbN.byteBuffer ((y * 250 + x).toNat * 4 + 2) = ⌊255 * color.z⌋.toNat ∧
        fbN.byteBuffer ((y * 250 + x).toNat * 4 + 3) = 255) := by
  obtain ⟨hi, hlt⟩ := pixel_index x y hx0 hx1 hy0 hy1
  constructor
  · obtain ⟨fb1, hd, _, _, hb⟩ := draw_at_index toUChar fb x y color _ hi hlt
    refine ⟨fb1, hd, ?_, ?_⟩
    · rw [hb, if_neg (by omega), if_neg (by omega), if_neg (by omega), if_pos rfl]
    · intro k hk
      have hbk : fb1.byteBuffer ((y * 250 + x).toNat * 4 + k)
          = toUChar (fb1.data ((y * 250 + x).toNat * 3 + k)
              / fb1.rayCounter (y * 250 + x).toNat * 255) := by
        interval_cases k
        · rw [hb, if_pos (by omega)]
          rfl
        · rw [hb, if_neg (by omega), if_pos rfl]
        · rw [hb, if_neg (by omega), if_neg (by omega), if_pos rfl]
      refine ⟨hbk, fun h0 h1 => ?_⟩
      rw [hbk, mul_comm _ (255 : F), htrunc _ h0 h1]
  · intro N hN hc0 hd0 hx0c hx1c hy0c hy1c hz0c hz1c
    obtain ⟨fbN, hN1, hc, h0, h1, h2, hbytes⟩ :=
      drawTimes_state toUChar fb x y color hx0 hx1 hy0 hy1 N
    obtain ⟨hb0, hb1, hb2, hb3⟩ := hbytes hN
    have hNpos : (0 : F) < (N : F) := by exact_mod_cast hN
    have hNne : (N : F) ≠ 0 := ne_of_gt hNpos
    have havg : ∀ c : F, (0 + (N : F) * c) / (0 + (N : F)) * 255 = 255 * c := by
      intro c
      rw [zero_add, zero_add, mul_div_assoc, mul_comm (N : F), div_mul_cancel₀ c hNne, mul_comm]
    have e0 := hd0 0 (by norm_num)
    have e1 := hd0 1 (by norm_num)
    have e2 := hd0 2 (by norm_num)
    rw [Nat.add_zero] at e0
    rw [h0, hc, e0, hc0, havg] at hb0
    rw [h1, hc, e1, hc0, havg] at hb1
    rw [h2, hc, e2, hc0, havg] at hb2
    refine ⟨fbN, hN1, ?_, ?_, ?_, hb3⟩
    · rw [hb0, htrunc _ (by positivity) (by linarith)]
    · rw [hb1, htrunc _ (by positivity) (by linarith)]
    · rw [hb2, htrunc _ (by positivity) (by linarith)]

/-- Witness for C24: three samples of (3/8, 1/2, 1) in pixel (0, 0) of the
empty buffers. -/
theorem draw_display_truncates_witness :
    ∃ fbN : FrameBuffer ℚ, drawTimes toUCharQ 3 emptyFrame 0 0 ⟨3 / 8, 1 / 2, 1⟩ = some fbN ∧
      fbN.byteBuffer (((0 : Int) * 250 + 0).toNat * 4) = ⌊(255 : ℚ) * (3 / 8)⌋.toNat ∧
      fbN.byteBuffer (((0 : Int) * 250 + 0).toNat * 4 + 1) = ⌊(255 : ℚ) * (1 / 2)⌋.toNat ∧
      fbN.byteBuffer (((0 : Int) * 250 + 0).toNat * 4 + 2) = ⌊(255 : ℚ) * 1⌋.toNat ∧
      fbN.byteBuffer (((0 : Int) * 250 + 0).toNat * 4 + 3) = 255 :=
  (draw_display_truncates toUCharQ toUCharQ_truncates emptyFrame 0 0 ⟨3 / 8, 1 / 2, 1⟩
    (by norm_num) (by norm_num) (by norm_num) (by norm_num)).2 3 (by norm_num) rfl
    (fun _ _ => rfl) (by norm_num) (by norm_num) (by norm_num) (by norm_num) (by norm_num)
    (by norm_num)

end DrawProofs

/-! ## `loadWorld` and `Camera` -/

section CameraProofs

variable {F : Type} [LinearOrderedField F]

/-- Claim C27.  For a level other than 1, 2 and 3, `loadWorld` only stores the
level number: the scene, the camera (eye position, look-at point and cached
fields), the background colour and the random stream are as before. -/
theorem loadWorld_other_level (sqrt : F → F) (worlds : Worlds F) (gl : Globals F) (g : Rng F)
    (level : Int) (h1 : level ≠ 1) (h2 : level ≠ 2) (h3 : level ≠ 3) :
    loadWorld sqrt worlds gl g level = ({ gl with g_level := level }, g) ∧
    (loadWorld sqrt worlds gl g level).1.g_world = gl.g_world ∧
    (loadWorld sqrt worlds gl g level).1.g_camera = gl.g_camera ∧
    (loadWorld sqrt worlds gl g level).1.g_camera.lookfrom = gl.g_camera.lookfrom ∧
    (loadWorld sqrt worlds gl g level).1.g_camera.lookat = gl.g_camera.lookat ∧
    (loadWorld sqrt worlds gl g level).1.g_background = gl.g_background := by
  have h : loadWorld sqrt worlds gl g level = ({ gl with g_level := level }, g) := by
    simp only [loadWorld, h1, h2, h3, if_false]
  rw [h]
  exact ⟨rfl, rfl, rfl, rfl, rfl, rfl⟩

/-- Witness for C27: level 7. -/
theorem loadWorld_other_level_witness :
    loadWorld sqrtQ emptyWorlds sampleGlobals (constRng 0) 7
        = ({ sampleGlobals with g_level := 7 }, constRng 0) ∧
    (loadWorld sqrtQ emptyWorlds sampleGlobals (constRng 0) 7).1.g_world
        = sampleGlobals.g_world ∧
    (loadWorld sqrtQ emptyWorlds sampleGlobals (constRng 0) 7).1.g_camera
        = sampleGlobals.g_camera ∧
    (loadWorld sqrtQ emptyWorlds sampleGlobals (constRng 0) 7).1.g_camera.lookfrom
        = sampleGlobals.g_camera.lookfrom ∧
    (loadWorld sqrtQ emptyWorlds sampleGlobals (constRng 0) 7).1.g_camera.lookat
        = sampleGlobals.g_camera.lookat ∧
    (loadWorld sqrtQ emptyWorlds sampleGlobals (constRng 0) 7).1.g_background
        = sampleGlobals.g_background :=
  loadWorld_other_level sqrtQ emptyWorlds sampleGlobals (constRng 0) 7 (by norm_num)
    (by norm_num) (by norm_num)

/-- The ray of a freshly constructed camera, in terms of the basis
`w = unitVector(lookfrom - lookat)`, `u = unitVector(cross(vup, w))`,
`v = cross(w, u)`. -/
theorem Camera.getRay_new (sqrt : F → F) (lookfrom lookat vup : vec3 F) (s t : F) :
    (Camera.new sqrt lookfrom lookat vup).getRay s t =
      ⟨lookfrom,
        (2 * s - 1) * unitVector sqrt (cross vup (unitVector sqrt (lookfrom - lookat)))
          + (2 * t - 1) * cross (unitVector sqrt (lookfrom - lookat))
              (unitVector sqrt (cross vup (unitVector sqrt (lookfrom - lookat))))
          - unitVector sqrt (lookfrom - lookat)⟩ := by
  simp only [Camera.getRay, Camera.new, Camera.update]
  generalize unitVector sqrt (lookfrom - lookat) = w
  generalize unitVector sqrt (cross vup w) = u
  simp only [cross, vec3.add_def, vec3.sub_def, vec3.smul_def, vec3.sdiv_def, Ray.mk.injEq,
    vec3.mk.injEq, true_and]
  refine ⟨?_, ?_, ?_⟩ <;> ring

/-- Claim C28.  For a camera whose eye differs from its look-at point, with a
square-root routine that is exact at the squared eye distance, and for every
`s` and `t`: `getRay(s, t)` starts at the eye, its direction is
`(2s-1)*u + (2t-1)*v - w`, `getRay(1/2, 1/2)` has direction
`unitVector(lookat - lookfrom)`, and the component of every ray direction
along `unitVector(lookat - lookfrom)` is 1.  No condition on the up vector is
needed for these equations. -/
theorem Camera_getRay_formula (sqrt : F → F) (lookfrom lookat vup : vec3 F) (s t : F)
    (hne : lookfrom ≠ lookat)
    (hsqrt : sqrt (lookfrom - lookat).length_squared * sqrt (lookfrom - lookat).length_squared
      = (lookfrom - lookat).length_squared) :
    ((Camera.new sqrt lookfrom lookat vup).getRay s t).origin = lookfrom ∧
    ((Camera.new sqrt lookfrom lookat vup).getRay s t).direction =
      (2 * s - 1) * unitVector sqrt (cross vup (unitVector sqrt (lookfrom - lookat)))
        + (2 * t - 1) * cross (unitVector sqrt (lookfrom - lookat))
            (unitVector sqrt (cross vup (unitVector sqrt (lookfrom - lookat))))
        - unitVector sqrt (lookfrom - lookat) ∧
    ((Camera.new sqrt lookfrom lookat vup).getRay (1 / 2) (1 / 2)).direction
      = unitVector sqrt (lookat - lookfrom) ∧
    dot ((Camera.new sqrt lookfrom lookat vup).getRay s t).direction
      (unitVector sqrt (lookat - lookfrom)) = 1 := by
  have hlsq : (lookat - lookfrom).length_squared = (lookfrom - lookat).length_squared := by
    simp only [vec3.length_squared, vec3.sub_def]
    ring
  have hneg : unitVector sqrt (lookat - lookfrom) = -unitVector sqrt (lookfrom - lookat) := by
    simp only [unitVector, vec3.length]
    rw [hlsq]
    generalize sqrt (lookfrom - lookat).length_squared = len
    simp only [vec3.sdiv_def, vec3.sub_def, vec3.neg_def, vec3.mk.injEq]
    refine ⟨?_, ?_, ?_⟩ <;> ring
  have hL : (lookfrom - lookat).length_squared ≠ 0 := by
    have hd : lookfrom - lookat ≠ vec3.zero := by
      intro h
      apply hne
      simp only [vec3.sub_def, vec3.zero, vec3.mk.injEq] at h
      ext
      · linarith [h.1]
      · linarith [h.2.1]
      · linarith [h.2.2]
    exact ne_of_gt (vec3.length_squared_pos _ hd)
  have hs0 : sqrt (lookfrom - lookat).length_squared ≠ 0 := by
    intro h
    rw [h, mul_zero] at hsqrt
    exact hL hsqrt.symm
  have hww : dot (unitVector sqrt (lookfrom - lookat)) (unitVector sqrt (lookfrom - lookat))
      = 1 := by
    have e : dot (unitVector sqrt (lookfrom - lookat)) (unitVector sqrt (lookfrom - lookat))
        = (lookfrom - lookat).length_squared
          / (sqrt (lookfrom - lookat).length_squared
              * sqrt (lookfrom - lookat).length_squared) := by
      simp only [dot, unitVector, vec3.length, vec3.sdiv_def, vec3.length_squared]
      field_simp
    rw [e, hsqrt, div_self hL]
  rw [Camera.getRay_new]
  refine ⟨rfl, rfl, ?_, ?_⟩
  · rw [Camera.getRay_new, hneg]
    simp only [vec3.add_def, vec3.sub_def, vec3.smul_def, vec3.neg_def, vec3.mk.injEq]
    refine ⟨?_, ?_, ?_⟩ <;> ring
  · rw [hneg]
    generalize unitVector sqrt (lookfrom - lookat) = w at hww
    generalize hu : unitVector sqrt (cross vup w) = u
    have huw : dot u w = 0 := by
      rw [← hu]
      simp only [dot, unitVector, cross, vec3.sdiv_def]
      ring
    simp only [dot, cross, vec3.add_def, vec3.sub_def, vec3.smul_def, vec3.neg_def] at hww huw ⊢
    linear_combination hww - (2 * s - 1) * huw

/-- Witness for C28: the camera at the origin that looks along +z, with
`s = 3/4` and `t = -1`. -/
theorem Camera_getRay_formula_witness :
    ((Camera.new sqrtQ ⟨0, 0, 0⟩ ⟨0, 0, 1⟩ ⟨0, 1, 0⟩).getRay (3 / 4) (-1)).origin = ⟨0, 0, 0⟩ ∧
    ((Camera.new sqrtQ ⟨0, 0, 0⟩ ⟨0, 0, 1⟩ ⟨0, 1, 0⟩).getRay (3 / 4) (-1)).direction =
      (2 * (3 / 4 : ℚ) - 1) * unitVector sqrtQ (cross (⟨0, 1, 0⟩ : vec3 ℚ)
          (unitVector sqrtQ ((⟨0, 0, 0⟩ : vec3 ℚ) - ⟨0, 0, 1⟩)))
        + (2 * (-1 : ℚ) - 1) * cross (unitVector sqrtQ ((⟨0, 0, 0⟩ : vec3 ℚ) - ⟨0, 0, 1⟩))
            (unitVector sqrtQ (cross (⟨0, 1, 0⟩ : vec3 ℚ)
              (unitVector sqrtQ ((⟨0, 0, 0⟩ : vec3 ℚ) - ⟨0, 0, 1⟩))))
        - unitVector sqrtQ ((⟨0, 0, 0⟩ : vec3 ℚ) - ⟨0, 0, 1⟩) ∧
    ((Camera.new sqrtQ ⟨0, 0, 0⟩ ⟨0, 0, 1⟩ ⟨0, 1, 0⟩).getRay (1 / 2) (1 / 2)).direction
      = unitVector sqrtQ ((⟨0, 0, 1⟩ : vec3 ℚ) - ⟨0, 0, 0⟩) ∧
    dot ((Camera.new sqrtQ ⟨0, 0, 0⟩ ⟨0, 0, 1⟩ ⟨0, 1, 0⟩).getRay (3 / 4) (-1)).direction
      (unitVector sqrtQ ((⟨0, 0, 1⟩ : vec3 ℚ) - ⟨0, 0, 0⟩)) = 1 :=
  Camera_getRay_formula sqrtQ ⟨0, 0, 0⟩ ⟨0, 0, 1⟩ ⟨0, 1, 0⟩ (3 / 4) (-1)
    (by simp)
    (by norm_num [vec3.length_squared, sqrtQ])

/-- `update` recomputes every cached field from eye, look-at point and up
vector. -/
theorem Camera.update_eq_new (sqrt : F → F) (c : Camera F) :
    c.update sqrt = Camera.new sqrt c.lookfrom c.lookat c.vup := rfl

/-- After one call the camera is the freshly constructed one, and the up vector
is kept. -/
theorem Camera.call_fresh (sqrt : F → F) (c : Camera F) (op : CameraCall F) :
    c.call sqrt op
        = Camera.new sqrt (c.call sqrt op).lookfrom (c.call sqrt op).lookat (c.call sqrt op).vup ∧
      (c.call sqrt op).vup = c.vup := by
  cases op <;> exact ⟨rfl, rfl⟩

/-- After any sequence of calls the camera is the freshly constructed one. -/
theorem Camera.calls_fresh (sqrt : F → F) (cs : List (CameraCall F)) :
    ∀ c : Camera F, c = Camera.new sqrt c.lookfrom c.lookat c.vup →
      c.calls sqrt cs
          = Camera.new sqrt (c.calls sqrt cs).lookfrom (c.calls sqrt cs).lookat
              (c.calls sqrt cs).vup ∧
        (c.calls sqrt cs).vup = c.vup := by
  induction cs with
  | nil => intro c hc; exact ⟨hc, rfl⟩
  | cons op rest ih =>
    intro c _
    have h := ih (c.call sqrt op) (Camera.call_fresh sqrt c op).1
    simp only [Camera.calls, List.foldl_cons] at h ⊢
    exact ⟨h.1, h.2.trans (Camera.call_fresh sqrt c op).2⟩

/-- Claim C29.  After construction and any sequence of `setPosition` and
`setLookat` calls the camera equals the camera freshly constructed from its
current eye position, look-at point and up vector (so the cached origin,
horizontal, vertical and lower-left corner agree), the up vector is the
constructor's, the cached origin is the eye position, and `getRay` after
`setPosition(p)` starts at `p`. -/
theorem Camera_cache_fresh (sqrt : F → F) (lookfrom lookat vup : vec3 F)
    (cs : List (CameraCall F)) :
    (Camera.new sqrt lookfrom lookat vup).calls sqrt cs =
      Camera.new sqrt ((Camera.new sqrt lookfrom lookat vup).calls sqrt cs).lookfrom
        ((Camera.new sqrt lookfrom lookat vup).calls sqrt cs).lookat
        ((Camera.new sqrt lookfrom lookat vup).calls sqrt cs).vup ∧
    ((Camera.new sqrt lookfrom lookat vup).calls sqrt cs).vup = vup ∧
    ((Camera.new sqrt lookfrom lookat vup).calls sqrt cs).origin
      = ((Camera.new sqrt lookfrom lookat vup).calls sqrt cs).lookfrom ∧
    (∀ (p : vec3 F) (s t : F),
      ((((Camera.new sqrt lookfrom lookat vup).calls sqrt cs).setPosition sqrt p).getRay
        s t).origin = p) ∧
    (∀ p : vec3 F,
      (((Camera.new sqrt lookfrom lookat vup).calls sqrt cs).setPosition sqrt p).lookfrom = p ∧
      (((Camera.new sqrt lookfrom lookat vup).calls sqrt cs).setLookat sqrt p).lookat = p) := by
  have h := Camera.calls_fresh sqrt cs (Camera.new sqrt lookfrom lookat vup) rfl
  refine ⟨h.1, h.2, ?_, fun p s t => rfl, fun p => ⟨rfl, rfl⟩⟩
  rw [h.1]
  rfl

end CameraProofs

/-! ## Totality of `trace` -/

section TotalityProofs

variable {F : Type} [LinearOrderedField F]

omit [LinearOrderedField F] in
/-- Moving on `m` draws and then `n` draws is moving on `m + n` draws. -/
theorem MATH.afterDraws_afterDraws (m n : Nat) (g : Rng F) :
    MATH.afterDraws n (MATH.afterDraws m g) = MATH.afterDraws (m + n) g := by
  funext i
  simp only [MATH.afterDraws]
  congr 1
  omega

/-- A bound on the rejection loop also holds at every later position of the
stream. -/
theorem MATH.acceptsWithin_afterDraws (B m : Nat) (g : Rng F) (h : MATH.acceptsWithin B g) :
    MATH.acceptsWithin B (MATH.afterDraws m g) := by
  intro n
  rw [MATH.afterDraws_afterDraws]
  exact h (m + n)

/-- Function `randomInUnitSphere` returns a point when the rejection loop is
bounded and the budget covers the bound. -/
theorem MATH.randomInUnitSphere_returns (B fuel : Nat) (g : Rng F)
    (h : MATH.acceptsWithin B g) (hf : B ≤ fuel) :
    ∃ (p : vec3 F) (n : Nat), MATH.randomInUnitSphere fuel g = some (p, MATH.afterDraws n g) := by
  classical
  have hex : ∃ k, (MATH.candidate g k).length_squared < 1 := by
    obtain ⟨k, _, hk⟩ := h 0
    exact ⟨k, hk⟩
  have hlt : Nat.find hex < B := by
    obtain ⟨k, hkB, hk⟩ := h 0
    exact lt_of_le_of_lt (Nat.find_min' hex hk) hkB
  exact ⟨_, _, MATH.randomInUnitSphere_first_accept (Nat.find hex) g
    (fun j hj => not_lt.mp (Nat.find_min hex hj)) (Nat.find_spec hex) fuel (by omega)⟩

/-- Every material's `scatter` returns under the same condition, and leaves a
later position of the stream. -/
theorem Material.scatter_returns (sqrt : F → F) (B fuel : Nat) (m : Material F) (r_in : Ray F)
    (rec : hit F) (outColor : vec3 F) (scattered : Ray F) (g : Rng F)
    (h : MATH.acceptsWithin B g) (hf : B ≤ fuel) :
    ∃ (s : ScatterResult F) (n : Nat),
      m.scatter sqrt fuel r_in rec outColor scattered g = some s ∧
      s.rng = MATH.afterDraws n g := by
  obtain ⟨p, n, hp⟩ := MATH.randomInUnitSphere_returns B fuel g h hf
  cases m with
  | Unlit albedo => exact ⟨_, 0, rfl, rfl⟩
  | Lambertian albedo =>
    simp only [Material.scatter, Material.scatterDiffuse, MATH.randomUnitVector, hp]
    exact ⟨_, n, rfl, rfl⟩
  | Metal albedo fuzz =>
    simp only [Material.scatter, hp]
    exact ⟨_, n, rfl, rfl⟩
  | Light c => exact ⟨_, 0, rfl, rfl⟩
  | Dielectric ir =>
    simp only [Material.scatter]
    split_ifs
    all_goals first
      | exact ⟨_, 0, rfl, rfl⟩
      | exact ⟨_, 1, rfl, rfl⟩
  | Special c =>
    simp only [Material.scatter, Material.scatterDiffuse, MATH.randomUnitVector, hp]
    exact ⟨_, n, rfl, rfl⟩

/-- Function `trace` returns under the same condition, by induction on a
bound `d` of the depth. -/
theorem trace_returns (sqrt : F → F) (B fuel : Nat) (g_background : vec3 F)
    (hittable : Hittable F) (hf : B ≤ fuel) (d : Nat) :
    ∀ (depth : Int), depth ≤ d → ∀ (r : Ray F) (g : Rng F), MATH.acceptsWithin B g →
      ∃ (c : vec3 F) (n : Nat),
        trace sqrt fuel g_background r hittable depth g = some (c, MATH.afterDraws n g) := by
  induction d with
  | zero =>
    intro depth hd r g _
    rw [trace]
    have h0 : depth ≤ 0 := by exact_mod_cast hd
    simp only [h0, if_true]
    exact ⟨_, 0, rfl⟩
  | succ d ih =>
    intro depth hd r g hg
    rw [trace]
    by_cases h0 : depth ≤ 0
    · simp only [h0, if_true]
      exact ⟨_, 0, rfl⟩
    simp only [h0, if_false]
    cases hhit : (hittable.trace sqrt r T_MIN INF hit.default).1
    · simp only [Bool.not_false, if_true]
      exact ⟨_, 0, rfl⟩
    simp only [Bool.not_true, Bool.false_eq_true, if_false]
    have hm := Hittable.trace_mat_ptr sqrt hittable r T_MIN INF hit.default hhit
    obtain ⟨m, hmat⟩ := Option.isSome_iff_exists.mp hm
    obtain ⟨s, n, hs, hrng⟩ := Material.scatter_returns sqrt B fuel m r
      (hittable.trace sqrt r T_MIN INF hit.default).2 vec3.zero Ray.default g hg hf
    simp only [hmat, hs]
    cases hok : s.ok
    · simp only [Bool.not_false, if_true]
      exact ⟨_, n, by rw [hrng]⟩
    simp only [Bool.not_true, Bool.false_eq_true, if_false]
    have hd1 : depth - 1 ≤ (d : Int) := by push_cast at hd; omega
    obtain ⟨c, n2, hrec⟩ := ih (depth - 1) hd1 s.scattered s.rng
      (by rw [hrng]; exact MATH.acceptsWithin_afterDraws B n g hg)
    rw [hrec]
    refine ⟨m.emitted + s.outColor * c, n + n2, ?_⟩
    simp only [hrng, MATH.afterDraws_afterDraws]

/-- The number of nested recursive calls of `trace` is at most the depth. -/
theorem traceCalls_le (sqrt : F → F) (fuel : Nat) (hittable : Hittable F) (d : Nat) :
    ∀ (depth : Int), depth ≤ d → ∀ (r : Ray F) (g : Rng F),
      traceCalls sqrt fuel r hittable depth g ≤ depth.toNat := by
  induction d with
  | zero =>
    intro depth hd r g
    rw [traceCalls]
    have h0 : depth ≤ 0 := by exact_mod_cast hd
    simp only [h0, if_true]
    exact Nat.zero_le _
  | succ d ih =>
    intro depth hd r g
    rw [traceCalls]
    by_cases h0 : depth ≤ 0
    · simp only [h0, if_true]
      exact Nat.zero_le _
    simp only [h0, if_false]
    split_ifs
    · exact Nat.zero_le _
    · split
      · exact Nat.zero_le _
      · split
        · exact Nat.zero_le _
        · split_ifs
          · exact Nat.zero_le _
          · have hd1 : depth - 1 ≤ (d : Int) := by push_cast at hd; omega
            refine le_trans (Nat.add_le_add_left (ih (depth - 1) hd1 _ _) 1) ?_
            omega

end TotalityProofs

section TraceTotalClaim

variable {F : Type} [LinearOrderedField F]

/-- The constant stream 1/2 has every candidate at the origin, which is
accepted at once. -/
theorem constRng_acceptsWithin : MATH.acceptsWithin 1 (constRng (1 / 2)) := by
  intro n
  refine ⟨0, by norm_num, ?_⟩
  norm_num [MATH.candidate, MATH.afterDraws, MATH.remap, constRng, vec3.length_squared]

/-- Claim C30. Function `trace` is total by recursion on `depth`. Whenever the
rejection loop of the material scatter is bounded (from every position of the
random stream one of the next `B` candidate points is accepted, and the loop
budget covers `B`), a call returns a colour and a later position of the
stream; the scene test is total by construction. A call makes at most
`depth.toNat` nested recursive calls, a call with `depth ≤ 0` makes none, a
call either makes no recursive call or exactly one, and that one is made with
`depth - 1` on the scattered ray. -/
theorem trace_total_by_depth (sqrt : F → F) (B fuel : Nat) (g_background : vec3 F) (r : Ray F)
    (hittable : Hittable F) (depth : Int) (g : Rng F)
    (hg : MATH.acceptsWithin B g) (hf : B ≤ fuel) :
    (∃ (c : vec3 F) (n : Nat),
      trace sqrt fuel g_background r hittable depth g = some (c, MATH.afterDraws n g)) ∧
    traceCalls sqrt fuel r hittable depth g ≤ depth.toNat ∧
    (depth ≤ 0 → traceCalls sqrt fuel r hittable depth g = 0) ∧
    (traceCalls sqrt fuel r hittable depth g = 0 ∨
      ∃ (m : Material F) (s : ScatterResult F),
        0 < depth ∧
        (hittable.trace sqrt r T_MIN INF hit.default).1 = true ∧
        (hittable.trace sqrt r T_MIN INF hit.default).2.mat_ptr = some m ∧
        m.scatter sqrt fuel r (hittable.trace sqrt r T_MIN INF hit.default).2
          vec3.zero Ray.default g = some s ∧
        s.ok = true ∧
        traceCalls sqrt fuel r hittable depth g
          = 1 + traceCalls sqrt fuel s.scattered hittable (depth - 1) s.rng ∧
        trace sqrt fuel g_background r hittable depth g
          = (trace sqrt fuel g_background s.scattered hittable (depth - 1) s.rng).map
              (fun tr => (m.emitted + s.outColor * tr.1, tr.2))) := by
  refine ⟨trace_returns sqrt B fuel g_background hittable hf depth.toNat depth
      (Int.self_le_toNat depth) r g hg,
    traceCalls_le sqrt fuel hittable depth.toNat depth (Int.self_le_toNat depth) r g, ?_, ?_⟩
  · intro h0
    rw [traceCalls]
    simp only [h0, if_true]
  · by_cases h0 : depth ≤ 0
    · left
      rw [traceCalls]
      simp only [h0, if_true]
    cases hhit : (hittable.trace sqrt r T_MIN INF hit.default).1
    · left
      rw [traceCalls]
      simp only [h0, if_false, hhit, Bool.not_false, if_true]
    have hm := Hittable.trace_mat_ptr sqrt hittable r T_MIN INF hit.default hhit
    obtain ⟨m, hmat⟩ := Option.isSome_iff_exists.mp hm
    obtain ⟨s, n, hs, _⟩ := Material.scatter_returns sqrt B fuel m r
      (hittable.trace sqrt r T_MIN INF hit.default).2 vec3.zero Ray.default g hg hf
    cases hok : s.ok
    · left
      rw [traceCalls]
      simp only [h0, if_false, hhit, Bool.not_true, Bool.false_eq_true, hmat, hs, hok,
        Bool.not_false, if_true]
    right
    refine ⟨m, s, lt_of_not_le h0, rfl, hmat, hs, hok, ?_, ?_⟩
    · rw [traceCalls]
      simp only [h0, if_false, hhit, Bool.not_true, Bool.false_eq_true, hmat, hs, hok]
    · rw [trace]
      simp only [h0, if_false, hhit, Bool.not_true, Bool.false_eq_true, hmat, hs, hok]
      cases trace sqrt fuel g_background s.scattered hittable (depth - 1) s.rng <;> rfl

/-- Witness for C30: the constant stream 1/2, a diffuse triangle in front of
the ray and depth 2. -/
theorem trace_total_by_depth_witness :
    MATH.acceptsWithin 1 (constRng (1 / 2)) ∧ 1 ≤ 1 ∧
    (∃ (c : vec3 ℚ) (n : Nat),
      trace sqrtQ 1 ⟨2 / 5, 2 / 5, 1⟩ zRay
        (.Triangle (planeTriangle 4 (.Lambertian ⟨1 / 2, 1 / 2, 1 / 2⟩))) 2 (constRng (1 / 2))
        = some (c, MATH.afterDraws n (constRng (1 / 2)))) ∧
    traceCalls sqrtQ 1 zRay
        (.Triangle (planeTriangle 4 (.Lambertian ⟨1 / 2, 1 / 2, 1 / 2⟩))) 2 (constRng (1 / 2))
      ≤ (2 : Int).toNat :=
  ⟨constRng_acceptsWithin, le_refl 1,
    (trace_total_by_depth sqrtQ 1 1 ⟨2 / 5, 2 / 5, 1⟩ zRay
      (.Triangle (planeTriangle 4 (.Lambertian ⟨1 / 2, 1 / 2, 1 / 2⟩))) 2 (constRng (1 / 2))
      constRng_acceptsWithin (le_refl 1)).1,
    (trace_total_by_depth sqrtQ 1 1 ⟨2 / 5, 2 / 5, 1⟩ zRay
      (.Triangle (planeTriangle 4 (.Lambertian ⟨1 / 2, 1 / 2, 1 / 2⟩))) 2 (constRng (1 / 2))
      constRng_acceptsWithin (le_refl 1)).2.1⟩

end TraceTotalClaim


/-! ## `render` and `renderAt` -/

section RenderProofs
variable {F : Type} [LinearOrderedField F]

omit [LinearOrderedField F] in
/-- One draw of `random` leaves the stream one position further. -/
theorem MATH.random_snd (g : Rng F) : (MATH.random g).2 = MATH.afterDraws 1 g := rfl

/-- The pixel index of column `x` in row `y`, as an integer. -/
theorem pixel_index_cast (y x : Nat) :
    (y : Int) * 250 + (x : Int) = ((y * 250 + x : Nat) : Int) := by
  push_cast
  ring

/-- The loop body of `render` with its local names written out. -/
theorem renderPixel_eq (sqrt : F → F) (toUChar : F → Nat) (fuel : Nat) (g_camera : Camera F)
    (g_world : List (Hittable F)) (g_background : vec3 F) (y x : Nat)
    (st : RenderState F) :
    renderPixel sqrt toUChar fuel g_camera g_world g_background y x st =
      (trace sqrt fuel g_background
        (g_camera.getRay
          (((x : F) + (MATH.random st.rng).1) / (((IMAGE_WIDTH : Nat) : F) - 1))
          (((y : F) + (MATH.random (MATH.random st.rng).2).1) / (((IMAGE_HEIGHT : Nat) : F) - 1)))
        (.HittableList g_world) 4 (MATH.random (MATH.random st.rng).2).2).bind
        (fun cg => (draw toUChar st.fb x y cg.1).map (fun fb1 => { fb := fb1, rng := cg.2 })) :=
  rfl

/-- The loop body of `render` adds one to the sample counter of its pixel and
leaves the other counters as they are. -/
theorem renderPixel_counter (sqrt : F → F) (toUChar : F → Nat) (fuel : Nat)
    (g_camera : Camera F) (g_world : List (Hittable F)) (g_background : vec3 F)
    (y x : Nat) (hx : x < 250) (hy : y < 250) (st st1 : RenderState F)
    (h : renderPixel sqrt toUChar fuel g_camera g_world g_background y x st = some st1) :
    ∀ j, st1.fb.rayCounter j =
      if j = y * 250 + x then st.fb.rayCounter j + 1 else st.fb.rayCounter j := by
  rw [renderPixel_eq] at h
  obtain ⟨cg, _, hcg⟩ := Option.bind_eq_some.mp h
  obtain ⟨fb1, hdraw, hcnt, _⟩ := draw_at_index toUChar st.fb (x : Int) (y : Int) cg.1
    (y * 250 + x) (pixel_index_cast y x) (by omega)
  rw [hdraw, Option.map_some', Option.some.injEq] at hcg
  intro j
  rw [← hcg]
  exact hcnt j

/-- The loop body of `render` yields a state when the rejection loop is
bounded, and the bound also holds for the stream it leaves behind. -/
theorem renderPixel_returns (sqrt : F → F) (toUChar : F → Nat) (B fuel : Nat)
    (g_camera : Camera F) (g_world : List (Hittable F)) (g_background : vec3 F)
    (y x : Nat) (hx : x < 250) (hy : y < 250) (st : RenderState F)
    (hg : MATH.acceptsWithin B st.rng) (hf : B ≤ fuel) :
    ∃ st1, renderPixel sqrt toUChar fuel g_camera g_world g_background y x st = some st1 ∧
      MATH.acceptsWithin B st1.rng := by
  have h2 : MATH.acceptsWithin B (MATH.random (MATH.random st.rng).2).2 := by
    rw [MATH.random_snd, MATH.random_snd]
    exact MATH.acceptsWithin_afterDraws B 1 _ (MATH.acceptsWithin_afterDraws B 1 _ hg)
  obtain ⟨c, n, hc⟩ := trace_returns sqrt B fuel g_background (.HittableList g_world) hf 4 4
    (by norm_num)
    (g_camera.getRay (((x : F) + (MATH.random st.rng).1) / (((IMAGE_WIDTH : Nat) : F) - 1))
      (((y : F) + (MATH.random (MATH.random st.rng).2).1) / (((IMAGE_HEIGHT : Nat) : F) - 1)))
    (MATH.random (MATH.random st.rng).2).2 h2
  obtain ⟨fb1, hdraw, _⟩ := draw_at_index toUChar st.fb (x : Int) (y : Int) c
    (y * 250 + x) (pixel_index_cast y x) (by omega)
  refine ⟨⟨fb1, MATH.afterDraws n (MATH.random (MATH.random st.rng).2).2⟩, ?_, ?_⟩
  · rw [renderPixel_eq, hc, Option.some_bind, hdraw, Option.map_some']
  · show MATH.acceptsWithin B (MATH.afterDraws n (MATH.random (MATH.random st.rng).2).2)
    exact MATH.acceptsWithin_afterDraws B n _ h2

/-- A property that holds before a counting loop and is carried over by every
iteration that yields a state holds for the state that the loop yields. -/
theorem loopUpTo_invariant {σ : Type} (body : Nat → σ → Option σ) (P : Nat → σ → Prop)
    (n : Nat) (st : σ) (h0 : P 0 st)
    (hstep : ∀ k, k < n → ∀ s s1, P k s → body k s = some s1 → P (k + 1) s1) :
    ∀ st1, loopUpTo body n st = some st1 → P n st1 := by
  induction n with
  | zero =>
    intro st1 h
    simp only [loopUpTo, Option.some.injEq] at h
    subst h
    exact h0
  | succ n ih =>
    intro st1 h
    rw [loopUpTo_succ] at h
    obtain ⟨s, hn, hs⟩ := Option.bind_eq_some.mp h
    exact hstep n (Nat.lt_succ_self n) s st1
      (ih (fun k hk => hstep k (Nat.lt_succ_of_lt hk)) s hn) hs

/-- A counting loop yields a state when every iteration does so from the
states that satisfy a property carried over by the iterations. -/
theorem loopUpTo_returns {σ : Type} (body : Nat → σ → Option σ) (P : Nat → σ → Prop)
    (n : Nat) (st : σ) (h0 : P 0 st)
    (hstep : ∀ k, k < n → ∀ s, P k s → ∃ s1, body k s = some s1 ∧ P (k + 1) s1) :
    ∃ st1, loopUpTo body n st = some st1 ∧ P n st1 := by
  induction n with
  | zero => exact ⟨st, rfl, h0⟩
  | succ n ih =>
    obtain ⟨s, hs, hP⟩ := ih (fun k hk => hstep k (Nat.lt_succ_of_lt hk))
    obtain ⟨s1, hs1, hP1⟩ := hstep n (Nat.lt_succ_self n) s hP
    exact ⟨s1, by rw [loopUpTo_succ, hs, Option.some_bind, hs1], hP1⟩

/-- One row of `render`: the counters of the 250 pixels of row `y` go up by
one, the others stay. -/
theorem render_row_counter (sqrt : F → F) (toUChar : F → Nat) (fuel : Nat)
    (g_camera : Camera F) (g_world : List (Hittable F)) (g_background : vec3 F)
    (y : Nat) (hy : y < 250) (st st1 : RenderState F)
    (h : loopUpTo (fun x st2 =>
      renderPixel sqrt toUChar fuel g_camera g_world g_background y x st2) IMAGE_WIDTH st
        = some st1) :
    ∀ j, st1.fb.rayCounter j =
      st.fb.rayCounter j + if y * 250 ≤ j ∧ j < y * 250 + 250 then 1 else 0 := by
  refine loopUpTo_invariant _
    (fun k s => ∀ j, s.fb.rayCounter j =
      st.fb.rayCounter j + if y * 250 ≤ j ∧ j < y * 250 + k then 1 else 0)
    IMAGE_WIDTH st ?_ ?_ st1 h
  · intro j
    rw [if_neg (by omega), add_zero]
  · intro k hk s s1 hP hs j
    have hk2 : k < 250 := hk
    rw [renderPixel_counter sqrt toUChar fuel g_camera g_world g_background y k hk2 hy s s1 hs j,
      hP j]
    by_cases hj : j = y * 250 + k
    · rw [if_pos hj, if_neg (by omega), if_pos (by omega), add_zero]
    · rw [if_neg hj]
      by_cases hr : y * 250 ≤ j ∧ j < y * 250 + k
      · rw [if_pos hr, if_pos (by omega)]
      · rw [if_neg hr, if_neg (by omega)]

/-- Function `render` adds one to the sample counter of every pixel. -/
theorem render_counter (sqrt : F → F) (toUChar : F → Nat) (fuel : Nat)
    (g_camera : Camera F) (g_world : List (Hittable F)) (g_background : vec3 F)
    (st st1 : RenderState F)
    (h : render sqrt toUChar fuel g_camera g_world g_background st = some st1) :
    ∀ j, st1.fb.rayCounter j =
      st.fb.rayCounter j + if j < IMAGE_WIDTH * IMAGE_HEIGHT then 1 else 0 := by
  unfold render at h
  have key : ∀ j, st1.fb.rayCounter j =
      st.fb.rayCounter j + if j < IMAGE_HEIGHT * 250 then 1 else 0 := by
    refine loopUpTo_invariant _
      (fun m s => ∀ j, s.fb.rayCounter j =
        st.fb.rayCounter j + if j < m * 250 then 1 else 0)
      IMAGE_HEIGHT st ?_ ?_ st1 h
    · intro j
      rw [if_neg (by omega), add_zero]
    · intro m hm s s1 hP hs j
      have hm2 : m < 250 := hm
      rw [render_row_counter sqrt toUChar fuel g_camera g_world g_background m hm2 s s1 hs j,
        hP j]
      by_cases hr : m * 250 ≤ j ∧ j < m * 250 + 250
      · rw [if_pos hr, if_neg (by omega), if_pos (by omega), add_zero]
      · rw [if_neg hr, add_zero]
        by_cases hj : j < m * 250
        · rw [if_pos hj, if_pos (by omega)]
        · rw [if_neg hj, if_neg (by omega)]
  exact key

/-- Function `render` yields a state when the rejection loop is bounded. -/
theorem render_returns (sqrt : F → F) (toUChar : F → Nat) (B fuel : Nat)
    (g_camera : Camera F) (g_world : List (Hittable F)) (g_background : vec3 F)
    (st : RenderState F) (hg : MATH.acceptsWithin B st.rng) (hf : B ≤ fuel) :
    ∃ st1, render sqrt toUChar fuel g_camera g_world g_background st = some st1 := by
  unfold render
  obtain ⟨st1, h, _⟩ := loopUpTo_returns
    (fun y st1 => loopUpTo (fun x st2 =>
      renderPixel sqrt toUChar fuel g_camera g_world g_background y x st2) IMAGE_WIDTH st1)
    (fun _ s => MATH.acceptsWithin B s.rng) IMAGE_HEIGHT st hg
    (fun y hy s hs => loopUpTo_returns
      (fun x st2 => renderPixel sqrt toUChar fuel g_camera g_world g_background y x st2)
      (fun _ s2 => MATH.acceptsWithin B s2.rng) IMAGE_WIDTH s hs
      (fun x hx s2 hs2 => renderPixel_returns sqrt toUChar B fuel g_camera g_world g_background
        y x hx hy s2 hs2 hf))
  exact ⟨st1, h⟩

/-- Function `renderAt` is `render` on the cleared buffers with the
repositioned camera. -/
theorem renderAt_eq (sqrt : F → F) (toUChar : F → Nat) (fuel : Nat) (g_camera : Camera F)
    (g_world : List (Hittable F)) (g_background : vec3 F) (st : RenderState F)
    (x y z : Int) :
    renderAt sqrt toUChar fuel g_camera g_world g_background st x y z =
      (render sqrt toUChar fuel (g_camera.setPosition sqrt ⟨(x : F), (y : F), (z : F)⟩)
        g_world g_background { fb := clear st.fb, rng := st.rng }).map
        (fun st1 => (g_camera.setPosition sqrt ⟨(x : F), (y : F), (z : F)⟩, st1)) := by
  unfold renderAt
  dsimp only
  generalize render sqrt toUChar fuel (g_camera.setPosition sqrt ⟨(x : F), (y : F), (z : F)⟩)
        g_world g_background { fb := clear st.fb, rng := st.rng } = res
  cases res <;> rfl

/-- Claim C26. Function `render` adds exactly one sample to every one of the
250 x 250 pixels: in the state it yields, the sample counter of every pixel
is one more than before, for every prior state of the buffers, camera and
scene. After `renderAt`, which clears the buffers first, the counter of every
pixel is exactly 1. Both functions yield a state whenever the rejection loop
of the material scatter is bounded on the random stream. -/
theorem render_one_sample_each (sqrt : F → F) (toUChar : F → Nat) (fuel : Nat)
    (g_camera : Camera F) (g_world : List (Hittable F)) (g_background : vec3 F)
    (st : RenderState F) :
    (∀ st1, render sqrt toUChar fuel g_camera g_world g_background st = some st1 →
      ∀ j, st1.fb.rayCounter j =
        st.fb.rayCounter j + if j < IMAGE_WIDTH * IMAGE_HEIGHT then 1 else 0) ∧
    (∀ (x y z : Int) (res : Camera F × RenderState F),
      renderAt sqrt toUChar fuel g_camera g_world g_background st x y z = some res →
      ∀ j, j < IMAGE_WIDTH * IMAGE_HEIGHT → res.2.fb.rayCounter j = 1) ∧
    (∀ B, MATH.acceptsWithin B st.rng → B ≤ fuel →
      (∃ st1, render sqrt toUChar fuel g_camera g_world g_background st = some st1) ∧
      ∀ (x y z : Int), ∃ res,
        renderAt sqrt toUChar fuel g_camera g_world g_background st x y z = some res) := by
  refine ⟨fun st1 h => render_counter sqrt toUChar fuel g_camera g_world g_background st st1 h,
    ?_, ?_⟩
  · intro x y z res h j hj
    rw [renderAt_eq] at h
    obtain ⟨st1, hr, hres⟩ := Option.map_eq_some'.mp h
    rw [← hres]
    have hc := render_counter sqrt toUChar fuel _ g_world g_background _ st1 hr j
    rw [if_pos hj] at hc
    rw [hc]
    show (if j < IMAGE_WIDTH * IMAGE_HEIGHT then (0 : F) else st.fb.rayCounter j) + 1 = 1
    rw [if_pos hj, zero_add]
  · intro B hg hf
    refine ⟨render_returns sqrt toUChar B fuel g_camera g_world g_background st hg hf, ?_⟩
    intro x y z
    obtain ⟨st1, h⟩ := render_returns sqrt toUChar B fuel
      (g_camera.setPosition sqrt ⟨(x : F), (y : F), (z : F)⟩) g_world g_background
      { fb := clear st.fb, rng := st.rng } hg hf
    exact ⟨_, by rw [renderAt_eq, h, Option.map_some']⟩

/-- Witness for C26: a frame of the light triangle from empty buffers with the
constant stream 1/2. -/
theorem render_one_sample_each_witness :
    MATH.acceptsWithin 1 (constRng (1 / 2)) ∧ 1 ≤ 1 ∧
    ∃ st1, render sqrtQ toUCharQ 1 zCamera [.Triangle (planeTriangle 4 whiteLight)]
        ⟨2 / 5, 2 / 5, 1⟩ { fb := emptyFrame, rng := constRng (1 / 2) } = some st1 ∧
      ∀ j, st1.fb.rayCounter j = 0 + if j < IMAGE_WIDTH * IMAGE_HEIGHT then 1 else 0 := by
  obtain ⟨hcount, _, hret⟩ := render_one_sample_each sqrtQ toUCharQ 1 zCamera
    [.Triangle (planeTriangle 4 whiteLight)] ⟨2 / 5, 2 / 5, 1⟩
    { fb := emptyFrame, rng := constRng (1 / 2) }
  obtain ⟨⟨st1, h⟩, _⟩ := hret 1 constRng_acceptsWithin (le_refl 1)
  exact ⟨constRng_acceptsWithin, le_refl 1, st1, h, hcount st1 h⟩

end RenderProofs


/-! ## The record of a sphere hit -/

section SphereRecord

variable {F : Type} [LinearOrderedField F]

/-- The body of `Sphere::trace` written with the two roots and the record that
is stored. -/
theorem Sphere.trace_roots_form (sqrt : F → F) (s : Sphere F) (r : Ray F) (t_min t_max : F)
    (rec : hit F) :
    s.trace sqrt r t_min t_max rec =
      if s.discriminant r < 0 then (false, rec)
      else if s.rootNear sqrt r < t_min ∨ t_max < s.rootNear sqrt r then
        if s.rootFar sqrt r < t_min ∨ t_max < s.rootFar sqrt r then (false, rec)
        else (true, s.hitAt sqrt r rec (s.rootFar sqrt r))
      else (true, s.hitAt sqrt r rec (s.rootNear sqrt r)) := rfl

/-- A reported sphere hit has a non-negative discriminant and stores the
record of one of the two roots, which lies in the range. -/
theorem Sphere.hit_root (sqrt : F → F) (s : Sphere F) (r : Ray F) (t_min t_max : F)
    (rec : hit F) (hhit : (s.trace sqrt r t_min t_max rec).1 = true) :
    0 ≤ s.discriminant r ∧
    ∃ root, (root = s.rootNear sqrt r ∨ root = s.rootFar sqrt r) ∧
      t_min ≤ root ∧ root ≤ t_max ∧
      (s.trace sqrt r t_min t_max rec).2 = s.hitAt sqrt r rec root := by
  rw [Sphere.trace_roots_form] at hhit ⊢
  by_cases hd : s.discriminant r < 0
  · rw [if_pos hd] at hhit
    exact absurd hhit (by simp)
  rw [if_neg hd] at hhit ⊢
  refine ⟨not_lt.mp hd, ?_⟩
  by_cases h1 : s.rootNear sqrt r < t_min ∨ t_max < s.rootNear sqrt r
  · rw [if_pos h1] at hhit ⊢
    by_cases h2 : s.rootFar sqrt r < t_min ∨ t_max < s.rootFar sqrt r
    · rw [if_pos h2] at hhit
      exact absurd hhit (by simp)
    · rw [if_neg h2]
      have h2r := not_or.mp h2
      exact ⟨_, Or.inr rfl, not_lt.mp h2r.1, not_lt.mp h2r.2, rfl⟩
  · rw [if_neg h1]
    have h1r := not_or.mp h1
    exact ⟨_, Or.inl rfl, not_lt.mp h1r.1, not_lt.mp h1r.2, rfl⟩

/-- A vector of squared length 1 is left as it is by `unitVector` when the
square root maps 1 to 1. -/
theorem unitVector_of_unit (sqrt : F → F) (hone : sqrt 1 = 1) (w : vec3 F)
    (hw : w.length_squared = 1) : unitVector sqrt w = w := by
  simp only [unitVector, vec3.length, hw, hone, vec3.sdiv_def]
  ext <;> simp

/-- Claim C32.  For a sphere of non-zero radius, a ray of non-zero direction,
and a square-root routine that is exact at the discriminant and at 1: when
`Sphere::trace` reports a hit, the point is `r.at(t)`, it lies on the sphere
(`|point - center|^2 = radius^2`), and the normal is `(point - center)/radius`
and has length 1. -/
theorem Sphere_hit_on_surface (sqrt : F → F) (s : Sphere F) (r : Ray F) (t_min t_max : F)
    (rec : hit F) (hdir : r.direction ≠ vec3.zero) (hr : s.radius ≠ 0)
    (hsqrt : 0 ≤ s.discriminant r →
      sqrt (s.discriminant r) * sqrt (s.discriminant r) = s.discriminant r)
    (hone : sqrt 1 = 1)
    (hhit : (s.trace sqrt r t_min t_max rec).1 = true) :
    (s.trace sqrt r t_min t_max rec).2.point = r.at (s.trace sqrt r t_min t_max rec).2.t ∧
    ((s.trace sqrt r t_min t_max rec).2.point - s.center).length_squared
      = s.radius * s.radius ∧
    (s.trace sqrt r t_min t_max rec).2.normal
      = ((s.trace sqrt r t_min t_max rec).2.point - s.center) / s.radius ∧
    (s.trace sqrt r t_min t_max rec).2.normal.length_squared = 1 ∧
    (s.trace sqrt r t_min t_max rec).2.normal.length sqrt = 1 := by
  obtain ⟨hd, root, hroot, _, _, hrec⟩ := Sphere.hit_root sqrt s r t_min t_max rec hhit
  have ha : 0 < r.direction.length_squared := vec3.length_squared_pos _ hdir
  have hsurf : (r.at root - s.center).length_squared = s.radius * s.radius :=
    (Sphere.root_iff s r (sqrt (s.discriminant r)) ha (hsqrt hd) root).mpr hroot
  have hw : ((r.at root - s.center) / s.radius).length_squared = 1 := by
    have hexp : ((r.at root - s.center) / s.radius).length_squared
        = (r.at root - s.center).length_squared / (s.radius * s.radius) := by
      simp only [vec3.length_squared, vec3.sdiv_def]
      field_simp
    rw [hexp, hsurf, div_self (mul_ne_zero hr hr)]
  have hn : unitVector sqrt ((r.at root - s.center) / s.radius)
      = (r.at root - s.center) / s.radius := unitVector_of_unit sqrt hone _ hw
  rw [hrec]
  refine ⟨rfl, hsurf, hn, ?_, ?_⟩
  · show (unitVector sqrt ((r.at root - s.center) / s.radius)).length_squared = 1
    rw [hn, hw]
  · show sqrt (unitVector sqrt ((r.at root - s.center) / s.radius)).length_squared = 1
    rw [hn, hw, hone]

/-- Witness for C32: the ray from (0,0,5) along -z against the unit sphere;
the hit is at (0,0,1). -/
theorem Sphere_hit_on_surface_witness :
    downRay.direction ≠ vec3.zero ∧ (unitSphere whiteLight).radius ≠ 0 ∧
    ((unitSphere whiteLight).trace sqrtQ downRay T_MIN INF hit.default).1 = true ∧
    ((unitSphere whiteLight).trace sqrtQ downRay T_MIN INF hit.default).2.point
      = downRay.at ((unitSphere whiteLight).trace sqrtQ downRay T_MIN INF hit.default).2.t ∧
    (((unitSphere whiteLight).trace sqrtQ downRay T_MIN INF hit.default).2.point
      - (unitSphere whiteLight).center).length_squared
      = (unitSphere whiteLight).radius * (unitSphere whiteLight).radius ∧
    ((unitSphere whiteLight).trace sqrtQ downRay T_MIN INF hit.default).2.normal
      = (((unitSphere whiteLight).trace sqrtQ downRay T_MIN INF hit.default).2.point
          - (unitSphere whiteLight).center) / (unitSphere whiteLight).radius ∧
    ((unitSphere whiteLight).trace sqrtQ downRay T_MIN INF hit.default).2.normal.length_squared
      = 1 ∧
    ((unitSphere whiteLight).trace sqrtQ downRay T_MIN INF hit.default).2.normal.length sqrtQ
      = 1 := by
  have hhit : ((unitSphere whiteLight).trace sqrtQ downRay T_MIN INF hit.default).1 = true := by
    norm_num [Sphere.trace, unitSphere, downRay, T_MIN, INF, dot, vec3.length_squared, sqrtQ]
  exact ⟨by simp [downRay, vec3.zero], by norm_num [unitSphere], hhit,
    Sphere_hit_on_surface sqrtQ (unitSphere whiteLight) downRay T_MIN INF hit.default
      (by simp [downRay, vec3.zero]) (by norm_num [unitSphere])
      (fun _ => by
        norm_num [Sphere.discriminant, unitSphere, downRay, dot, vec3.length_squared, sqrtQ])
      (by simp [sqrtQ]) hhit⟩

end SphereRecord

/-! ## Lists of spheres and triangles -/

section ListNearest

variable {F : Type} [LinearOrderedField F]

/-- The record that `Sphere::trace` stores depends on the incoming record only
through its `specialObject` flag. -/
theorem Sphere.hitAt_congr (sqrt : F → F) (s : Sphere F) (r : Ray F) (rec rec2 : hit F)
    (root : F) (h : rec.specialObject = rec2.specialObject) :
    s.hitAt sqrt r rec root = s.hitAt sqrt r rec2 root := by
  simp only [Sphere.hitAt, h]

/-- With a non-negative square root the first root is at most the second. -/
theorem Sphere.roots_ordered (sqrt : F → F) (s : Sphere F) (r : Ray F)
    (hs : 0 ≤ sqrt (s.discriminant r)) : s.rootNear sqrt r ≤ s.rootFar sqrt r := by
  have ha : 0 ≤ r.direction.length_squared := by
    simp only [vec3.length_squared]
    nlinarith [mul_self_nonneg r.direction.x, mul_self_nonneg r.direction.y,
      mul_self_nonneg r.direction.z]
  simp only [Sphere.rootNear, Sphere.rootFar]
  apply div_le_div_of_nonneg_right _ ha
  linarith

/-- A sphere tested with an upper bound `c` below `T` reports a hit exactly
when it reports one with the bound `T` whose `t` is at most `c`, and then
stores the same record. -/
theorem Sphere.sphere_narrow (sqrt : F → F) (s : Sphere F) (r : Ray F) (t_min c T : F)
    (temp rec0 : hit F) (hord : 0 ≤ s.discriminant r → s.rootNear sqrt r ≤ s.rootFar sqrt r)
    (hc : c ≤ T) (hspec : temp.specialObject = rec0.specialObject) :
    ((s.trace sqrt r t_min c temp).1 = true ↔
      (s.trace sqrt r t_min T rec0).1 = true ∧ (s.trace sqrt r t_min T rec0).2.t ≤ c) ∧
    ((s.trace sqrt r t_min c temp).1 = true →
      (s.trace sqrt r t_min c temp).2 = (s.trace sqrt r t_min T rec0).2) ∧
    (s.trace sqrt r t_min c temp).2.specialObject = temp.specialObject := by
  rw [Sphere.trace_roots_form, Sphere.trace_roots_form]
  by_cases hd : s.discriminant r < 0
  · simp only [hd, if_true]
    exact ⟨⟨fun h => by simp at h, fun h => by simp at h⟩, fun h => by simp at h, trivial⟩
  have ho := hord (not_lt.mp hd)
  simp only [hd, if_false]
  rw [Sphere.hitAt_congr sqrt s r temp rec0 _ hspec, Sphere.hitAt_congr sqrt s r temp rec0 _ hspec]
  generalize s.rootNear sqrt r = n at ho ⊢
  generalize s.rootFar sqrt r = f at ho ⊢
  by_cases h1 : n < t_min ∨ c < n
  · by_cases h2 : f < t_min ∨ c < f
    · simp only [h1, h2, if_true]
      refine ⟨⟨fun h => by simp at h, ?_⟩, fun h => by simp at h, trivial⟩
      rintro ⟨hT, hle⟩
      exfalso
      by_cases h3 : n < t_min ∨ T < n
      · by_cases h4 : f < t_min ∨ T < f
        · simp only [h3, h4, if_true] at hT
          simp at hT
        · simp only [h3, h4, if_true, if_false] at hle
          have hle2 : f ≤ c := hle
          rcases h2 with h | h
          · exact h4 (Or.inl h)
          · exact absurd hle2 (not_le.mpr h)
      · simp only [h3, if_false] at hle
        have hle2 : n ≤ c := hle
        rcases h1 with h | h
        · exact h3 (Or.inl h)
        · exact absurd hle2 (not_le.mpr h)
    · have h2r := not_or.mp h2
      have hnlt : n < t_min := by
        rcases h1 with h | h
        · exact h
        · exact absurd (le_trans ho (not_lt.mp h2r.2)) (not_le.mpr h)
      have h3 : n < t_min ∨ T < n := Or.inl hnlt
      have h4 : ¬ (f < t_min ∨ T < f) := by
        rintro (h | h)
        · exact h2r.1 h
        · exact h2r.2 (lt_of_le_of_lt hc h)
      simp only [h1, h2, h3, h4, if_true, if_false]
      refine ⟨⟨fun _ => ⟨trivial, not_lt.mp h2r.2⟩, fun _ => trivial⟩, fun _ => trivial, ?_⟩
      simp only [Sphere.hitAt, hspec]
  · have h1r := not_or.mp h1
    have h3 : ¬ (n < t_min ∨ T < n) := by
      rintro (h | h)
      · exact h1r.1 h
      · exact h1r.2 (lt_of_le_of_lt hc h)
    simp only [h1, h3, if_false]
    refine ⟨⟨fun _ => ⟨trivial, not_lt.mp h1r.2⟩, fun _ => trivial⟩, fun _ => trivial, ?_⟩
    simp only [Sphere.hitAt, hspec]

/-- A triangle tested with an upper bound `c` below `T` reports a hit exactly
when it reports one with the bound `T` whose `t` is at most `c`, and then
stores the same record. -/
theorem Triangle.triangle_narrow (sqrt : F → F) (tr : Triangle F) (r : Ray F) (t_min c T : F)
    (temp rec0 : hit F) (hc : c ≤ T) (hspec : temp.specialObject = rec0.specialObject) :
    ((tr.trace sqrt r t_min c temp).1 = true ↔
      (tr.trace sqrt r t_min T rec0).1 = true ∧ (tr.trace sqrt r t_min T rec0).2.t ≤ c) ∧
    ((tr.trace sqrt r t_min c temp).1 = true →
      (tr.trace sqrt r t_min c temp).2 = (tr.trace sqrt r t_min T rec0).2) ∧
    (tr.trace sqrt r t_min c temp).2.specialObject = temp.specialObject := by
  refine ⟨?_, ?_, Triangle.trace_keeps_special sqrt tr r t_min c temp⟩
  · rw [Triangle.trace_spec_form, Triangle.trace_spec_form]
    by_cases h1 : -EPSILON < tr.specDet r ∧ tr.specDet r < EPSILON
    · simp only [h1]
      simp
    by_cases h2 : tr.specU r < 0 ∨ tr.specU r > 1
    · simp only [h1, h2, if_true, if_false]
      simp
    by_cases h3 : tr.specV r < 0 ∨ tr.specU r + tr.specV r > 1
    · simp only [h1, h2, h3, if_true, if_false]
      simp
    simp only [h1, h2, h3, if_false]
    generalize tr.specT r = t
    by_cases h4 : t < t_min ∨ t > c
    · simp only [h4, if_true]
      refine ⟨fun h => by simp at h, ?_⟩
      rintro ⟨hT, hle⟩
      exfalso
      by_cases h5 : t < t_min ∨ t > T
      · simp only [h5, if_true] at hT
        simp at hT
      · simp only [h5, if_false] at hle
        have hle2 : t ≤ c := hle
        rcases h4 with h | h
        · exact h5 (Or.inl h)
        · exact absurd hle2 (not_le.mpr h)
    · have h4r := not_or.mp h4
      have h5 : ¬ (t < t_min ∨ t > T) := by
        rintro (h | h)
        · exact h4r.1 h
        · exact h4r.2 (lt_of_le_of_lt hc h)
      simp only [h4, h5, if_false]
      exact ⟨fun _ => ⟨trivial, not_lt.mp h4r.2⟩, fun _ => trivial⟩
  · intro hhit
    have hT : (tr.trace sqrt r t_min T rec0).1 = true := by
      rw [Triangle.trace_spec_form] at hhit ⊢
      by_cases h1 : -EPSILON < tr.specDet r ∧ tr.specDet r < EPSILON
      · simp only [h1, if_true] at hhit
        simp at hhit
      by_cases h2 : tr.specU r < 0 ∨ tr.specU r > 1
      · simp only [h1, h2, if_true, if_false] at hhit
        simp at hhit
      by_cases h3 : tr.specV r < 0 ∨ tr.specU r + tr.specV r > 1
      · simp only [h1, h2, h3, if_true, if_false] at hhit
        simp at hhit
      by_cases h4 : tr.specT r < t_min ∨ tr.specT r > c
      · simp only [h1, h2, h3, h4, if_true, if_false] at hhit
        simp at hhit
      have h4r := not_or.mp h4
      have h5 : ¬ (tr.specT r < t_min ∨ tr.specT r > T) := by
        rintro (h | h)
        · exact h4r.1 h
        · exact h4r.2 (lt_of_le_of_lt hc h)
      simp only [h1, h2, h3, h5, if_false]
    rw [(Triangle.hit_facts sqrt tr r t_min c temp hhit).2.2.2.2,
      (Triangle.hit_facts sqrt tr r t_min T rec0 hT).2.2.2.2, hspec]

/-- The same for a member that is a sphere or a triangle. -/
theorem Hittable.member_narrow (sqrt : F → F) (hsqrt : ∀ d : F, 0 ≤ d → 0 ≤ sqrt d)
    (m : Hittable F) (hm : m.isSphereOrTriangle = true) (r : Ray F) (t_min c T : F)
    (temp rec0 : hit F) (hc : c ≤ T) (hspec : temp.specialObject = rec0.specialObject) :
    ((m.trace sqrt r t_min c temp).1 = true ↔
      (m.trace sqrt r t_min T rec0).1 = true ∧ (m.trace sqrt r t_min T rec0).2.t ≤ c) ∧
    ((m.trace sqrt r t_min c temp).1 = true →
      (m.trace sqrt r t_min c temp).2 = (m.trace sqrt r t_min T rec0).2) ∧
    (m.trace sqrt r t_min c temp).2.specialObject = temp.specialObject := by
  cases m with
  | Sphere s =>
    simp only [Hittable.trace]
    exact Sphere.sphere_narrow sqrt s r t_min c T temp rec0
      (fun hd => Sphere.roots_ordered sqrt s r (hsqrt _ hd)) hc hspec
  | Triangle tr =>
    simp only [Hittable.trace]
    exact Triangle.triangle_narrow sqrt tr r t_min c T temp rec0 hc hspec
  | Quad q => exact absurd hm (by simp [Hittable.isSphereOrTriangle])
  | RectXY q => exact absurd hm (by simp [Hittable.isSphereOrTriangle])
  | HittableList objects => exact absurd hm (by simp [Hittable.isSphereOrTriangle])
  | BadEend objects => exact absurd hm (by simp [Hittable.isSphereOrTriangle])
  | Translate ptr d => exact absurd hm (by simp [Hittable.isSphereOrTriangle])
  | RotateZ ptr s c => exact absurd hm (by simp [Hittable.isSphereOrTriangle])

/-- The loop of `HittableList::trace` over members whose test with a narrowed
upper bound agrees with a reference outcome `ref`: after the loop,
`hit_anything` is set exactly when some member has a reference hit, and then
the record is the reference record of a member with the least `t`. -/
theorem HittableList.loop_nearest (sqrt : F → F) (r : Ray F) (t_min T : F)
    (ref : Hittable F → Bool × hit F) :
    ∀ (rest ds : List (Hittable F)) (st : ListState F),
      (∀ m ∈ rest, ∀ (c : F) (temp : hit F), c ≤ T → temp.specialObject = false →
        ((m.trace sqrt r t_min c temp).1 = true ↔ (ref m).1 = true ∧ (ref m).2.t ≤ c) ∧
        ((m.trace sqrt r t_min c temp).1 = true →
          (m.trace sqrt r t_min c temp).2 = (ref m).2) ∧
        (m.trace sqrt r t_min c temp).2.specialObject = false) →
      (∀ m ∈ rest, (ref m).1 = true → (ref m).2.t ≤ T) →
      st.temp_hit.specialObject = false → st.closest_so_far ≤ T →
      (st.hit_anything = false → st.closest_so_far = T ∧ ∀ m ∈ ds, (ref m).1 = false) →
      (st.hit_anything = true →
        st.closest_so_far = st.rec_.t ∧
        (∃ m ∈ ds, (ref m).1 = true ∧ st.rec_ = (ref m).2) ∧
        ∀ m ∈ ds, (ref m).1 = true → st.closest_so_far ≤ (ref m).2.t) →
      ((HittableList.loop sqrt rest r t_min st).hit_anything = false →
        ∀ m ∈ ds ++ rest, (ref m).1 = false) ∧
      ((HittableList.loop sqrt rest r t_min st).hit_anything = true →
        (∃ m ∈ ds ++ rest, (ref m).1 = true ∧
          (HittableList.loop sqrt rest r t_min st).rec_ = (ref m).2) ∧
        ∀ m ∈ ds ++ rest, (ref m).1 = true →
          (HittableList.loop sqrt rest r t_min st).rec_.t ≤ (ref m).2.t) := by
  intro rest
  induction rest with
  | nil =>
    intro ds st _ _ _ _ hfalse htrue
    simp only [HittableList.loop, List.append_nil]
    refine ⟨fun h => (hfalse h).2, fun h => ?_⟩
    obtain ⟨hc, hex, hall⟩ := htrue h
    exact ⟨hex, fun m hm hhit => hc ▸ hall m hm hhit⟩
  | cons m rest ih =>
    intro ds st hmem hrange htemp hclose hfalse htrue
    simp only [HittableList.loop]
    obtain ⟨hiff, hrec, hspec⟩ :=
      hmem m (List.mem_cons_self m rest) st.closest_so_far st.temp_hit hclose htemp
    have happ : ds ++ m :: rest = (ds ++ [m]) ++ rest := by simp
    rw [happ]
    generalize Hittable.trace sqrt m r t_min st.closest_so_far st.temp_hit = res
      at hiff hrec hspec ⊢
    refine ih (ds ++ [m]) (st.step res)
      (fun m2 hm2 => hmem m2 (List.mem_cons_of_mem m hm2))
      (fun m2 hm2 => hrange m2 (List.mem_cons_of_mem m hm2)) ?_ ?_ ?_ ?_
    · unfold ListState.step
      split_ifs <;> exact hspec
    · unfold ListState.step
      split_ifs with hb
      · show res.2.t ≤ T
        rw [hrec hb]
        exact hrange m (List.mem_cons_self m rest) (hiff.mp hb).1
      · exact hclose
    · unfold ListState.step
      split_ifs with hb
      · intro h
        simp at h
      · intro h
        have h1 : st.hit_anything = false := h
        obtain ⟨hcT, hds⟩ := hfalse h1
        refine ⟨hcT, fun m2 hm2 => ?_⟩
        rcases List.mem_append.mp hm2 with hm2 | hm2
        · exact hds m2 hm2
        · rw [List.mem_singleton] at hm2
          subst hm2
          by_contra hcon
          have hhit : (ref m2).1 = true := by
            cases hv : (ref m2).1
            · exact absurd hv hcon
            · rfl
          have hle : (ref m2).2.t ≤ st.closest_so_far := by
            rw [hcT]
            exact hrange m2 (List.mem_cons_self m2 rest) hhit
          exact hb (hiff.mpr ⟨hhit, hle⟩)
    · unfold ListState.step
      split_ifs with hb
      · intro _
        have href := hiff.mp hb
        refine ⟨rfl, ⟨m, List.mem_append.mpr (Or.inr (List.mem_singleton.mpr rfl)), href.1,
          hrec hb⟩, fun m2 hm2 hhit2 => ?_⟩
        show res.2.t ≤ (ref m2).2.t
        rw [hrec hb]
        rcases List.mem_append.mp hm2 with hm2 | hm2
        · cases hany : st.hit_anything
          · have := (hfalse hany).2 m2 hm2
            rw [this] at hhit2
            exact absurd hhit2 (by simp)
          · exact le_trans href.2 ((htrue hany).2.2 m2 hm2 hhit2)
        · rw [List.mem_singleton] at hm2
          subst hm2
          exact le_refl _
      · intro h
        have h1 : st.hit_anything = true := h
        obtain ⟨hc, ⟨m0, hm0, hhit0, hrec0⟩, hall⟩ := htrue h1
        refine ⟨hc, ⟨m0, List.mem_append.mpr (Or.inl hm0), hhit0, hrec0⟩,
          fun m2 hm2 hhit2 => ?_⟩
        rcases List.mem_append.mp hm2 with hm2 | hm2
        · exact hall m2 hm2 hhit2
        · rw [List.mem_singleton] at hm2
          subst hm2
          by_contra hcon
          exact hb (hiff.mpr ⟨hhit2, le_of_lt (lt_of_not_le (fun hle => hcon
            (show ({ st with temp_hit := res.2 } : ListState F).closest_so_far ≤ (ref m2).2.t
              from hle)))⟩)

/-- Claim C31 as stated fails at the upper bound.  The bound that the list
passes to its members is the float value 10000000000 of the literal
`9999999999.0f`.  A list holding one triangle that the ray crosses at
`t = 10000000000` reports a hit with that `t`, which is above 9999999999; the
triangle's only crossing is at that `t`, so tested over the range from `T_MIN`
to 9999999999 it reports none. -/
theorem HittableList_trace_bound_above_literal :
    (Hittable.trace sqrtQ (.HittableList [.Triangle (planeTriangle 10000000000 whiteLight)])
      zRay T_MIN INF hit.default).1 = true ∧
    (Hittable.trace sqrtQ (.HittableList [.Triangle (planeTriangle 10000000000 whiteLight)])
      zRay T_MIN INF hit.default).2.t = 10000000000 ∧
    ¬ ((10000000000 : ℚ) ≤ 9999999999) ∧
    (planeTriangle 10000000000 whiteLight).specT zRay = 10000000000 ∧
    (Hittable.trace sqrtQ (.Triangle (planeTriangle 10000000000 whiteLight))
      zRay T_MIN 9999999999 hit.default).1 = false := by
  refine ⟨?_, ?_, ?_, ?_, ?_⟩ <;>
    norm_num [Hittable.trace, HittableList.loop, ListState.step, Triangle.trace,
      Triangle.specT, Triangle.specDet, planeTriangle, zRay, T_MIN, INF, EPSILON,
      CLOSEST_INIT, cross, dot, Ray.at]

/-- Claim C31, amended.  For a `HittableList` whose members are all spheres
and triangles, with a square-root routine that is non-negative on
non-negative arguments, and for every ray of non-zero direction, every
`t_min`, `t_max` and record: the list reports a hit exactly when some member,
tested on its own over the range from `t_min` to `CLOSEST_INIT = 10000000000`,
reports a hit; and then the record returned is the record of such a member's
hit, its `t` is at most the `t` that any member reports over that range, and
it lies in that range. -/
theorem HittableList_trace_nearest_primitive (sqrt : F → F)
    (hsqrt : ∀ d : F, 0 ≤ d → 0 ≤ sqrt d) (objects : List (Hittable F))
    (hprim : ∀ m ∈ objects, m.isSphereOrTriangle = true)
    (r : Ray F) (_hdir : r.direction ≠ vec3.zero) (t_min t_max : F) (rec : hit F) :
    ((Hittable.trace sqrt (.HittableList objects) r t_min t_max rec).1 = true ↔
      ∃ m ∈ objects, (m.trace sqrt r t_min CLOSEST_INIT hit.default).1 = true) ∧
    ((Hittable.trace sqrt (.HittableList objects) r t_min t_max rec).1 = true →
      (∃ m ∈ objects, (m.trace sqrt r t_min CLOSEST_INIT hit.default).1 = true ∧
        (Hittable.trace sqrt (.HittableList objects) r t_min t_max rec).2
          = (m.trace sqrt r t_min CLOSEST_INIT hit.default).2) ∧
      (∀ m ∈ objects, (m.trace sqrt r t_min CLOSEST_INIT hit.default).1 = true →
        (Hittable.trace sqrt (.HittableList objects) r t_min t_max rec).2.t
          ≤ (m.trace sqrt r t_min CLOSEST_INIT hit.default).2.t) ∧
      t_min ≤ (Hittable.trace sqrt (.HittableList objects) r t_min t_max rec).2.t ∧
      (Hittable.trace sqrt (.HittableList objects) r t_min t_max rec).2.t ≤ CLOSEST_INIT) := by
  have hnarrow : ∀ m ∈ objects, ∀ (c : F) (temp : hit F), c ≤ CLOSEST_INIT →
      temp.specialObject = false →
      ((m.trace sqrt r t_min c temp).1 = true ↔
        (m.trace sqrt r t_min CLOSEST_INIT hit.default).1 = true ∧
          (m.trace sqrt r t_min CLOSEST_INIT hit.default).2.t ≤ c) ∧
      ((m.trace sqrt r t_min c temp).1 = true →
        (m.trace sqrt r t_min c temp).2 = (m.trace sqrt r t_min CLOSEST_INIT hit.default).2) ∧
      (m.trace sqrt r t_min c temp).2.specialObject = false := by
    intro m hm c temp hc htemp
    obtain ⟨h1, h2, h3⟩ := Hittable.member_narrow sqrt hsqrt m (hprim m hm) r t_min c
      CLOSEST_INIT temp hit.default hc htemp
    exact ⟨h1, h2, h3.trans htemp⟩
  have hrange : ∀ m ∈ objects, (m.trace sqrt r t_min CLOSEST_INIT hit.default).1 = true →
      (m.trace sqrt r t_min CLOSEST_INIT hit.default).2.t ≤ CLOSEST_INIT := by
    intro m hm hhit
    exact ((hnarrow m hm CLOSEST_INIT hit.default (le_refl _) rfl).1.mp hhit).2
  have hlow : ∀ m ∈ objects, (m.trace sqrt r t_min CLOSEST_INIT hit.default).1 = true →
      t_min ≤ (m.trace sqrt r t_min CLOSEST_INIT hit.default).2.t := by
    intro m hm hhit
    have hp := hprim m hm
    cases m with
    | Sphere s =>
      simp only [Hittable.trace] at hhit ⊢
      obtain ⟨_, root, _, hlo, _, hrec⟩ := Sphere.hit_root sqrt s r t_min _ _ hhit
      rw [hrec]
      exact hlo
    | Triangle tr =>
      simp only [Hittable.trace] at hhit ⊢
      rw [Triangle.trace_spec_form] at hhit ⊢
      split_ifs at hhit ⊢ with h1 h2 h3 h4
      exact not_lt.mp (not_or.mp h4).1
    | Quad q => exact absurd hp (by simp [Hittable.isSphereOrTriangle])
    | RectXY q => exact absurd hp (by simp [Hittable.isSphereOrTriangle])
    | HittableList objects => exact absurd hp (by simp [Hittable.isSphereOrTriangle])
    | BadEend objects => exact absurd hp (by simp [Hittable.isSphereOrTriangle])
    | Translate ptr d => exact absurd hp (by simp [Hittable.isSphereOrTriangle])
    | RotateZ ptr s c => exact absurd hp (by simp [Hittable.isSphereOrTriangle])
  have hloop := HittableList.loop_nearest sqrt r t_min CLOSEST_INIT
    (fun m => m.trace sqrt r t_min CLOSEST_INIT hit.default) objects []
    { temp_hit := hit.default, hit_anything := false, closest_so_far := CLOSEST_INIT,
      rec_ := rec }
    hnarrow hrange rfl (le_refl _) (fun _ => ⟨rfl, fun m hm => absurd hm (List.not_mem_nil m)⟩)
    (fun h => by simp at h)
  simp only [List.nil_append] at hloop
  simp only [Hittable.trace]
  generalize HittableList.loop sqrt objects r t_min
    { temp_hit := hit.default, hit_anything := false, closest_so_far := CLOSEST_INIT,
      rec_ := rec } = st at hloop ⊢
  obtain ⟨hf, ht⟩ := hloop
  constructor
  · constructor
    · intro h
      obtain ⟨⟨m, hm, hhit, _⟩, _⟩ := ht h
      exact ⟨m, hm, hhit⟩
    · rintro ⟨m, hm, hhit⟩
      cases hany : st.hit_anything
      · have := hf hany m hm
        rw [this] at hhit
        exact absurd hhit (by simp)
      · rfl
  · intro h
    obtain ⟨⟨m, hm, hhit, hrec⟩, hall⟩ := ht h
    refine ⟨⟨m, hm, hhit, hrec⟩, hall, ?_, ?_⟩
    · show t_min ≤ st.rec_.t
      rw [hrec]
      exact hlow m hm hhit
    · show st.rec_.t ≤ CLOSEST_INIT
      rw [hrec]
      exact hrange m hm hhit

/-- Witness for C31: the unit sphere (met at distance 4) and a triangle at
height 2 (met at distance 3) on the ray from (0,0,5) along -z; the list
returns the triangle's hit. -/
theorem HittableList_trace_nearest_primitive_witness :
    (∀ d : ℚ, 0 ≤ d → 0 ≤ sqrtQ d) ∧
    downRay.direction ≠ vec3.zero ∧
    (∀ m ∈ [Hittable.Sphere (unitSphere whiteLight), .Triangle (planeTriangle 2 greyMetal)],
      m.isSphereOrTriangle = true) ∧
    (Hittable.trace sqrtQ
        (.HittableList [.Sphere (unitSphere whiteLight), .Triangle (planeTriangle 2 greyMetal)])
        downRay T_MIN INF hit.default).1 = true ∧
    (Hittable.trace sqrtQ
        (.HittableList [.Sphere (unitSphere whiteLight), .Triangle (planeTriangle 2 greyMetal)])
        downRay T_MIN INF hit.default).2.t = 3 ∧
    (∀ m ∈ [Hittable.Sphere (unitSphere whiteLight), .Triangle (planeTriangle 2 greyMetal)],
      (m.trace sqrtQ downRay T_MIN CLOSEST_INIT hit.default).1 = true →
      (Hittable.trace sqrtQ
        (.HittableList [.Sphere (unitSphere whiteLight), .Triangle (planeTriangle 2 greyMetal)])
        downRay T_MIN INF hit.default).2.t
        ≤ (m.trace sqrtQ downRay T_MIN CLOSEST_INIT hit.default).2.t) := by
  have hs : ∀ d : ℚ, 0 ≤ d → 0 ≤ sqrtQ d := fun d _ =>
    div_nonneg (Nat.cast_nonneg _) (Nat.cast_nonneg _)
  have hp : ∀ m ∈ [Hittable.Sphere (unitSphere whiteLight),
      .Triangle (planeTriangle 2 greyMetal)], m.isSphereOrTriangle = true := by
    intro m hm
    simp only [List.mem_cons, List.mem_singleton, List.not_mem_nil, or_false] at hm
    rcases hm with rfl | rfl <;> rfl
  have hhit : (Hittable.trace sqrtQ
      (.HittableList [.Sphere (unitSphere whiteLight), .Triangle (planeTriangle 2 greyMetal)])
      downRay T_MIN INF hit.default).1 = true := by
    norm_num [Hittable.trace, HittableList.loop, ListState.step, Sphere.trace, Triangle.trace,
      unitSphere, planeTriangle, downRay, T_MIN, INF, EPSILON, CLOSEST_INIT, cross, dot,
      vec3.length_squared, Ray.at, sqrtQ]
  have ht : (Hittable.trace sqrtQ
      (.HittableList [.Sphere (unitSphere whiteLight), .Triangle (planeTriangle 2 greyMetal)])
      downRay T_MIN INF hit.default).2.t = 3 := by
    norm_num [Hittable.trace, HittableList.loop, ListState.step, Sphere.trace, Triangle.trace,
      unitSphere, planeTriangle, downRay, T_MIN, INF, EPSILON, CLOSEST_INIT, cross, dot,
      vec3.length_squared, Ray.at, sqrtQ]
  have hdir : downRay.direction ≠ vec3.zero := by simp [downRay, vec3.zero]
  exact ⟨hs, hdir, hp, hhit, ht, ((HittableList_trace_nearest_primitive sqrtQ hs _ hp downRay
    hdir T_MIN INF hit.default).2 hhit).2.1⟩

end ListNearest

/-! ## Wrappers keep the hit point on the ray -/

section WrapperPoint

variable {F : Type} [LinearOrderedField F]

/-- A hit reported by a triangle has its point at `r.at(t)`. -/
theorem Triangle.hit_point_on_ray (sqrt : F → F) (tr : Triangle F) (r : Ray F)
    (t_min t_max : F) (rec : hit F)
    (hhit : (Hittable.trace sqrt (.Triangle tr) r t_min t_max rec).1 = true) :
    (Hittable.trace sqrt (.Triangle tr) r t_min t_max rec).2.point
      = r.at (Hittable.trace sqrt (.Triangle tr) r t_min t_max rec).2.t := by
  simp only [Hittable.trace] at hhit ⊢
  rw [(Triangle.hit_facts sqrt tr r t_min t_max rec hhit).2.2.2.2]

/-- Claim C33.  Let the wrapped intersectable report only hits whose point is
`at(t)` of the ray it was given.  Then for every displacement, every stored
sine and cosine with `sin^2 + cos^2 = 1` and every ray `r`, a hit reported by
`Translate` and a hit reported by `RotateZ` around it has the `t` of the
wrapped hit and its point is `r.at(t)` for the untransformed ray `r`. -/
theorem wrapper_point_on_ray (sqrt : F → F) (ptr : Hittable F)
    (hptr : ∀ (r : Ray F) (t_min t_max : F) (rec : hit F),
      (ptr.trace sqrt r t_min t_max rec).1 = true →
      (ptr.trace sqrt r t_min t_max rec).2.point
        = r.at (ptr.trace sqrt r t_min t_max rec).2.t)
    (d : vec3 F) (s c : F) (hsc : s * s + c * c = 1)
    (r : Ray F) (t_min t_max : F) (rec : hit F) :
    ((Hittable.trace sqrt (.Translate ptr d) r t_min t_max rec).1 = true →
      (Hittable.trace sqrt (.Translate ptr d) r t_min t_max rec).2.t
        = (ptr.trace sqrt ⟨r.origin - d, r.direction⟩ t_min t_max rec).2.t ∧
      (Hittable.trace sqrt (.Translate ptr d) r t_min t_max rec).2.point
        = r.at (Hittable.trace sqrt (.Translate ptr d) r t_min t_max rec).2.t) ∧
    ((Hittable.trace sqrt (.RotateZ ptr s c) r t_min t_max rec).1 = true →
      (Hittable.trace sqrt (.RotateZ ptr s c) r t_min t_max rec).2.t
        = (ptr.trace sqrt ⟨RotateZ.rotateIn s c r.origin, RotateZ.rotateIn s c r.direction⟩
            t_min t_max rec).2.t ∧
      (Hittable.trace sqrt (.RotateZ ptr s c) r t_min t_max rec).2.point
        = r.at (Hittable.trace sqrt (.RotateZ ptr s c) r t_min t_max rec).2.t) := by
  constructor
  · intro hhit
    rw [Hittable.trace_Translate] at hhit ⊢
    have hp := hptr ⟨r.origin - d, r.direction⟩ t_min t_max rec
    generalize Hittable.trace sqrt ptr ⟨r.origin - d, r.direction⟩ t_min t_max rec = res
      at hhit hp ⊢
    cases hb : res.1
    · rw [hb] at hhit
      simp at hhit
    · simp only [if_true]
      refine ⟨trivial, ?_⟩
      show res.2.point + d = r.at res.2.t
      rw [hp hb]
      ext <;> simp [Ray.at] <;> ring
  · intro hhit
    rw [Hittable.trace_RotateZ] at hhit ⊢
    have hp := hptr ⟨RotateZ.rotateIn s c r.origin, RotateZ.rotateIn s c r.direction⟩
      t_min t_max rec
    generalize Hittable.trace sqrt ptr
      ⟨RotateZ.rotateIn s c r.origin, RotateZ.rotateIn s c r.direction⟩ t_min t_max rec = res
      at hhit hp ⊢
    cases hb : res.1
    · rw [hb] at hhit
      simp at hhit
    · simp only [if_true]
      refine ⟨trivial, ?_⟩
      show RotateZ.rotateOut s c res.2.point = r.at res.2.t
      rw [hp hb]
      ext
      · simp only [RotateZ.rotateOut, RotateZ.rotateIn, Ray.at, vec3.add_def, vec3.smul_def]
        linear_combination (r.origin.x + res.2.t * r.direction.x) * hsc
      · simp only [RotateZ.rotateOut, RotateZ.rotateIn, Ray.at, vec3.add_def, vec3.smul_def]
        linear_combination (r.origin.y + res.2.t * r.direction.y) * hsc
      · simp only [RotateZ.rotateOut, RotateZ.rotateIn, Ray.at, vec3.add_def, vec3.smul_def]

/-- Witness for C33: `planeTriangle 4` displaced by (0,0,1) and turned with
sine 3/5 and cosine 4/5, each hit by `zRay`. -/
theorem wrapper_point_on_ray_witness :
    ((3 / 5 : ℚ) * (3 / 5) + 4 / 5 * (4 / 5) = 1) ∧
    (Hittable.trace sqrtQ (.Translate (.Triangle (planeTriangle 4 whiteLight)) ⟨0, 0, 1⟩)
      zRay T_MIN INF hit.default).1 = true ∧
    (Hittable.trace sqrtQ (.Translate (.Triangle (planeTriangle 4 whiteLight)) ⟨0, 0, 1⟩)
      zRay T_MIN INF hit.default).2.point
      = zRay.at (Hittable.trace sqrtQ
          (.Translate (.Triangle (planeTriangle 4 whiteLight)) ⟨0, 0, 1⟩)
          zRay T_MIN INF hit.default).2.t ∧
    (Hittable.trace sqrtQ turnedTriangle zRay T_MIN INF hit.default).1 = true ∧
    (Hittable.trace sqrtQ turnedTriangle zRay T_MIN INF hit.default).2.point
      = zRay.at (Hittable.trace sqrtQ turnedTriangle zRay T_MIN INF hit.default).2.t := by
  have h := wrapper_point_on_ray sqrtQ (.Triangle (planeTriangle 4 whiteLight))
    (fun r t_min t_max rec hhit =>
      Triangle.hit_point_on_ray sqrtQ (planeTriangle 4 whiteLight) r t_min t_max rec hhit)
    ⟨0, 0, 1⟩ (3 / 5) (4 / 5) (by norm_num) zRay T_MIN INF hit.default
  have h1 : (Hittable.trace sqrtQ
      (.Translate (.Triangle (planeTriangle 4 whiteLight)) ⟨0, 0, 1⟩)
      zRay T_MIN INF hit.default).1 = true := by
    norm_num [Hittable.trace, Triangle.trace, planeTriangle, zRay, T_MIN, INF, EPSILON,
      cross, dot, Ray.at]
  have h2 : (Hittable.trace sqrtQ turnedTriangle zRay T_MIN INF hit.default).1 = true := by
    norm_num [turnedTriangle, Hittable.trace, Triangle.trace, planeTriangle, zRay, T_MIN, INF,
      EPSILON, cross, dot, Ray.at]
  exact ⟨by norm_num, h1, (h.1 h1).2, h2, (h.2 h2).2⟩

end WrapperPoint

/-! ## `sendRay` stays inside the buffers -/

section SendRayProofs

variable {F : Type} [LinearOrderedField F]

/-- An access inside the buffers is followed by the rest of the run. -/
theorem Outcome.ofAccess_some {α σ : Type} (v : α) (k : α → Outcome σ) :
    Outcome.ofAccess (some v) k = k v := rfl

/-- A computation that yields a value is followed by the rest of the run. -/
theorem Outcome.ofValue_some {α σ : Type} (v : α) (k : α → Outcome σ) :
    Outcome.ofValue (some v) k = k v := rfl

/-- A computation that yields no value leaves the run unfinished. -/
theorem Outcome.ofValue_none {α σ : Type} (k : α → Outcome σ) :
    Outcome.ofValue (none : Option α) k = .unfinished := rfl

omit [LinearOrderedField F] in
/-- The read of the sample counter of an in-range pixel is inside the
vector. -/
theorem readCounter_at_index (fb : FrameBuffer F) (x y : Int) (i : Nat)
    (hi : y * 250 + x = (i : Int)) (hlt : i < 62500) :
    readCounter fb x y = some (fb.rayCounter i) := by
  have hidx : 0 ≤ y * ((IMAGE_WIDTH : Nat) : Int) + x
      ∧ y * ((IMAGE_WIDTH : Nat) : Int) + x
        < ((IMAGE_WIDTH : Nat) : Int) * ((IMAGE_HEIGHT : Nat) : Int) := by
    simp only [IMAGE_WIDTH, IMAGE_HEIGHT]
    push_cast
    rw [hi]
    constructor
    · exact Int.natCast_nonneg i
    · have : (i : Int) < 62500 := by exact_mod_cast hlt
      linarith
  have hw : (y * ((IMAGE_WIDTH : Nat) : Int) + x).toNat = i := by
    simp only [IMAGE_WIDTH]
    push_cast
    rw [hi]
    exact Int.toNat_natCast i
  simp only [readCounter, if_pos hidx, hw]

/-- The guarded statement of `sendRay` at an in-range pixel: it makes no
access outside the buffers, a finished run has accumulated into that pixel,
and the run finishes when the rejection loop is bounded. -/
theorem sendRayDraw_in_range (sqrt : F → F) (toUChar : F → Nat) (toInt : F → Int)
    (fuel : Nat) (g_world : List (Hittable F)) (g_background : vec3 F) (r : Ray F)
    (x y : Int) (hx0 : 0 ≤ x) (hx1 : x < 250) (hy0 : 0 ≤ y) (hy1 : y < 250)
    (st : RenderState F) :
    sendRayDraw sqrt toUChar toInt fuel g_world g_background r x y st ≠ .outOfBounds ∧
    (∀ st1, sendRayDraw sqrt toUChar toInt fuel g_world g_background r x y st = .done st1 →
      ∃ c : vec3 F, draw toUChar st.fb x y c = some st1.fb) ∧
    (∀ B, MATH.acceptsWithin B st.rng → B ≤ fuel →
      ∃ st1, sendRayDraw sqrt toUChar toInt fuel g_world g_background r x y st = .done st1 ∧
        MATH.acceptsWithin B st1.rng) := by
  obtain ⟨hi, hlt⟩ := pixel_index x y hx0 hx1 hy0 hy1
  have hread := readCounter_at_index st.fb x y _ hi hlt
  unfold sendRayDraw
  rw [hread, Outcome.ofAccess_some]
  refine ⟨?_, ?_, ?_⟩
  · cases htr : trace sqrt fuel g_background r (.HittableList g_world)
        (3 + toInt (st.fb.rayCounter (y * 250 + x).toNat / 5)) st.rng with
    | none =>
      rw [Outcome.ofValue_none]
      exact fun h => Outcome.noConfusion h
    | some cg =>
      obtain ⟨fb1, hdraw, _⟩ := draw_at_index toUChar st.fb x y cg.1 _ hi hlt
      rw [Outcome.ofValue_some, hdraw, Outcome.ofAccess_some]
      exact fun h => Outcome.noConfusion h
  · intro st1 h
    cases htr : trace sqrt fuel g_background r (.HittableList g_world)
        (3 + toInt (st.fb.rayCounter (y * 250 + x).toNat / 5)) st.rng with
    | none =>
      rw [htr, Outcome.ofValue_none] at h
      exact Outcome.noConfusion h
    | some cg =>
      obtain ⟨fb1, hdraw, _⟩ := draw_at_index toUChar st.fb x y cg.1 _ hi hlt
      rw [htr, Outcome.ofValue_some, hdraw, Outcome.ofAccess_some] at h
      refine ⟨cg.1, ?_⟩
      rw [hdraw]
      have h2 : ({ fb := fb1, rng := cg.2 } : RenderState F) = st1 := Outcome.done.inj h
      rw [← h2]
  · intro B hg hf
    obtain ⟨c, n, hc⟩ := trace_returns sqrt B fuel g_background (.HittableList g_world) hf
      (3 + toInt (st.fb.rayCounter (y * 250 + x).toNat / 5)).toNat
      (3 + toInt (st.fb.rayCounter (y * 250 + x).toNat / 5)) (Int.self_le_toNat _) r st.rng hg
    obtain ⟨fb1, hdraw, _⟩ := draw_at_index toUChar st.fb x y c _ hi hlt
    refine ⟨⟨fb1, MATH.afterDraws n st.rng⟩, ?_, ?_⟩
    · rw [hc, Outcome.ofValue_some, hdraw, Outcome.ofAccess_some]
    · show MATH.acceptsWithin B (MATH.afterDraws n st.rng)
      exact MATH.acceptsWithin_afterDraws B n _ hg

/-- The loop body of `sendRay` with its local names written out. -/
theorem sendRayBody_eq (sqrt : F → F) (toUChar : F → Nat) (toInt : F → Int) (fuel : Nat)
    (g_camera : Camera F) (g_world : List (Hittable F)) (g_background : vec3 F)
    (u v radius : F) (rx ry : Int) (st : RenderState F) :
    sendRayBody sqrt toUChar toInt fuel g_camera g_world g_background u v radius rx ry st =
      if sqrt (((rx * rx + ry * ry : Int)) : F) > radius then .done st
      else if 0 ≤ toInt ((u + ((rx : F) + (MATH.random st.rng).1) / ((IMAGE_WIDTH : Nat) : F))
              * ((IMAGE_WIDTH : Nat) : F))
          ∧ toInt ((u + ((rx : F) + (MATH.random st.rng).1) / ((IMAGE_WIDTH : Nat) : F))
              * ((IMAGE_WIDTH : Nat) : F)) < IMAGE_WIDTH
          ∧ 0 ≤ toInt ((v + ((ry : F) + (MATH.random (MATH.random st.rng).2).1)
              / ((IMAGE_HEIGHT : Nat) : F)) * ((IMAGE_HEIGHT : Nat) : F))
          ∧ toInt ((v + ((ry : F) + (MATH.random (MATH.random st.rng).2).1)
              / ((IMAGE_HEIGHT : Nat) : F)) * ((IMAGE_HEIGHT : Nat) : F)) < IMAGE_HEIGHT then
        sendRayDraw sqrt toUChar toInt fuel g_world g_background
          (g_camera.getRay
            (u + ((rx : F) + (MATH.random st.rng).1) / ((IMAGE_WIDTH : Nat) : F))
            (v + ((ry : F) + (MATH.random (MATH.random st.rng).2).1)
              / ((IMAGE_HEIGHT : Nat) : F)))
          (toInt ((u + ((rx : F) + (MATH.random st.rng).1) / ((IMAGE_WIDTH : Nat) : F))
              * ((IMAGE_WIDTH : Nat) : F)))
          (toInt ((v + ((ry : F) + (MATH.random (MATH.random st.rng).2).1)
              / ((IMAGE_HEIGHT : Nat) : F)) * ((IMAGE_HEIGHT : Nat) : F)))
          { st with rng := (MATH.random (MATH.random st.rng).2).2 }
      else .done { st with rng := (MATH.random (MATH.random st.rng).2).2 } := rfl

/-- One iteration of the inner loop of `sendRay`, for every pair of offsets
and every state: it makes no access outside the buffers; when it finishes it
has left the buffers as they were or accumulated into one pixel with
`0 ≤ x < 250` and `0 ≤ y < 250`; and it finishes when the rejection loop is
bounded. -/
theorem sendRayBody_in_bounds (sqrt : F → F) (toUChar : F → Nat) (toInt : F → Int)
    (fuel : Nat) (g_camera : Camera F) (g_world : List (Hittable F)) (g_background : vec3 F)
    (u v radius : F) (rx ry : Int) (st : RenderState F) :
    sendRayBody sqrt toUChar toInt fuel g_camera g_world g_background u v radius rx ry st
      ≠ .outOfBounds ∧
    (∀ st1, sendRayBody sqrt toUChar toInt fuel g_camera g_world g_background u v radius
        rx ry st = .done st1 →
      st1.fb = st.fb ∨
      ∃ (x y : Int) (c : vec3 F), 0 ≤ x ∧ x < 250 ∧ 0 ≤ y ∧ y < 250 ∧
        draw toUChar st.fb x y c = some st1.fb) ∧
    (∀ B, MATH.acceptsWithin B st.rng → B ≤ fuel →
      ∃ st1, sendRayBody sqrt toUChar toInt fuel g_camera g_world g_background u v radius
          rx ry st = .done st1 ∧ MATH.acceptsWithin B st1.rng) := by
  rw [sendRayBody_eq]
  by_cases hdisc : sqrt (((rx * rx + ry * ry : Int)) : F) > radius
  · rw [if_pos hdisc]
    refine ⟨fun h => Outcome.noConfusion h, fun st1 h => Or.inl ?_, fun B hg _ => ⟨st, rfl, hg⟩⟩
    rw [← Outcome.done.inj h]
  rw [if_neg hdisc]
  have hrng : ∀ B, MATH.acceptsWithin B st.rng →
      MATH.acceptsWithin B (MATH.random (MATH.random st.rng).2).2 := by
    intro B hg
    rw [MATH.random_snd, MATH.random_snd]
    exact MATH.acceptsWithin_afterDraws B 1 _ (MATH.acceptsWithin_afterDraws B 1 _ hg)
  generalize toInt ((u + ((rx : F) + (MATH.random st.rng).1) / ((IMAGE_WIDTH : Nat) : F))
      * ((IMAGE_WIDTH : Nat) : F)) = x
  generalize toInt ((v + ((ry : F) + (MATH.random (MATH.random st.rng).2).1)
      / ((IMAGE_HEIGHT : Nat) : F)) * ((IMAGE_HEIGHT : Nat) : F)) = y
  generalize g_camera.getRay
      (u + ((rx : F) + (MATH.random st.rng).1) / ((IMAGE_WIDTH : Nat) : F))
      (v + ((ry : F) + (MATH.random (MATH.random st.rng).2).1)
        / ((IMAGE_HEIGHT : Nat) : F)) = r
  by_cases hguard : 0 ≤ x ∧ x < IMAGE_WIDTH ∧ 0 ≤ y ∧ y < IMAGE_HEIGHT
  · rw [if_pos hguard]
    have hW : ((IMAGE_WIDTH : Nat) : Int) = 250 := by simp only [IMAGE_WIDTH]; norm_num
    have hH : ((IMAGE_HEIGHT : Nat) : Int) = 250 := by simp only [IMAGE_HEIGHT]; norm_num
    obtain ⟨hx0, hx1, hy0, hy1⟩ := hguard
    rw [hW] at hx1
    rw [hH] at hy1
    obtain ⟨h1, h2, h3⟩ := sendRayDraw_in_range sqrt toUChar toInt fuel g_world g_background
      r x y hx0 hx1 hy0 hy1 { st with rng := (MATH.random (MATH.random st.rng).2).2 }
    refine ⟨h1, fun st1 h => Or.inr ?_, fun B hg hf => h3 B (hrng B hg) hf⟩
    obtain ⟨c, hc⟩ := h2 st1 h
    exact ⟨x, y, c, hx0, hx1, hy0, hy1, hc⟩
  · rw [if_neg hguard]
    refine ⟨fun h => Outcome.noConfusion h, fun st1 h => Or.inl ?_,
      fun B hg _ => ⟨_, rfl, hrng B hg⟩⟩
    rw [← Outcome.done.inj h]

/-- A loop whose body never makes an access outside the buffers makes
none. -/
theorem forIntUpTo_in_bounds {σ : Type} (bound : F) (body : Int → σ → Outcome σ)
    (hbody : ∀ i s, body i s ≠ .outOfBounds) :
    ∀ (steps : Nat) (i : Int) (st : σ), forIntUpTo bound body steps i st ≠ .outOfBounds := by
  intro steps
  induction steps with
  | zero =>
    intro i st h
    simp only [forIntUpTo] at h
    exact Outcome.noConfusion h
  | succ n ih =>
    intro i st
    simp only [forIntUpTo]
    by_cases hle : (i : F) ≤ bound
    · rw [if_pos hle]
      cases hb : body i st with
      | done st1 => exact ih (i + 1) st1
      | unfinished => exact fun h => Outcome.noConfusion h
      | outOfBounds => exact absurd hb (hbody i st)
    · rw [if_neg hle]
      exact fun h => Outcome.noConfusion h

/-- A loop finishes when `N` iterations pass the bound, the budget is above
`N`, and the body finishes from every state with a property that it carries
over. -/
theorem forIntUpTo_returns {σ : Type} (bound : F) (body : Int → σ → Outcome σ)
    (P : σ → Prop) (hbody : ∀ i s, P s → ∃ s1, body i s = .done s1 ∧ P s1) :
    ∀ (N steps : Nat) (i : Int) (st : σ), bound < (i : F) + N → N < steps → P st →
      ∃ st1, forIntUpTo bound body steps i st = .done st1 ∧ P st1 := by
  intro N
  induction N with
  | zero =>
    intro steps i st hN hsteps hP
    obtain ⟨n, rfl⟩ : ∃ n, steps = n + 1 := ⟨steps - 1, by omega⟩
    simp only [forIntUpTo]
    have hnot : ¬ (i : F) ≤ bound := by
      rw [Nat.cast_zero, add_zero] at hN
      exact not_le.mpr hN
    rw [if_neg hnot]
    exact ⟨st, rfl, hP⟩
  | succ N ih =>
    intro steps i st hN hsteps hP
    obtain ⟨n, rfl⟩ : ∃ n, steps = n + 1 := ⟨steps - 1, by omega⟩
    simp only [forIntUpTo]
    by_cases hle : (i : F) ≤ bound
    · rw [if_pos hle]
      obtain ⟨s1, hs1, hP1⟩ := hbody i st hP
      rw [hs1]
      refine ih n (i + 1) s1 ?_ (by omega) hP1
      push_cast at hN ⊢
      linarith
    · rw [if_neg hle]
      exact ⟨st, rfl, hP⟩

/-- Claim C34.  For every `u`, `v`, `radius`, every random stream and every
conversion `int(float)`: a run of `sendRay` makes no access outside the
buffers.  Each iteration of its inner loop that finishes has left the buffers
as they were or has accumulated into one pixel with `0 ≤ x < 250` and
`0 ≤ y < 250`, whose index `y*250 + x` lies inside the counter vector, the
sum vector and the byte buffer.  The run finishes when the loop budget covers
the iterations and the rejection loop is bounded. -/
theorem sendRay_in_bounds (sqrt : F → F) (toUChar : F → Nat) (toInt : F → Int)
    (steps fuel : Nat) (g_camera : Camera F) (g_world : List (Hittable F))
    (g_background : vec3 F) (st : RenderState F) (u v radius : F) :
    sendRay sqrt toUChar toInt steps fuel g_camera g_world g_background st u v radius
      ≠ .outOfBounds ∧
    (∀ (rx ry : Int) (s s1 : RenderState F),
      sendRayBody sqrt toUChar toInt fuel g_camera g_world g_background u v radius rx ry s
        = .done s1 →
      s1.fb = s.fb ∨
      ∃ (x y : Int) (c : vec3 F), 0 ≤ x ∧ x < 250 ∧ 0 ≤ y ∧ y < 250 ∧
        draw toUChar s.fb x y c = some s1.fb ∧
        (y * 250 + x).toNat < IMAGE_WIDTH * IMAGE_HEIGHT ∧
        (y * 250 + x).toNat * COLOR_CHANNELS + 2
          < IMAGE_WIDTH * IMAGE_HEIGHT * COLOR_CHANNELS ∧
        (y * 250 + x).toNat * BUFFER_CHANNELS + 3 < BUFFER_LENGTH) ∧
    (∀ B N : Nat, MATH.acceptsWithin B st.rng → B ≤ fuel →
      radius < ((toInt (-radius) : Int) : F) + N → N < steps →
      ∃ st1, sendRay sqrt toUChar toInt steps fuel g_camera g_world g_background st u v radius
        = .done st1) := by
  refine ⟨?_, ?_, ?_⟩
  · unfold sendRay
    exact forIntUpTo_in_bounds radius _
      (fun rx s1 => forIntUpTo_in_bounds radius _
        (fun ry s2 => (sendRayBody_in_bounds sqrt toUChar toInt fuel g_camera g_world
          g_background u v radius rx ry s2).1) steps (toInt (-radius)) s1)
      steps (toInt (-radius)) st
  · intro rx ry s s1 h
    rcases (sendRayBody_in_bounds sqrt toUChar toInt fuel g_camera g_world g_background
      u v radius rx ry s).2.1 s1 h with h1 | ⟨x, y, c, hx0, hx1, hy0, hy1, hd⟩
    · exact Or.inl h1
    · obtain ⟨_, hlt⟩ := pixel_index x y hx0 hx1 hy0 hy1
      refine Or.inr ⟨x, y, c, hx0, hx1, hy0, hy1, hd, ?_, ?_, ?_⟩
      · simp only [IMAGE_WIDTH, IMAGE_HEIGHT]
        omega
      · simp only [IMAGE_WIDTH, IMAGE_HEIGHT, COLOR_CHANNELS]
        omega
      · simp only [BUFFER_LENGTH, IMAGE_WIDTH, IMAGE_HEIGHT, BUFFER_CHANNELS]
        omega
  · intro B N hg hf hN hsteps
    unfold sendRay
    obtain ⟨st1, h, _⟩ := forIntUpTo_returns radius
      (fun rx s1 => forIntUpTo radius (fun ry s2 =>
        sendRayBody sqrt toUChar toInt fuel g_camera g_world g_background u v radius rx ry s2)
        steps (toInt (-radius)) s1)
      (fun s => MATH.acceptsWithin B s.rng)
      (fun rx s hs => forIntUpTo_returns radius
        (fun ry s2 =>
          sendRayBody sqrt toUChar toInt fuel g_camera g_world g_background u v radius rx ry s2)
        (fun s => MATH.acceptsWithin B s.rng)
        (fun ry s2 hs2 => (sendRayBody_in_bounds sqrt toUChar toInt fuel g_camera g_world
          g_background u v radius rx ry s2).2.2 B hs2 hf)
        N steps (toInt (-radius)) s hN hsteps hs)
      N steps (toInt (-radius)) st hN hsteps hg
    exact ⟨st1, h⟩

/-- Witness for C34: radius 1 around the centre of the image, from empty
buffers with the constant stream 1/2; three iterations of each loop pass the
bound. -/
theorem sendRay_in_bounds_witness :
    MATH.acceptsWithin 1 (constRng (1 / 2)) ∧
    (1 : ℚ) < ((toIntQ (-1) : Int) : ℚ) + (3 : Nat) ∧
    (∃ st1, sendRay sqrtQ toUCharQ toIntQ 4 1 zCamera
        [.Triangle (planeTriangle 4 whiteLight)] ⟨2 / 5, 2 / 5, 1⟩
        { fb := emptyFrame, rng := constRng (1 / 2) } (1 / 2) (1 / 2) 1 = .done st1) ∧
    sendRay sqrtQ toUCharQ toIntQ 4 1 zCamera
        [.Triangle (planeTriangle 4 whiteLight)] ⟨2 / 5, 2 / 5, 1⟩
        { fb := emptyFrame, rng := constRng (1 / 2) } (1 / 2) (1 / 2) 1 ≠ .outOfBounds := by
  have hc : ⌈(-1 : ℚ)⌉ = -1 := by
    rw [Int.ceil_eq_iff]
    norm_num
  have hN : (1 : ℚ) < ((toIntQ (-1) : Int) : ℚ) + (3 : Nat) := by
    norm_num [toIntQ, hc]
  have h := sendRay_in_bounds sqrtQ toUCharQ toIntQ 4 1 zCamera
    [.Triangle (planeTriangle 4 whiteLight)] ⟨2 / 5, 2 / 5, 1⟩
    { fb := emptyFrame, rng := constRng (1 / 2) } (1 / 2) (1 / 2) 1
  exact ⟨constRng_acceptsWithin, hN,
    h.2.2 1 3 constRng_acceptsWithin (le_refl 1) hN (by norm_num), h.1⟩

end SendRayProofs

/-! ## `reflect` -/

section ReflectProofs

variable {F : Type} [LinearOrderedField F]

/-- Claim C36.  For every vector `v` and every normal `n` of unit length
(squared length 1): reflecting twice gives `v` back, the squared length of
the reflection is that of `v`, and the component along `n` changes sign. -/
theorem reflect_involution (v n : vec3 F) (hn : n.length_squared = 1) :
    reflect (reflect v n) n = v ∧
    (reflect v n).length_squared = v.length_squared ∧
    dot (reflect v n) n = -dot v n := by
  have hn1 : n.x * n.x + n.y * n.y + n.z * n.z = 1 := hn
  refine ⟨?_, ?_, ?_⟩
  · ext
    · simp only [reflect, dot, vec3.sub_def, vec3.smul_def]
      linear_combination (4 * (v.x * n.x + v.y * n.y + v.z * n.z) * n.x) * hn1
    · simp only [reflect, dot, vec3.sub_def, vec3.smul_def]
      linear_combination (4 * (v.x * n.x + v.y * n.y + v.z * n.z) * n.y) * hn1
    · simp only [reflect, dot, vec3.sub_def, vec3.smul_def]
      linear_combination (4 * (v.x * n.x + v.y * n.y + v.z * n.z) * n.z) * hn1
  · simp only [reflect, dot, vec3.length_squared, vec3.sub_def, vec3.smul_def]
    linear_combination (4 * (v.x * n.x + v.y * n.y + v.z * n.z) ^ 2) * hn1
  · simp only [reflect, dot, vec3.sub_def, vec3.smul_def]
    linear_combination (-2 * (v.x * n.x + v.y * n.y + v.z * n.z)) * hn1

/-- Witness for C36: the vector (1,2,3) and the normal (0,0,1); the
reflection is (1,2,-3). -/
theorem reflect_involution_witness :
    (⟨0, 0, 1⟩ : vec3 ℚ).length_squared = 1 ∧
    reflect (reflect (⟨1, 2, 3⟩ : vec3 ℚ) ⟨0, 0, 1⟩) ⟨0, 0, 1⟩ = ⟨1, 2, 3⟩ ∧
    (reflect (⟨1, 2, 3⟩ : vec3 ℚ) ⟨0, 0, 1⟩).length_squared
      = (⟨1, 2, 3⟩ : vec3 ℚ).length_squared ∧
    dot (reflect (⟨1, 2, 3⟩ : vec3 ℚ) ⟨0, 0, 1⟩) ⟨0, 0, 1⟩
      = -dot (⟨1, 2, 3⟩ : vec3 ℚ) ⟨0, 0, 1⟩ :=
  ⟨by norm_num [vec3.length_squared],
    reflect_involution ⟨1, 2, 3⟩ ⟨0, 0, 1⟩ (by norm_num [vec3.length_squared])⟩

end ReflectProofs

/-! ## The running average of `draw` -/

section AverageProofs

variable {F : Type} [LinearOrderedField F]

/-- After `clear` the counter and the three sums of an in-range pixel are
zero. -/
theorem clear_pixel (fb : FrameBuffer F) (i : Nat) (hi : i < 62500) :
    (clear fb).rayCounter i = 0 ∧ (clear fb).data (i * 3) = 0 ∧
    (clear fb).data (i * 3 + 1) = 0 ∧ (clear fb).data (i * 3 + 2) = 0 := by
  have h1 : i < IMAGE_WIDTH * IMAGE_HEIGHT := by
    simp only [IMAGE_WIDTH, IMAGE_HEIGHT]; omega
  have h2 : ∀ k, k < 3 → i * 3 + k < IMAGE_WIDTH * IMAGE_HEIGHT * COLOR_CHANNELS := by
    intro k hk
    simp only [IMAGE_WIDTH, IMAGE_HEIGHT, COLOR_CHANNELS]; omega
  refine ⟨?_, ?_, ?_, ?_⟩
  · show (if i < IMAGE_WIDTH * IMAGE_HEIGHT then (0 : F) else fb.rayCounter i) = 0
    rw [if_pos h1]
  · show (if i * 3 < IMAGE_WIDTH * IMAGE_HEIGHT * COLOR_CHANNELS then (0 : F)
      else fb.data (i * 3)) = 0
    rw [if_pos (by simpa using h2 0 (by norm_num))]
  · show (if i * 3 + 1 < IMAGE_WIDTH * IMAGE_HEIGHT * COLOR_CHANNELS then (0 : F)
      else fb.data (i * 3 + 1)) = 0
    rw [if_pos (h2 1 (by norm_num))]
  · show (if i * 3 + 2 < IMAGE_WIDTH * IMAGE_HEIGHT * COLOR_CHANNELS then (0 : F)
      else fb.data (i * 3 + 2)) = 0
    rw [if_pos (h2 2 (by norm_num))]

/-- The average of `n ≥ 1` copies of `c` added to zero is `c`. -/
theorem average_of_copies (n : Nat) (hn : 1 ≤ n) (c : F) :
    (0 + (n : F) * c) / (0 + (n : F)) = c := by
  have hne : (n : F) ≠ 0 := Nat.cast_ne_zero.mpr (by omega)
  rw [zero_add, zero_add, mul_comm, mul_div_assoc, div_self hne, mul_one]

/-- Claim C35.  In a cleared buffer, after `N ≥ 1` calls of `draw` with the
same colour `C` at an in-range pixel the running average `sum/count` of each
channel is the channel of `C`, for every `N`; the four bytes of the pixel are
then the same as after a single call. -/
theorem draw_average_constant (toUChar : F → Nat) (fb : FrameBuffer F) (x y : Int)
    (color : vec3 F) (hx0 : 0 ≤ x) (hx1 : x < 250) (hy0 : 0 ≤ y) (hy1 : y < 250)
    (N : Nat) (hN : 1 ≤ N) :
    ∃ fbN fb1 : FrameBuffer F,
      drawTimes toUChar N (clear fb) x y color = some fbN ∧
      drawTimes toUChar 1 (clear fb) x y color = some fb1 ∧
      fbN.data ((y * 250 + x).toNat * 3) / fbN.rayCounter (y * 250 + x).toNat = color.x ∧
      fbN.data ((y * 250 + x).toNat * 3 + 1) / fbN.rayCounter (y * 250 + x).toNat = color.y ∧
      fbN.data ((y * 250 + x).toNat * 3 + 2) / fbN.rayCounter (y * 250 + x).toNat = color.z ∧
      fbN.byteBuffer ((y * 250 + x).toNat * 4) = fb1.byteBuffer ((y * 250 + x).toNat * 4) ∧
      fbN.byteBuffer ((y * 250 + x).toNat * 4 + 1)
        = fb1.byteBuffer ((y * 250 + x).toNat * 4 + 1) ∧
      fbN.byteBuffer ((y * 250 + x).toNat * 4 + 2)
        = fb1.byteBuffer ((y * 250 + x).toNat * 4 + 2) ∧
      fbN.byteBuffer ((y * 250 + x).toNat * 4 + 3)
        = fb1.byteBuffer ((y * 250 + x).toNat * 4 + 3) := by
  obtain ⟨_, hlt⟩ := pixel_index x y hx0 hx1 hy0 hy1
  obtain ⟨hc, hd0, hd1, hd2⟩ := clear_pixel fb _ hlt
  obtain ⟨fbN, hN1, hNc, hN0, hN1d, hN2d, hNb⟩ :=
    drawTimes_state toUChar (clear fb) x y color hx0 hx1 hy0 hy1 N
  obtain ⟨fb1, h11, h1c, h10, h11d, h12d, h1b⟩ :=
    drawTimes_state toUChar (clear fb) x y color hx0 hx1 hy0 hy1 1
  obtain ⟨bN0, bN1, bN2, bN3⟩ := hNb hN
  obtain ⟨b10, b11, b12, b13⟩ := h1b (le_refl 1)
  have aN0 : fbN.data ((y * 250 + x).toNat * 3) / fbN.rayCounter (y * 250 + x).toNat
      = color.x := by
    rw [hN0, hNc, hd0, hc]; exact average_of_copies N hN _
  have aN1 : fbN.data ((y * 250 + x).toNat * 3 + 1) / fbN.rayCounter (y * 250 + x).toNat
      = color.y := by
    rw [hN1d, hNc, hd1, hc]; exact average_of_copies N hN _
  have aN2 : fbN.data ((y * 250 + x).toNat * 3 + 2) / fbN.rayCounter (y * 250 + x).toNat
      = color.z := by
    rw [hN2d, hNc, hd2, hc]; exact average_of_copies N hN _
  have a10 : fb1.data ((y * 250 + x).toNat * 3) / fb1.rayCounter (y * 250 + x).toNat
      = color.x := by
    rw [h10, h1c, hd0, hc]; exact average_of_copies 1 (le_refl 1) _
  have a11 : fb1.data ((y * 250 + x).toNat * 3 + 1) / fb1.rayCounter (y * 250 + x).toNat
      = color.y := by
    rw [h11d, h1c, hd1, hc]; exact average_of_copies 1 (le_refl 1) _
  have a12 : fb1.data ((y * 250 + x).toNat * 3 + 2) / fb1.rayCounter (y * 250 + x).toNat
      = color.z := by
    rw [h12d, h1c, hd2, hc]; exact average_of_copies 1 (le_refl 1) _
  refine ⟨fbN, fb1, hN1, h11, aN0, aN1, aN2, ?_, ?_, ?_, ?_⟩
  · rw [bN0, b10, aN0, a10]
  · rw [bN1, b11, aN1, a11]
  · rw [bN2, b12, aN2, a12]
  · rw [bN3, b13]

/-- Witness for C35: seven samples of the colour (3/8, 1/2, 1) at the pixel
(3, 2). -/
theorem draw_average_constant_witness :
    ∃ fbN fb1 : FrameBuffer ℚ,
      drawTimes toUCharQ 7 (clear emptyFrame) 3 2 ⟨3 / 8, 1 / 2, 1⟩ = some fbN ∧
      drawTimes toUCharQ 1 (clear emptyFrame) 3 2 ⟨3 / 8, 1 / 2, 1⟩ = some fb1 ∧
      fbN.data (((2 : Int) * 250 + 3).toNat * 3) / fbN.rayCounter ((2 : Int) * 250 + 3).toNat
        = 3 / 8 ∧
      fbN.data (((2 : Int) * 250 + 3).toNat * 3 + 1)
        / fbN.rayCounter ((2 : Int) * 250 + 3).toNat = 1 / 2 ∧
      fbN.data (((2 : Int) * 250 + 3).toNat * 3 + 2)
        / fbN.rayCounter ((2 : Int) * 250 + 3).toNat = 1 ∧
      fbN.byteBuffer (((2 : Int) * 250 + 3).toNat * 4)
        = fb1.byteBuffer (((2 : Int) * 250 + 3).toNat * 4) ∧
      fbN.byteBuffer (((2 : Int) * 250 + 3).toNat * 4 + 1)
        = fb1.byteBuffer (((2 : Int) * 250 + 3).toNat * 4 + 1) ∧
      fbN.byteBuffer (((2 : Int) * 250 + 3).toNat * 4 + 2)
        = fb1.byteBuffer (((2 : Int) * 250 + 3).toNat * 4 + 2) ∧
      fbN.byteBuffer (((2 : Int) * 250 + 3).toNat * 4 + 3)
        = fb1.byteBuffer (((2 : Int) * 250 + 3).toNat * 4 + 3) :=
  draw_average_constant toUCharQ emptyFrame 3 2 ⟨3 / 8, 1 / 2, 1⟩ (by norm_num) (by norm_num)
    (by norm_num) (by norm_num) 7 (by norm_num)

end AverageProofs

/-! ## The value of `trace` after a successful scatter -/

section ScatterSuccess

variable {F : Type} [LinearOrderedField F]

/-- Claim C3.  With depth at least 1, when the scene test hits a surface with
material `m` and `m.scatter` succeeds with attenuation `s.outColor` and
scattered ray `s.scattered`: whenever `trace` returns the colour `c` for the
scattered ray at `depth - 1`, it returns `m.emitted + s.outColor * c`
(component-wise product) for the ray at `depth`, with the same remaining
stream; the call for the scattered ray does return a colour when the
rejection loop is bounded on the stream that `scatter` left, so `trace` then
returns a colour of that form; and in every case the outcome at `depth` is
the outcome at `depth - 1` mapped by `c ↦ m.emitted + s.outColor * c`. -/
theorem trace_scatter_success (sqrt : F → F) (fuel : Nat) (g_background : vec3 F)
    (r : Ray F) (hittable : Hittable F) (depth : Int) (g : Rng F)
    (m : Material F) (s : ScatterResult F) (hd : 1 ≤ depth)
    (hhit : (hittable.trace sqrt r T_MIN INF hit.default).1 = true)
    (hmat : (hittable.trace sqrt r T_MIN INF hit.default).2.mat_ptr = some m)
    (hsc : m.scatter sqrt fuel r (hittable.trace sqrt r T_MIN INF hit.default).2
      vec3.zero Ray.default g = some s)
    (hok : s.ok = true) :
    (∀ (c : vec3 F) (g2 : Rng F),
      trace sqrt fuel g_background s.scattered hittable (depth - 1) s.rng = some (c, g2) →
      trace sqrt fuel g_background r hittable depth g
        = some (m.emitted + s.outColor * c, g2)) ∧
    (∀ B : Nat, MATH.acceptsWithin B s.rng → B ≤ fuel →
      ∃ (c : vec3 F) (n : Nat),
        trace sqrt fuel g_background s.scattered hittable (depth - 1) s.rng
          = some (c, MATH.afterDraws n s.rng) ∧
        trace sqrt fuel g_background r hittable depth g
          = some (m.emitted + s.outColor * c, MATH.afterDraws n s.rng)) ∧
    trace sqrt fuel g_background r hittable depth g =
      (trace sqrt fuel g_background s.scattered hittable (depth - 1) s.rng).map
        (fun tr => (m.emitted + s.outColor * tr.1, tr.2)) := by
  have hmap : trace sqrt fuel g_background r hittable depth g =
      (trace sqrt fuel g_background s.scattered hittable (depth - 1) s.rng).map
        (fun tr => (m.emitted + s.outColor * tr.1, tr.2)) := by
    rw [trace]
    have hd2 : ¬ depth ≤ 0 := by omega
    simp only [hd2, hhit, hmat, hsc, hok]
    cases trace sqrt fuel g_background s.scattered hittable (depth - 1) s.rng <;> simp
  refine ⟨fun c g2 hrec => ?_, fun B hg hf => ?_, hmap⟩
  · rw [hmap, hrec]
    rfl
  · obtain ⟨c, n, hrec⟩ := trace_returns sqrt B fuel g_background hittable hf
      (depth - 1).toNat (depth - 1) (Int.self_le_toNat _) s.scattered s.rng hg
    refine ⟨c, n, hrec, ?_⟩
    rw [hmap, hrec]
    rfl

/-- Witness for C3: an `Unlit` triangle of colour (1/2,1/2,1/2) at depth 2
before the background (2/5, 2/5, 1).  The scattered ray is the untouched
default ray of `trace`, which misses the triangle, so the call at depth 1
returns the background and the call at depth 2 returns
(1/2,1/2,1/2) + (1/2,1/2,1/2) * (2/5,2/5,1). -/
theorem trace_scatter_success_witness :
    MATH.acceptsWithin 1 (constRng (1 / 2)) ∧
    trace sqrtQ 1 ⟨2 / 5, 2 / 5, 1⟩ Ray.default
        (.Triangle (planeTriangle 4 (.Unlit ⟨1 / 2, 1 / 2, 1 / 2⟩))) (2 - 1) (constRng (1 / 2))
      = some (⟨2 / 5, 2 / 5, 1⟩, constRng (1 / 2)) ∧
    trace sqrtQ 1 ⟨2 / 5, 2 / 5, 1⟩ zRay
        (.Triangle (planeTriangle 4 (.Unlit ⟨1 / 2, 1 / 2, 1 / 2⟩))) 2 (constRng (1 / 2))
      = some ((Material.Unlit ⟨1 / 2, 1 / 2, 1 / 2⟩).emitted
          + (⟨1 / 2, 1 / 2, 1 / 2⟩ : vec3 ℚ) * ⟨2 / 5, 2 / 5, 1⟩, constRng (1 / 2)) ∧
    (∃ (c : vec3 ℚ) (n : Nat),
      trace sqrtQ 1 ⟨2 / 5, 2 / 5, 1⟩ Ray.default
          (.Triangle (planeTriangle 4 (.Unlit ⟨1 / 2, 1 / 2, 1 / 2⟩))) (2 - 1)
          (constRng (1 / 2))
        = some (c, MATH.afterDraws n (constRng (1 / 2))) ∧
      trace sqrtQ 1 ⟨2 / 5, 2 / 5, 1⟩ zRay
          (.Triangle (planeTriangle 4 (.Unlit ⟨1 / 2, 1 / 2, 1 / 2⟩))) 2 (constRng (1 / 2))
        = some ((Material.Unlit ⟨1 / 2, 1 / 2, 1 / 2⟩).emitted
            + (⟨1 / 2, 1 / 2, 1 / 2⟩ : vec3 ℚ) * c, MATH.afterDraws n (constRng (1 / 2)))) := by
  have hrec : trace sqrtQ 1 ⟨2 / 5, 2 / 5, 1⟩ Ray.default
      (.Triangle (planeTriangle 4 (.Unlit ⟨1 / 2, 1 / 2, 1 / 2⟩))) (2 - 1) (constRng (1 / 2))
      = some (⟨2 / 5, 2 / 5, 1⟩, constRng (1 / 2)) := by
    rw [trace]
    norm_num [Hittable.trace, Triangle.trace, planeTriangle, Ray.default, vec3.zero, T_MIN, INF,
      EPSILON, cross, dot, Ray.at]
  have h := trace_scatter_success sqrtQ 1 ⟨2 / 5, 2 / 5, 1⟩ zRay
    (.Triangle (planeTriangle 4 (.Unlit ⟨1 / 2, 1 / 2, 1 / 2⟩))) 2 (constRng (1 / 2))
    (.Unlit ⟨1 / 2, 1 / 2, 1 / 2⟩)
    { ok := true, outColor := ⟨1 / 2, 1 / 2, 1 / 2⟩, scattered := Ray.default,
      rng := constRng (1 / 2) }
    (by norm_num)
    (by norm_num [Hittable.trace, Triangle.trace, planeTriangle, zRay, T_MIN, INF, EPSILON,
          cross, dot, Ray.at])
    (by norm_num [Hittable.trace, Triangle.trace, planeTriangle, zRay, T_MIN, INF, EPSILON,
          cross, dot, Ray.at])
    (by simp [Material.scatter])
    rfl
  exact ⟨constRng_acceptsWithin, hrec, h.1 _ _ hrec,
    h.2.1 1 constRng_acceptsWithin (le_refl 1)⟩

end ScatterSuccess

end Ludumdare51
